import Mathlib

/-!
# CWBF: a bounded-tape Brainfuck interpreter (`src/cwbf.c`)

A shallow embedding of the interpreter's state, validator and execution
engine, followed by theorems about them.

Conventions of the embedding:

* `char` buffers are `List Char`; `uint8_t` cells are `Nat` with the wrap
  `% 256` written at every store that can leave the range;
* `size_t` values are `Nat`; the two operations that the code does not guard
  (`memory_size - 1` and `data_ptr + 5`) wrap modulo `2 ^ 64`;
* the heap arrays `memory`, `program` and `bracket_stack` are lists, read
  with a default and written with `List.set`; the size fields of the C
  structure are kept as fields, and a theorem that needs a size field to be
  the length of its list says so in a hypothesis;
* `stdin` is the list of bytes not yet consumed, `stdout` the list of bytes
  written so far, `stderr` the list of debug records written so far;
* the `while` loop of `bf_execute_program` takes a fuel argument that counts
  loop iterations; `none` means that the fuel ran out.
-/

namespace CWBF

/-! ## Constants and the error taxonomy -/

def MEMORY_SIZE : Nat := 30000
def STACK_SIZE : Nat := 1000
def MAX_NESTING : Nat := 1000
def MAX_PROGRAM_SIZE : Nat := 1000000

/-- Width of `size_t` on the targets the interpreter is built for. -/
def SIZE_BITS : Nat := 64

/-- The value `stdio` calls `EOF`. -/
def EOF : Int := -1

inductive bf_error_t where
  | BF_OK
  | BF_ERROR_MEMORY_OVERFLOW
  | BF_ERROR_MEMORY_UNDERFLOW
  | BF_ERROR_UNMATCHED_BRACKET
  | BF_ERROR_NESTING_TOO_DEEP
  | BF_ERROR_INVALID_INPUT
  | BF_ERROR_FILE_NOT_FOUND
  | BF_ERROR_PROGRAM_TOO_LARGE
  | BF_ERROR_STACK_OVERFLOW
  | BF_ERROR_INVALID_OPERATION
  deriving DecidableEq, Repr

open bf_error_t

/-- One record written to `stderr` by `bf_debug_state`. -/
inductive bf_debug_out where
  /-- The first `fprintf`: program counter, data pointer, current value, stack top. -/
  | header (program_ptr data_ptr current stack_top : Nat)
  /-- The text that introduces the memory window. -/
  | label
  /-- The cell under the data pointer, printed as `[v]`. -/
  | current_cell (value : Nat)
  /-- Any other cell of the window, printed as ` v `. -/
  | other_cell (value : Nat)
  /-- The closing line break. -/
  | newline
  deriving DecidableEq, Repr

structure bf_state_t where
  memory : List Nat
  memory_size : Nat
  data_ptr : Nat
  program_ptr : Nat
  program : List Char
  program_size : Nat
  bracket_stack : List Nat
  stack_top : Nat
  stack_size : Nat
  debug_mode : Bool
  input : List Nat
  output : List Nat
  /-- The `stderr` stream, which only `bf_debug_state` writes during a run. -/
  err : List bf_debug_out
  last_error : bf_error_t
  error_message : String
  deriving DecidableEq, Repr

def bf_error_string : bf_error_t → String
  | BF_OK => "成功"
  | BF_ERROR_MEMORY_OVERFLOW => "内存溢出"
  | BF_ERROR_MEMORY_UNDERFLOW => "内存下溢"
  | BF_ERROR_UNMATCHED_BRACKET => "括号不匹配"
  | BF_ERROR_NESTING_TOO_DEEP => "嵌套过深"
  | BF_ERROR_INVALID_INPUT => "无效输入"
  | BF_ERROR_FILE_NOT_FOUND => "文件未找到"
  | BF_ERROR_PROGRAM_TOO_LARGE => "程序过大"
  | BF_ERROR_STACK_OVERFLOW => "栈溢出"
  | BF_ERROR_INVALID_OPERATION => "无效操作"

/-- Records the error kind and its message; touches nothing else. -/
def bf_set_error (state : bf_state_t) (error : bf_error_t) (msg : Option String) : bf_state_t :=
  match msg with
  | some m => { state with last_error := error, error_message := m }
  | none => { state with last_error := error, error_message := bf_error_string error }

/-- The state `bf_create_state` returns when its three allocations succeed:
zeroed tape and stack (`calloc`), `stdin` bound as the input stream. -/
def bf_create_state (debug_mode : Bool) (stdin : List Nat) : bf_state_t :=
  { memory := List.replicate MEMORY_SIZE 0
    memory_size := MEMORY_SIZE
    data_ptr := 0
    program_ptr := 0
    program := []
    program_size := 0
    bracket_stack := List.replicate STACK_SIZE 0
    stack_top := 0
    stack_size := STACK_SIZE
    debug_mode := debug_mode
    input := stdin
    output := []
    err := []
    last_error := BF_OK
    error_message := "" }

/-! ## Validation -/

/-- The body of the `for` loop of `bf_validate_program`, run over the symbols
that are left; the three `int` counters are threaded through. The loop
returns as soon as a counter leaves `[0, MAX_NESTING]`, so the counters stay
far from the ends of `int` and are plain integers here. -/
def bf_validate_loop : List Char → Int → Int → Int → bf_error_t
  | [], bracket_count, _, _ =>
    if bracket_count ≠ 0 then BF_ERROR_UNMATCHED_BRACKET else BF_OK
  | c :: rest, bracket_count, max_nesting, current_nesting =>
    if c = '[' then
      let current_nesting := current_nesting + 1
      let bracket_count := bracket_count + 1
      if current_nesting > (MAX_NESTING : Int) then BF_ERROR_NESTING_TOO_DEEP
      else
        let max_nesting := if current_nesting > max_nesting then current_nesting else max_nesting
        bf_validate_loop rest bracket_count max_nesting current_nesting
    else if c = ']' then
      let bracket_count := bracket_count - 1
      let current_nesting := current_nesting - 1
      if bracket_count < 0 then BF_ERROR_UNMATCHED_BRACKET
      else bf_validate_loop rest bracket_count max_nesting current_nesting
    else bf_validate_loop rest bracket_count max_nesting current_nesting

/-- Validation of the first `size` symbols of `program`. -/
def bf_validate_program (program : List Char) (size : Nat) : bf_error_t :=
  bf_validate_loop (program.take size) 0 0 0

/-! ## Debug instrumentation -/

/-- The indices `i` visited by `for (i = start; i <= end; i++)` in
`bf_debug_state`. -/
def bf_debug_window (state : bf_state_t) : List Nat :=
  let start := if state.data_ptr > 5 then state.data_ptr - 5 else 0
  let end_ := if (state.data_ptr + 5) % 2 ^ SIZE_BITS < state.memory_size
    then (state.data_ptr + 5) % 2 ^ SIZE_BITS
    else (state.memory_size + 2 ^ SIZE_BITS - 1) % 2 ^ SIZE_BITS
  List.range' start (end_ + 1 - start)

def bf_debug_state (state : bf_state_t) : bf_state_t :=
  if !state.debug_mode then state
  else
    { state with
      err := state.err
        ++ [bf_debug_out.header state.program_ptr state.data_ptr
              (state.memory.getD state.data_ptr 0) state.stack_top,
            bf_debug_out.label]
        ++ (bf_debug_window state).map (fun i =>
              if i = state.data_ptr then bf_debug_out.current_cell (state.memory.getD i 0)
              else bf_debug_out.other_cell (state.memory.getD i 0))
        ++ [bf_debug_out.newline] }

/-! ## Execution engine -/

/-- What `fgetc` returns and what is left of the stream: the next byte as a
non-negative `int`, or `EOF` once the stream is exhausted. -/
def fgetc (stream : List Nat) : Int × List Nat :=
  match stream with
  | [] => (EOF, [])
  | b :: rest => ((b : Int), rest)

/-- The forward scan of the `[` case:
`while (bracket_count > 0 && ++program_ptr < program_size) ...`.
The first argument bounds the number of iterations; `program_size - program_ptr`
is always enough (`bf_scan_forward_fuel`). Returns the final `program_ptr` and
`bracket_count`. The `int` counter is an unbounded integer here: it cannot
overflow on a program of fewer than `2 ^ 31` symbols. -/
def bf_scan_forward (program : List Char) (program_size : Nat) :
    Nat → Nat → Int → Nat × Int
  | 0, program_ptr, bracket_count => (program_ptr, bracket_count)
  | fuel + 1, program_ptr, bracket_count =>
    if bracket_count > 0 then
      let program_ptr := program_ptr + 1
      if program_ptr < program_size then
        let c := program.getD program_ptr (Char.ofNat 0)
        let bracket_count :=
          if c = '[' then bracket_count + 1
          else if c = ']' then bracket_count - 1
          else bracket_count
        bf_scan_forward program program_size fuel program_ptr bracket_count
      else (program_ptr, bracket_count)
    else (program_ptr, bracket_count)

def bf_execute_instruction (state : bf_state_t) : bf_error_t × bf_state_t :=
  if state.program_ptr ≥ state.program_size then (BF_OK, state)
  else
    let instruction := state.program.getD state.program_ptr (Char.ofNat 0)
    let state := bf_debug_state state
    if instruction = '>' then
      if state.data_ptr ≥ (state.memory_size + 2 ^ SIZE_BITS - 1) % 2 ^ SIZE_BITS then
        (BF_ERROR_MEMORY_OVERFLOW,
          bf_set_error state BF_ERROR_MEMORY_OVERFLOW (some "数据指针溢出"))
      else (BF_OK, { state with data_ptr := state.data_ptr + 1 })
    else if instruction = '<' then
      if state.data_ptr = 0 then
        (BF_ERROR_MEMORY_UNDERFLOW,
          bf_set_error state BF_ERROR_MEMORY_UNDERFLOW (some "数据指针下溢"))
      else (BF_OK, { state with data_ptr := state.data_ptr - 1 })
    else if instruction = '+' then
      (BF_OK, { state with
        memory := state.memory.set state.data_ptr
          ((state.memory.getD state.data_ptr 0 + 1) % 256) })
    else if instruction = '-' then
      (BF_OK, { state with
        memory := state.memory.set state.data_ptr
          ((state.memory.getD state.data_ptr 0 + 256 - 1) % 256) })
    else if instruction = '.' then
      (BF_OK, { state with output := state.output ++ [state.memory.getD state.data_ptr 0] })
    else if instruction = ',' then
      let input_char := (fgetc state.input).1
      let state := { state with input := (fgetc state.input).2 }
      if input_char ≠ EOF then
        (BF_OK, { state with
          memory := state.memory.set state.data_ptr (input_char % 256).toNat })
      else
        (BF_OK, { state with memory := state.memory.set state.data_ptr 0 })
    else if instruction = '[' then
      if state.memory.getD state.data_ptr 0 = 0 then
        let state := { state with
          program_ptr := (bf_scan_forward state.program state.program_size
            (state.program_size - state.program_ptr) state.program_ptr 1).1 }
        if state.program_ptr ≥ state.program_size then
          (BF_ERROR_UNMATCHED_BRACKET,
            bf_set_error state BF_ERROR_UNMATCHED_BRACKET (some "未匹配的 '['"))
        else (BF_OK, state)
      else
        if state.stack_top ≥ state.stack_size then
          (BF_ERROR_STACK_OVERFLOW,
            bf_set_error state BF_ERROR_STACK_OVERFLOW (some "括号栈溢出"))
        else
          (BF_OK, { state with
            bracket_stack := state.bracket_stack.set state.stack_top state.program_ptr
            stack_top := state.stack_top + 1 })
    else if instruction = ']' then
      if state.stack_top = 0 then
        (BF_ERROR_UNMATCHED_BRACKET,
          bf_set_error state BF_ERROR_UNMATCHED_BRACKET (some "未匹配的 ']'"))
      else if state.memory.getD state.data_ptr 0 ≠ 0 then
        (BF_OK, { state with
          program_ptr := state.bracket_stack.getD (state.stack_top - 1) 0 })
      else (BF_OK, { state with stack_top := state.stack_top - 1 })
    else (BF_OK, state)

/-- One pass through the body of the `while` loop of `bf_execute_program`:
dispatch, then either leave the loop with the error (`some result`) or
advance the instruction pointer and go round again (`none`). -/
def bf_execute_program_body (state : bf_state_t) : Option bf_error_t × bf_state_t :=
  let result := (bf_execute_instruction state).1
  let state := (bf_execute_instruction state).2
  if result ≠ BF_OK then (some result, state)
  else (none, { state with program_ptr := state.program_ptr + 1 })

/-- The `while` loop of `bf_execute_program`; `fuel` bounds the number of
passes through its body, and `none` means that `fuel` passes were not enough. -/
def bf_execute_program : Nat → bf_state_t → Option (bf_error_t × bf_state_t)
  | fuel, state =>
    if state.program_ptr < state.program_size then
      match fuel with
      | 0 => none
      | fuel + 1 =>
        match bf_execute_program_body state with
        | (some result, state) => some (result, state)
        | (none, state) => bf_execute_program fuel state
    else some (BF_OK, state)

/-- The state after `n` passes through the loop body of `bf_execute_program`
(fewer when the loop has been left before). -/
def bf_execute_program_iterate : Nat → bf_state_t → bf_state_t
  | 0, state => state
  | n + 1, state =>
    if state.program_ptr < state.program_size then
      match bf_execute_program_body state with
      | (some _, state) => state
      | (none, state) => bf_execute_program_iterate n state
    else state

/-- The state in which `main` calls `bf_execute_program` after a successful
load of the instruction sequence `program`: the state of `bf_create_state`
with `program` and `program_size` filled in. -/
def bf_loaded_state (debug_mode : Bool) (stdin : List Nat) (program : List Char) : bf_state_t :=
  { bf_create_state debug_mode stdin with
    program := program
    program_size := program.length }

/-! ## Bracket structure of an instruction sequence, in the words of the specification -/

/-- Every prefix has at least as many `[` as `]`, and the totals are equal. -/
def brackets_balanced (s : List Char) : Prop :=
  (∀ n, n ≤ s.length → (s.take n).count ']' ≤ (s.take n).count '[') ∧
    s.count '[' = s.count ']'

/-- The nesting depth (the number of `[` not yet closed) is at most `m` after
every prefix. -/
def nesting_within (m : Nat) (s : List Char) : Prop :=
  ∀ n, n ≤ s.length → (s.take n).count '[' ≤ (s.take n).count ']' + m

instance (s : List Char) : Decidable (brackets_balanced s) := by
  unfold brackets_balanced; infer_instance

instance (m : Nat) (s : List Char) : Decidable (nesting_within m s) := by
  unfold nesting_within; infer_instance

/-- The symbols the validator looks at. -/
def is_bracket (c : Char) : Bool := c = '[' || c = ']'

/-- The sequence of `k` opening brackets followed by `k` closing brackets. -/
def nested_brackets (k : Nat) : List Char :=
  List.replicate k '[' ++ List.replicate k ']'

/-- The count of `[` minus the count of `]` in a stretch of the program. -/
def bracket_depth (l : List Char) : Int :=
  (l.count '[' : Int) - (l.count ']' : Int)

/-- The stretch `program[p..q]`, both ends included. -/
def program_slice (program : List Char) (p q : Nat) : List Char :=
  (program.drop p).take (q + 1 - p)

/-- Position `q` is the first position after `p` at which the count of `[`
minus `]` in `program[p..q]` returns to 0. -/
def matching_close (program : List Char) (p q : Nat) : Prop :=
  p < q ∧ q < program.length ∧ bracket_depth (program_slice program p q) = 0 ∧
    ∀ r, r < q → p < r → bracket_depth (program_slice program p r) ≠ 0

instance (program : List Char) (p q : Nat) : Decidable (matching_close program p q) := by
  unfold matching_close; infer_instance

/-- The instruction pointers at which the first `n` passes through the loop of
`bf_execute_program` dispatch, in order (fewer than `n` when the loop is left
before). -/
def bf_dispatch_trace : Nat → bf_state_t → List Nat
  | 0, _ => []
  | n + 1, state =>
    if state.program_ptr < state.program_size then
      state.program_ptr ::
        (match bf_execute_program_body state with
         | (some _, _) => []
         | (none, state) => bf_dispatch_trace n state)
    else []

/-- The state reached by the first four passes of the run of `++[-]`: the
instruction pointer is on the `]`, the current cell holds 1 and the position
of the `[` is on the bracket stack. -/
def loop_tail_state : bf_state_t :=
  bf_execute_program_iterate 4 (bf_loaded_state false [] "++[-]".toList)

/-- The state with debugging switched off, the debug stream erased and the
input stream replaced by `stdin`. -/
def bf_quiet (state : bf_state_t) (stdin : List Nat) : bf_state_t :=
  { state with debug_mode := false, err := [], input := stdin }

/-- The corpus program that prints `Hello`. -/
def hello : List Char :=
  "++++++++[>++++[>++>+++>+++>+<<<<-]>+>+>->>+[<]<-]>>.>---.+++++++..+++.".toList

/-- The program made of `n` times `+` followed by `[-]`. -/
def clear_loop (n : Nat) : List Char := List.replicate n '+' ++ "[-]".toList

/-- The states the run of `clear_loop n` goes through with debugging off and
no input: instruction pointer `pc`, first cell `v`, every other cell 0, data
pointer 0, stack top `top` and stack array `st`. -/
def clear_loop_state (n pc v top : Nat) (st : List Nat) : bf_state_t :=
  { bf_loaded_state false [] (clear_loop n) with
    program_ptr := pc
    memory := v :: List.replicate (MEMORY_SIZE - 1) 0
    stack_top := top
    bracket_stack := st }

/-! ## Further definitions: a tape of configurable length -/

/-- The state of `bf_loaded_state` when the tape length, the constant
`MEMORY_SIZE` of the source, is configured to `tape_length`. -/
def bf_loaded_state_sized (tape_length : Nat) (debug_mode : Bool) (stdin : List Nat)
    (program : List Char) : bf_state_t :=
  { bf_loaded_state debug_mode stdin program with
    memory := List.replicate tape_length 0
    memory_size := tape_length }

/-- The program that moves the first cell into the second. -/
def move_loop : List Char := "+[>+<-]".toList

/-- The states the run of `move_loop` goes through on a tape of `m + 2` cells
with debugging off and no input: instruction pointer `pc`, data pointer `dp`,
first two cells `a` and `b`, every other cell 0, stack top `top` and stack
array `st`. -/
def move_loop_state (m pc dp a b top : Nat) (st : List Nat) : bf_state_t :=
  { bf_loaded_state_sized (m + 2) false [] move_loop with
    program_ptr := pc
    data_ptr := dp
    memory := a :: b :: List.replicate m 0
    stack_top := top
    bracket_stack := st }

/-! ## Further definitions: the loader -/

/-- The eight-symbol alphabet. -/
def instruction_symbols : List Char := ['>', '<', '+', '-', '.', ',', '[', ']']

/-- The filter loop of `bf_load_program`,
`for (i = 0; i < bytes_read; i++) if (...) buffer[filtered_size++] = buffer[i]`,
with the buffer written in place. The first argument is the number of
iterations left, `bytes_read - i`. Returns the buffer and `filtered_size`. -/
def bf_filter_loop : Nat → List Char → Nat → Nat → List Char × Nat
  | 0, buffer, _, filtered_size => (buffer, filtered_size)
  | n + 1, buffer, i, filtered_size =>
    let c := buffer.getD i (Char.ofNat 0)
    if c = '>' ∨ c = '<' ∨ c = '+' ∨ c = '-' ∨ c = '.' ∨ c = ',' ∨ c = '[' ∨ c = ']' then
      bf_filter_loop n (buffer.set filtered_size c) (i + 1) (filtered_size + 1)
    else bf_filter_loop n buffer (i + 1) filtered_size

/-- An open file as the loader sees it: the offset `ftell` reports after the
seek to the end (the length of a regular file, negative on failure) and the
bytes `fread` can deliver from the start. -/
structure bf_file where
  ftell_end : Int
  bytes : List Char

/-- What the C library answers during one call of `bf_load_program`. -/
structure bf_host where
  /-- The result of `fopen(filename, "rb")`; `none` is the null pointer. -/
  fopen : Option bf_file
  /-- The text of `strerror(errno)` after a failed `fopen`. -/
  strerror : String
  /-- Does `malloc(file_size + 1)` return a buffer. -/
  malloc_ok : Bool
  /-- Does `realloc(buffer, filtered_size + 1)` return a buffer. -/
  realloc_ok : Bool

/-- The loader. A list holds the characters of a C string before its
terminator: the `'\0'` that the code stores at `buffer[file_size]` and at
`program[filtered_size]` is outside the lists. -/
def bf_load_program (state : bf_state_t) (host : bf_host) : bf_error_t × bf_state_t :=
  match host.fopen with
  | none =>
    (BF_ERROR_FILE_NOT_FOUND, bf_set_error state BF_ERROR_FILE_NOT_FOUND (some host.strerror))
  | some file =>
    let file_size := file.ftell_end
    if file_size < 0 ∨ file_size > (MAX_PROGRAM_SIZE : Int) then
      (BF_ERROR_PROGRAM_TOO_LARGE,
        bf_set_error state BF_ERROR_PROGRAM_TOO_LARGE (some "程序文件过大"))
    else if !host.malloc_ok then
      (BF_ERROR_INVALID_OPERATION,
        bf_set_error state BF_ERROR_INVALID_OPERATION (some "内存分配失败"))
    else
      let buffer := file.bytes.take file_size.toNat
      let bytes_read := buffer.length
      if (bytes_read : Int) ≠ file_size then
        (BF_ERROR_INVALID_OPERATION,
          bf_set_error state BF_ERROR_INVALID_OPERATION (some "读取程序文件失败"))
      else
        let filtered := bf_filter_loop bytes_read buffer 0 0
        let buffer := filtered.1
        let filtered_size := filtered.2
        let validation_result := bf_validate_program buffer filtered_size
        if validation_result ≠ BF_OK then
          (validation_result, bf_set_error state validation_result (some "程序验证失败"))
        else if !host.realloc_ok then
          (BF_ERROR_INVALID_OPERATION,
            bf_set_error { state with program := [] } BF_ERROR_INVALID_OPERATION
              (some "内存重新分配失败"))
        else
          (BF_OK, { state with
            program := buffer.take filtered_size
            program_size := filtered_size })

/-- A host on which `fopen` finds a regular file with the given content and
every allocation succeeds. -/
def bf_host_with_file (content : List Char) : bf_host :=
  { fopen := some { ftell_end := content.length, bytes := content }
    strerror := ""
    malloc_ok := true
    realloc_ok := true }

/-- A host on which `fopen` finds a stream that cannot seek, such as a pipe,
holding the given content: `ftell` fails and reports -1. Every allocation
succeeds. -/
def bf_host_with_pipe (content : List Char) : bf_host :=
  { fopen := some { ftell_end := -1, bytes := content }
    strerror := ""
    malloc_ok := true
    realloc_ok := true }

/-! ## Further definitions: what a run can be observed by -/

/-- The state with debugging switched off and the debug stream erased: all
that is left is what the program can observe or produce (tape, pointers,
program, bracket stack, input, output, error record). -/
def bf_mute (state : bf_state_t) : bf_state_t :=
  { state with debug_mode := false, err := [] }

/-! ## Further definitions: the lexical structure of the brackets -/

/-- The positions of the `[` that are open after `program[0..i)`, found by
matching brackets from the left: a `[` is added at the end, a `]` removes the
last one. -/
def open_brackets (program : List Char) : Nat → List Nat
  | 0 => []
  | i + 1 =>
    if program.getD i (Char.ofNat 0) = '[' then open_brackets program i ++ [i]
    else if program.getD i (Char.ofNat 0) = ']' then (open_brackets program i).dropLast
    else open_brackets program i

/-- The `[` at position `p` lexically encloses position `i`: it stands before
`i` and its matching `]` does not, that is, at no position between them is the
count of `[` minus `]` since `p` back to 0. -/
def encloses (program : List Char) (p i : Nat) : Prop :=
  p < i ∧ program.getD p (Char.ofNat 0) = '[' ∧
    ∀ r, r < i → p < r → bracket_depth (program_slice program p r) ≠ 0

instance (program : List Char) (p i : Nat) : Decidable (encloses program p i) := by
  unfold encloses; infer_instance

/-- The positions of the `[` brackets that lexically enclose position `i`,
outermost first. -/
def enclosing_brackets (program : List Char) (i : Nat) : List Nat :=
  (List.range i).filter (fun p => encloses program p i)

/-- The bracket stack mirrors the lexical structure: the state runs `program`
with the stack array of `STACK_SIZE` entries, the instruction pointer is
inside the program or at its end, and the entries below `stack_top` are the
positions of the `[` open at the instruction pointer. -/
def stack_invariant (program : List Char) (s : bf_state_t) : Prop :=
  s.program = program ∧ s.program_size = program.length ∧
    s.stack_size = STACK_SIZE ∧ s.bracket_stack.length = STACK_SIZE ∧
    s.program_ptr ≤ program.length ∧
    s.stack_top = (open_brackets program s.program_ptr).length ∧
    s.bracket_stack.take s.stack_top = open_brackets program s.program_ptr

/-! ## Further definitions: a reference interpreter with a bracket-partner table -/

/-- The state of the reference interpreter: tape, data pointer, instruction
pointer, input left, output written. -/
structure ref_state where
  memory : List Nat
  data_ptr : Nat
  pc : Nat
  input : List Nat
  output : List Nat
  deriving DecidableEq, Repr

/-- The matching `]` of the `[` at `p`, looked up by its definition. -/
def partner_of_open (program : List Char) (p : Nat) : Option Nat :=
  (List.range program.length).find? (fun q => decide (matching_close program p q))

/-- The matching `[` of the `]` at `q`: the `[` whose matching `]` is `q`. -/
def partner_of_close (program : List Char) (q : Nat) : Option Nat :=
  (List.range q).find? (fun p =>
    decide (program.getD p (Char.ofNat 0) = '[' ∧ matching_close program p q))

/-- The precomputed bracket-partner table: for each position that holds a
bracket, the position of its partner. -/
def bracket_partner_table (program : List Char) : List (Option Nat) :=
  (List.range program.length).map (fun i =>
    if program.getD i (Char.ofNat 0) = '[' then partner_of_open program i
    else if program.getD i (Char.ofNat 0) = ']' then partner_of_close program i
    else none)

/-- One step of the reference interpreter, standard Brainfuck on a bounded
tape of byte cells: `[` on a zero cell jumps past its matching `]`, `]` on a
nonzero cell jumps to just after its matching `[`, a move off the tape is an
error, the end of the input reads as 0. Returns the error, if any, and the
state. -/
def ref_step (program : List Char) (table : List (Option Nat)) (st : ref_state) :
    Option bf_error_t × ref_state :=
  let c := program.getD st.pc (Char.ofNat 0)
  let cell := st.memory.getD st.data_ptr 0
  if c = '>' then
    if st.data_ptr + 1 ≥ st.memory.length then (some BF_ERROR_MEMORY_OVERFLOW, st)
    else (none, { st with data_ptr := st.data_ptr + 1, pc := st.pc + 1 })
  else if c = '<' then
    if st.data_ptr = 0 then (some BF_ERROR_MEMORY_UNDERFLOW, st)
    else (none, { st with data_ptr := st.data_ptr - 1, pc := st.pc + 1 })
  else if c = '+' then
    (none, { st with memory := st.memory.set st.data_ptr ((cell + 1) % 256), pc := st.pc + 1 })
  else if c = '-' then
    (none, { st with memory := st.memory.set st.data_ptr ((cell + 255) % 256), pc := st.pc + 1 })
  else if c = '.' then
    (none, { st with output := st.output ++ [cell], pc := st.pc + 1 })
  else if c = ',' then
    match st.input with
    | [] => (none, { st with memory := st.memory.set st.data_ptr 0, pc := st.pc + 1 })
    | b :: rest =>
      (none, { st with
        memory := st.memory.set st.data_ptr (b % 256), input := rest, pc := st.pc + 1 })
  else if c = '[' then
    if cell = 0 then
      match table.getD st.pc none with
      | some q => (none, { st with pc := q + 1 })
      | none => (some BF_ERROR_UNMATCHED_BRACKET, st)
    else (none, { st with pc := st.pc + 1 })
  else if c = ']' then
    if cell ≠ 0 then
      match table.getD st.pc none with
      | some p => (none, { st with pc := p + 1 })
      | none => (some BF_ERROR_UNMATCHED_BRACKET, st)
    else (none, { st with pc := st.pc + 1 })
  else (none, { st with pc := st.pc + 1 })

/-- The reference interpreter run for at most `fuel` steps; `none` means that
`fuel` steps were not enough. -/
def ref_run (program : List Char) (table : List (Option Nat)) :
    Nat → ref_state → Option (bf_error_t × ref_state)
  | fuel, st =>
    if st.pc < program.length then
      match fuel with
      | 0 => none
      | fuel + 1 =>
        match ref_step program table st with
        | (some e, st) => some (e, st)
        | (none, st) => ref_run program table fuel st
    else some (BF_OK, st)

/-- The state of the reference interpreter after `n` steps (fewer when it has
stopped before). -/
def ref_iterate (program : List Char) (table : List (Option Nat)) : Nat → ref_state → ref_state
  | 0, st => st
  | n + 1, st =>
    if st.pc < program.length then
      match ref_step program table st with
      | (some _, st) => st
      | (none, st) => ref_iterate program table n st
    else st

/-- What the reference interpreter's state corresponds to in a state of the
engine. -/
def ref_of_state (s : bf_state_t) : ref_state :=
  { memory := s.memory, data_ptr := s.data_ptr, pc := s.program_ptr,
    input := s.input, output := s.output }

/-- The reference interpreter's initial state: the tape of `MEMORY_SIZE` zero
cells, both pointers at 0, nothing written. -/
def ref_initial (stdin : List Nat) : ref_state :=
  { memory := List.replicate MEMORY_SIZE 0, data_ptr := 0, pc := 0,
    input := stdin, output := [] }

/-! ## Theorems: validation -/

theorem forall_take_cons {α : Type} (Q : List α → Prop) (x : α) (l : List α) :
    (∀ n, n ≤ (x :: l).length → Q ((x :: l).take n)) ↔
      Q [] ∧ ∀ n, n ≤ l.length → Q (x :: l.take n) := by
  constructor
  · intro h
    refine ⟨by simpa using h 0 (Nat.zero_le _), fun n hn => ?_⟩
    have := h (n + 1) (by simpa using hn)
    simpa using this
  · rintro ⟨h0, hs⟩ n hn
    cases n with
    | zero => simpa using h0
    | succ k =>
      have := hs k (by simpa using hn)
      simpa using this

/-- The loop of the validator, started with `c` brackets open, accepts exactly
when the rest keeps the depth inside `[0, MAX_NESTING]` and closes all of them. -/
theorem bf_validate_loop_ok_iff (l : List Char) :
    ∀ (c : Nat) (m : Int), c ≤ MAX_NESTING →
      (bf_validate_loop l c m c = BF_OK ↔
        (∀ n, n ≤ l.length →
          (l.take n).count ']' ≤ c + (l.take n).count '[' ∧
            c + (l.take n).count '[' ≤ (l.take n).count ']' + MAX_NESTING) ∧
          c + l.count '[' = l.count ']') := by
  induction l with
  | nil =>
    intro c m hc
    simp only [bf_validate_loop, List.length_nil, List.take_nil, List.count_nil]
    constructor
    · intro h
      split at h
      · cases h
      · rename_i h0
        have : c = 0 := by simpa using h0
        subst this
        simp
    · rintro ⟨-, h⟩
      have : c = 0 := by omega
      subst this
      simp
  | cons x l ih =>
    intro c m hc
    rw [forall_take_cons (fun t => t.count ']' ≤ c + t.count '[' ∧
      c + t.count '[' ≤ t.count ']' + MAX_NESTING)]
    unfold bf_validate_loop
    by_cases hx : x = '['
    · subst hx
      simp only [if_true]
      by_cases hd : c + 1 ≤ MAX_NESTING
      · have hnot : ¬ ((c : Int) + 1 > (MAX_NESTING : Int)) := by omega
        rw [if_neg hnot]
        have := ih (c + 1) (if (c : Int) + 1 > m then (c : Int) + 1 else m) hd
        rw [Nat.cast_add, Nat.cast_one] at this
        rw [this]
        simp only [List.count_cons_self, List.count_nil, show ('[' == ']') = false from by decide,
          List.count_cons, Bool.false_eq_true, if_false]
        constructor
        · rintro ⟨h1, h2⟩
          refine ⟨⟨by omega, fun n hn => ?_⟩, by omega⟩
          have := h1 n hn
          omega
        · rintro ⟨⟨-, h1⟩, h2⟩
          refine ⟨fun n hn => ?_, by omega⟩
          have := h1 n hn
          omega
      · have hyes : ((c : Int) + 1 > (MAX_NESTING : Int)) := by omega
        rw [if_pos hyes]
        simp only [List.count_cons_self, List.count_nil, show ('[' == ']') = false from by decide,
          List.count_cons, Bool.false_eq_true, if_false]
        constructor
        · intro h; cases h
        · rintro ⟨⟨-, h1⟩, -⟩
          have := h1 0 (Nat.zero_le _)
          simp at this
          omega
    · rw [if_neg hx]
      by_cases hy : x = ']'
      · subst hy
        simp only [if_true]
        simp only [List.count_cons_self, List.count_nil, show (']' == '[') = false from by decide,
          List.count_cons, Bool.false_eq_true, if_false]
        cases c with
        | zero =>
          have hneg : ((0 : Nat) : Int) - 1 < 0 := by omega
          rw [if_pos hneg]
          constructor
          · intro h; cases h
          · rintro ⟨⟨-, h1⟩, -⟩
            have := h1 0 (Nat.zero_le _)
            simp at this
        | succ k =>
          have hneg : ¬ (((k + 1 : Nat) : Int) - 1 < 0) := by omega
          rw [if_neg hneg]
          have hk : ((k + 1 : Nat) : Int) - 1 = (k : Int) := by omega
          rw [hk, ih k m (by omega)]
          constructor
          · rintro ⟨h1, h2⟩
            refine ⟨⟨by omega, fun n hn => ?_⟩, by omega⟩
            have := h1 n hn
            omega
          · rintro ⟨⟨-, h1⟩, h2⟩
            refine ⟨fun n hn => ?_, by omega⟩
            have := h1 n hn
            omega
      · rw [if_neg hy, ih c m hc]
        have e1 : (x == '[') = false := by simpa using hx
        have e2 : (x == ']') = false := by simpa using hy
        simp only [List.count_cons, List.count_nil, e1, e2, Bool.false_eq_true, if_false,
          Nat.add_zero]
        constructor
        · rintro ⟨h1, h2⟩
          exact ⟨⟨by omega, h1⟩, h2⟩
        · rintro ⟨⟨-, h1⟩, h2⟩
          exact ⟨h1, h2⟩

/-- The validator has three outcomes. -/
theorem bf_validate_loop_range (l : List Char) :
    ∀ (b m c : Int), bf_validate_loop l b m c = BF_OK ∨
      bf_validate_loop l b m c = BF_ERROR_UNMATCHED_BRACKET ∨
      bf_validate_loop l b m c = BF_ERROR_NESTING_TOO_DEEP := by
  induction l with
  | nil => intro b m c; unfold bf_validate_loop; split <;> simp
  | cons x l ih =>
    intro b m c
    unfold bf_validate_loop
    simp only []
    split
    · split
      · simp
      · exact ih _ _ _
    · split
      · split
        · simp
        · exact ih _ _ _
      · exact ih _ _ _

/-- The validator ignores every symbol that is not a bracket. -/
theorem bf_validate_loop_filter (l : List Char) :
    ∀ (b m c : Int), bf_validate_loop (l.filter is_bracket) b m c = bf_validate_loop l b m c := by
  induction l with
  | nil => intro b m c; rfl
  | cons x l ih =>
    intro b m c
    by_cases hx : x = '['
    · subst hx
      rw [List.filter_cons_of_pos (by decide)]
      unfold bf_validate_loop
      simp only [if_true, ih]
    · by_cases hy : x = ']'
      · subst hy
        rw [List.filter_cons_of_pos (by decide)]
        unfold bf_validate_loop
        simp only [if_true, ih]
      · rw [List.filter_cons_of_neg (by simp [is_bracket, hx, hy])]
        conv_rhs => unfold bf_validate_loop
        rw [if_neg hx, if_neg hy, ih]

/-- A `NestingTooDeep` verdict means that some prefix is nested too deep. -/
theorem bf_validate_loop_nesting (l : List Char) :
    ∀ (c : Nat) (m : Int), c ≤ MAX_NESTING →
      bf_validate_loop l c m c = BF_ERROR_NESTING_TOO_DEEP →
        ∃ n, n ≤ l.length ∧ (l.take n).count ']' + MAX_NESTING < c + (l.take n).count '[' := by
  induction l with
  | nil =>
    intro c m _ h
    unfold bf_validate_loop at h
    split at h <;> cases h
  | cons x l ih =>
    intro c m hc h
    unfold bf_validate_loop at h
    by_cases hx : x = '['
    · subst hx
      simp only [if_true] at h
      by_cases hd : c + 1 ≤ MAX_NESTING
      · have hnot : ¬ ((c : Int) + 1 > (MAX_NESTING : Int)) := by omega
        rw [if_neg hnot] at h
        have h2 := ih (c + 1) (if (c : Int) + 1 > m then (c : Int) + 1 else m) hd
        rw [Nat.cast_add, Nat.cast_one] at h2
        obtain ⟨n, hn, hlt⟩ := h2 h
        refine ⟨n + 1, by simpa using hn, ?_⟩
        simp only [List.take_succ_cons, List.count_cons_self, List.count_cons,
          show ('[' == ']') = false from by decide, Bool.false_eq_true, if_false]
        omega
      · refine ⟨1, by simp, ?_⟩
        simp only [List.take_succ_cons, List.take_zero, List.count_cons_self, List.count_cons,
          show ('[' == ']') = false from by decide, Bool.false_eq_true, if_false, List.count_nil]
        omega
    · rw [if_neg hx] at h
      by_cases hy : x = ']'
      · subst hy
        simp only [if_true] at h
        cases c with
        | zero =>
          have hneg : ((0 : Nat) : Int) - 1 < 0 := by omega
          rw [if_pos hneg] at h
          cases h
        | succ k =>
          have hneg : ¬ (((k + 1 : Nat) : Int) - 1 < 0) := by omega
          rw [if_neg hneg] at h
          have hk : ((k + 1 : Nat) : Int) - 1 = (k : Int) := by omega
          rw [hk] at h
          obtain ⟨n, hn, hlt⟩ := ih k m (by omega) h
          refine ⟨n + 1, by simpa using hn, ?_⟩
          simp only [List.take_succ_cons, List.count_cons_self, List.count_cons,
            show (']' == '[') = false from by decide, Bool.false_eq_true, if_false]
          omega
      · rw [if_neg hy] at h
        obtain ⟨n, hn, hlt⟩ := ih c m hc h
        refine ⟨n + 1, by simpa using hn, ?_⟩
        have e1 : (x == '[') = false := by simpa using hx
        have e2 : (x == ']') = false := by simpa using hy
        simp only [List.take_succ_cons, List.count_cons, e1, e2, Bool.false_eq_true, if_false]
        omega

/-- An `UnmatchedBracket` verdict means that some prefix closes a bracket that
is not open, or that the totals differ. -/
theorem bf_validate_loop_unmatched (l : List Char) :
    ∀ (c : Nat) (m : Int),
      bf_validate_loop l c m c = BF_ERROR_UNMATCHED_BRACKET →
        (∃ n, n ≤ l.length ∧ c + (l.take n).count '[' < (l.take n).count ']') ∨
          c + l.count '[' ≠ l.count ']' := by
  induction l with
  | nil =>
    intro c m h
    unfold bf_validate_loop at h
    split at h
    · rename_i h0
      right
      simp only [List.count_nil]
      intro hc
      apply h0
      simp at hc
      simp [hc]
    · cases h
  | cons x l ih =>
    intro c m h
    unfold bf_validate_loop at h
    by_cases hx : x = '['
    · subst hx
      simp only [if_true] at h
      split at h
      · cases h
      · have h2 := ih (c + 1) (if (c : Int) + 1 > m then (c : Int) + 1 else m)
        rw [Nat.cast_add, Nat.cast_one] at h2
        rcases h2 h with ⟨n, hn, hlt⟩ | hne
        · left
          refine ⟨n + 1, by simpa using hn, ?_⟩
          simp only [List.take_succ_cons, List.count_cons_self, List.count_cons,
            show ('[' == ']') = false from by decide, Bool.false_eq_true, if_false]
          omega
        · right
          simp only [List.count_cons_self, List.count_cons,
            show ('[' == ']') = false from by decide, Bool.false_eq_true, if_false]
          omega
    · rw [if_neg hx] at h
      by_cases hy : x = ']'
      · subst hy
        simp only [if_true] at h
        cases c with
        | zero =>
          left
          refine ⟨1, by simp, ?_⟩
          simp only [List.take_succ_cons, List.take_zero, List.count_cons_self, List.count_cons,
            show (']' == '[') = false from by decide, Bool.false_eq_true, if_false, List.count_nil]
          omega
        | succ k =>
          have hneg : ¬ (((k + 1 : Nat) : Int) - 1 < 0) := by omega
          rw [if_neg hneg] at h
          have hk : ((k + 1 : Nat) : Int) - 1 = (k : Int) := by omega
          rw [hk] at h
          rcases ih k m h with ⟨n, hn, hlt⟩ | hne
          · left
            refine ⟨n + 1, by simpa using hn, ?_⟩
            simp only [List.take_succ_cons, List.count_cons_self, List.count_cons,
              show (']' == '[') = false from by decide, Bool.false_eq_true, if_false]
            omega
          · right
            simp only [List.count_cons_self, List.count_cons,
              show (']' == '[') = false from by decide, Bool.false_eq_true, if_false]
            omega
      · rw [if_neg hy] at h
        have e1 : (x == '[') = false := by simpa using hx
        have e2 : (x == ']') = false := by simpa using hy
        rcases ih c m h with ⟨n, hn, hlt⟩ | hne
        · left
          refine ⟨n + 1, by simpa using hn, ?_⟩
          simp only [List.take_succ_cons, List.count_cons, e1, e2, Bool.false_eq_true, if_false]
          omega
        · right
          simp only [List.count_cons, e1, e2, Bool.false_eq_true, if_false]
          omega

/-- From the empty counter state the loop accepts exactly the balanced
sequences whose nesting depth stays within `MAX_NESTING`. -/
theorem bf_validate_loop_accepts (s : List Char) :
    bf_validate_loop s 0 0 0 = BF_OK ↔
      brackets_balanced s ∧ nesting_within MAX_NESTING s := by
  unfold brackets_balanced nesting_within
  have h := bf_validate_loop_ok_iff s 0 0 (Nat.zero_le _)
  rw [Nat.cast_zero] at h
  rw [h]
  simp only [Nat.zero_add]
  constructor
  · rintro ⟨h1, h2⟩
    exact ⟨⟨fun n hn => (h1 n hn).1, h2⟩, fun n hn => (h1 n hn).2⟩
  · rintro ⟨⟨h1, h2⟩, h3⟩
    exact ⟨fun n hn => ⟨h1 n hn, h3 n hn⟩, h2⟩

theorem nested_brackets_take_count (k n : Nat) :
    ((nested_brackets k).take n).count '[' = min n k ∧
      ((nested_brackets k).take n).count ']' = min (n - k) k := by
  unfold nested_brackets
  rw [List.take_append_eq_append_take, List.take_replicate, List.take_replicate,
    List.count_append, List.count_append, List.length_replicate]
  simp [List.count_replicate]

theorem nested_brackets_balanced (k : Nat) : brackets_balanced (nested_brackets k) := by
  constructor
  · intro n _
    have := nested_brackets_take_count k n
    omega
  · simp [nested_brackets, List.count_replicate]

theorem nested_brackets_depth (k m : Nat) (h : m < k) :
    ¬ nesting_within m (nested_brackets k) := by
  intro hw
  have h1 := hw k (by simp [nested_brackets])
  have := nested_brackets_take_count k k
  omega

/-- C1. `bf_validate_program` accepts a sequence exactly when its brackets are
balanced and its nesting depth never exceeds `MAX_NESTING`; and its verdict on
a sequence is its verdict on the brackets of that sequence alone. -/
theorem bf_validate_program_ok_iff (s : List Char) :
    (bf_validate_program s s.length = BF_OK ↔
      brackets_balanced s ∧ nesting_within MAX_NESTING s) ∧
    bf_validate_program (s.filter is_bracket) (s.filter is_bracket).length =
      bf_validate_program s s.length := by
  unfold bf_validate_program
  rw [List.take_length, List.take_length, bf_validate_loop_filter]
  exact ⟨bf_validate_loop_accepts s, rfl⟩

/-- C2. When `bf_validate_program` rejects, the kind is the corresponding one:
unbalanced brackets with the depth never above `MAX_NESTING` give
`BF_ERROR_UNMATCHED_BRACKET`, balanced brackets with the depth above
`MAX_NESTING` somewhere give `BF_ERROR_NESTING_TOO_DEEP`. -/
theorem bf_validate_program_error_kind (s : List Char) :
    (¬ brackets_balanced s → nesting_within MAX_NESTING s →
      bf_validate_program s s.length = BF_ERROR_UNMATCHED_BRACKET) ∧
    (brackets_balanced s → ¬ nesting_within MAX_NESTING s →
      bf_validate_program s s.length = BF_ERROR_NESTING_TOO_DEEP) := by
  have hok := bf_validate_loop_accepts s
  have hrange := bf_validate_loop_range s 0 0 0
  have hnest := bf_validate_loop_nesting s 0 0 (Nat.zero_le _)
  have hunm := bf_validate_loop_unmatched s 0 0
  unfold bf_validate_program
  rw [List.take_length]
  rw [Nat.cast_zero] at hnest hunm
  constructor
  · intro hb hn
    rcases hrange with h | h | h
    · exact absurd (hok.1 h).1 hb
    · exact h
    · obtain ⟨n, hn1, hn2⟩ := hnest h
      have := hn n hn1
      omega
  · intro hb hn
    rcases hrange with h | h | h
    · exact absurd (hok.1 h).2 hn
    · rcases hunm h with ⟨n, hn1, hn2⟩ | hne
      · have := hb.1 n hn1
        omega
      · exact absurd hb.2 (by simpa using hne)
    · exact h

/-- C2, witnesses: `[[]` and `[]]` are rejected as unmatched, and 1001 opening
brackets followed by 1001 closing brackets are rejected as nested too deep. -/
theorem bf_validate_program_error_kind_witness :
    bf_validate_program "[[]".toList "[[]".toList.length = BF_ERROR_UNMATCHED_BRACKET ∧
    bf_validate_program "[]]".toList "[]]".toList.length = BF_ERROR_UNMATCHED_BRACKET ∧
    bf_validate_program (nested_brackets 1001) (nested_brackets 1001).length =
      BF_ERROR_NESTING_TOO_DEEP :=
  ⟨(bf_validate_program_error_kind "[[]".toList).1 (by decide) (by decide),
   (bf_validate_program_error_kind "[]]".toList).1 (by decide) (by decide),
   (bf_validate_program_error_kind (nested_brackets 1001)).2
     (nested_brackets_balanced 1001) (nested_brackets_depth 1001 MAX_NESTING (by decide))⟩

/-! ## Theorems: what a dispatch leaves alone -/

theorem bf_debug_state_frame (s : bf_state_t) :
    (bf_debug_state s).memory = s.memory ∧
    (bf_debug_state s).memory_size = s.memory_size ∧
    (bf_debug_state s).data_ptr = s.data_ptr ∧
    (bf_debug_state s).program_ptr = s.program_ptr ∧
    (bf_debug_state s).program = s.program ∧
    (bf_debug_state s).program_size = s.program_size ∧
    (bf_debug_state s).bracket_stack = s.bracket_stack ∧
    (bf_debug_state s).stack_top = s.stack_top ∧
    (bf_debug_state s).stack_size = s.stack_size ∧
    (bf_debug_state s).debug_mode = s.debug_mode ∧
    (bf_debug_state s).input = s.input ∧
    (bf_debug_state s).output = s.output ∧
    (bf_debug_state s).last_error = s.last_error ∧
    (bf_debug_state s).error_message = s.error_message := by
  unfold bf_debug_state
  split <;> simp

@[simp] theorem bf_debug_state_memory (s : bf_state_t) :
    (bf_debug_state s).memory = s.memory := (bf_debug_state_frame s).1

@[simp] theorem bf_debug_state_memory_size (s : bf_state_t) :
    (bf_debug_state s).memory_size = s.memory_size := (bf_debug_state_frame s).2.1

@[simp] theorem bf_debug_state_data_ptr (s : bf_state_t) :
    (bf_debug_state s).data_ptr = s.data_ptr := (bf_debug_state_frame s).2.2.1

@[simp] theorem bf_debug_state_program_ptr (s : bf_state_t) :
    (bf_debug_state s).program_ptr = s.program_ptr := (bf_debug_state_frame s).2.2.2.1

@[simp] theorem bf_debug_state_program (s : bf_state_t) :
    (bf_debug_state s).program = s.program := (bf_debug_state_frame s).2.2.2.2.1

@[simp] theorem bf_debug_state_program_size (s : bf_state_t) :
    (bf_debug_state s).program_size = s.program_size := (bf_debug_state_frame s).2.2.2.2.2.1

@[simp] theorem bf_debug_state_bracket_stack (s : bf_state_t) :
    (bf_debug_state s).bracket_stack = s.bracket_stack :=
  (bf_debug_state_frame s).2.2.2.2.2.2.1

@[simp] theorem bf_debug_state_stack_top (s : bf_state_t) :
    (bf_debug_state s).stack_top = s.stack_top :=
  (bf_debug_state_frame s).2.2.2.2.2.2.2.1

@[simp] theorem bf_debug_state_stack_size (s : bf_state_t) :
    (bf_debug_state s).stack_size = s.stack_size :=
  (bf_debug_state_frame s).2.2.2.2.2.2.2.2.1

@[simp] theorem bf_debug_state_debug_mode (s : bf_state_t) :
    (bf_debug_state s).debug_mode = s.debug_mode :=
  (bf_debug_state_frame s).2.2.2.2.2.2.2.2.2.1

@[simp] theorem bf_debug_state_input (s : bf_state_t) :
    (bf_debug_state s).input = s.input :=
  (bf_debug_state_frame s).2.2.2.2.2.2.2.2.2.2.1

@[simp] theorem bf_debug_state_output (s : bf_state_t) :
    (bf_debug_state s).output = s.output :=
  (bf_debug_state_frame s).2.2.2.2.2.2.2.2.2.2.2.1

@[simp] theorem bf_debug_state_last_error (s : bf_state_t) :
    (bf_debug_state s).last_error = s.last_error :=
  (bf_debug_state_frame s).2.2.2.2.2.2.2.2.2.2.2.2.1

@[simp] theorem bf_debug_state_error_message (s : bf_state_t) :
    (bf_debug_state s).error_message = s.error_message :=
  (bf_debug_state_frame s).2.2.2.2.2.2.2.2.2.2.2.2.2

/-- The subtraction `memory_size - 1` does not wrap on a tape that has a cell. -/
theorem memory_size_pred (n : Nat) (h1 : 1 ≤ n) (h2 : n < 2 ^ SIZE_BITS) :
    (n + 2 ^ SIZE_BITS - 1) % 2 ^ SIZE_BITS = n - 1 := by
  have h : n + 2 ^ SIZE_BITS - 1 = (n - 1) + 2 ^ SIZE_BITS := by omega
  rw [h, Nat.add_mod_right, Nat.mod_eq_of_lt (by omega)]

/-! ## Theorems: the dispatch, one instruction at a time -/

theorem bf_execute_instruction_done (s : bf_state_t) (hpc : s.program_size ≤ s.program_ptr) :
    bf_execute_instruction s = (BF_OK, s) := by
  unfold bf_execute_instruction
  rw [if_pos hpc]

theorem bf_execute_instruction_right (s : bf_state_t) (hpc : s.program_ptr < s.program_size)
    (hi : s.program.getD s.program_ptr (Char.ofNat 0) = '>') :
    bf_execute_instruction s =
      if s.data_ptr ≥ (s.memory_size + 2 ^ SIZE_BITS - 1) % 2 ^ SIZE_BITS then
        (BF_ERROR_MEMORY_OVERFLOW,
          bf_set_error (bf_debug_state s) BF_ERROR_MEMORY_OVERFLOW (some "数据指针溢出"))
      else (BF_OK, { bf_debug_state s with data_ptr := s.data_ptr + 1 }) := by
  unfold bf_execute_instruction
  rw [if_neg (Nat.not_le.mpr hpc)]
  simp only [hi, bf_debug_state_data_ptr, bf_debug_state_memory_size, bf_debug_state_stack_top,
    bf_debug_state_memory, bf_debug_state_bracket_stack, bf_debug_state_program,
    bf_debug_state_program_size, bf_debug_state_program_ptr, bf_debug_state_stack_size,
    bf_debug_state_input, bf_debug_state_output, Char.reduceEq, if_false, if_true]

theorem bf_execute_instruction_left (s : bf_state_t) (hpc : s.program_ptr < s.program_size)
    (hi : s.program.getD s.program_ptr (Char.ofNat 0) = '<') :
    bf_execute_instruction s =
      if s.data_ptr = 0 then
        (BF_ERROR_MEMORY_UNDERFLOW,
          bf_set_error (bf_debug_state s) BF_ERROR_MEMORY_UNDERFLOW (some "数据指针下溢"))
      else (BF_OK, { bf_debug_state s with data_ptr := s.data_ptr - 1 }) := by
  unfold bf_execute_instruction
  rw [if_neg (Nat.not_le.mpr hpc)]
  simp only [hi, bf_debug_state_data_ptr, bf_debug_state_memory_size, bf_debug_state_stack_top,
    bf_debug_state_memory, bf_debug_state_bracket_stack, bf_debug_state_program,
    bf_debug_state_program_size, bf_debug_state_program_ptr, bf_debug_state_stack_size,
    bf_debug_state_input, bf_debug_state_output, Char.reduceEq, if_false, if_true]

theorem bf_execute_instruction_plus (s : bf_state_t) (hpc : s.program_ptr < s.program_size)
    (hi : s.program.getD s.program_ptr (Char.ofNat 0) = '+') :
    bf_execute_instruction s =
      (BF_OK, { bf_debug_state s with
        memory := s.memory.set s.data_ptr ((s.memory.getD s.data_ptr 0 + 1) % 256) }) := by
  unfold bf_execute_instruction
  rw [if_neg (Nat.not_le.mpr hpc)]
  simp only [hi, bf_debug_state_data_ptr, bf_debug_state_memory_size, bf_debug_state_stack_top,
    bf_debug_state_memory, bf_debug_state_bracket_stack, bf_debug_state_program,
    bf_debug_state_program_size, bf_debug_state_program_ptr, bf_debug_state_stack_size,
    bf_debug_state_input, bf_debug_state_output, Char.reduceEq, if_false, if_true]

theorem bf_execute_instruction_minus (s : bf_state_t) (hpc : s.program_ptr < s.program_size)
    (hi : s.program.getD s.program_ptr (Char.ofNat 0) = '-') :
    bf_execute_instruction s =
      (BF_OK, { bf_debug_state s with
        memory := s.memory.set s.data_ptr ((s.memory.getD s.data_ptr 0 + 256 - 1) % 256) }) := by
  unfold bf_execute_instruction
  rw [if_neg (Nat.not_le.mpr hpc)]
  simp only [hi, bf_debug_state_data_ptr, bf_debug_state_memory_size, bf_debug_state_stack_top,
    bf_debug_state_memory, bf_debug_state_bracket_stack, bf_debug_state_program,
    bf_debug_state_program_size, bf_debug_state_program_ptr, bf_debug_state_stack_size,
    bf_debug_state_input, bf_debug_state_output, Char.reduceEq, if_false, if_true]

theorem bf_execute_instruction_put (s : bf_state_t) (hpc : s.program_ptr < s.program_size)
    (hi : s.program.getD s.program_ptr (Char.ofNat 0) = '.') :
    bf_execute_instruction s =
      (BF_OK, { bf_debug_state s with output := s.output ++ [s.memory.getD s.data_ptr 0] }) := by
  unfold bf_execute_instruction
  rw [if_neg (Nat.not_le.mpr hpc)]
  simp only [hi, bf_debug_state_data_ptr, bf_debug_state_memory_size, bf_debug_state_stack_top,
    bf_debug_state_memory, bf_debug_state_bracket_stack, bf_debug_state_program,
    bf_debug_state_program_size, bf_debug_state_program_ptr, bf_debug_state_stack_size,
    bf_debug_state_input, bf_debug_state_output, Char.reduceEq, if_false, if_true]

theorem bf_execute_instruction_get (s : bf_state_t) (hpc : s.program_ptr < s.program_size)
    (hi : s.program.getD s.program_ptr (Char.ofNat 0) = ',') :
    bf_execute_instruction s =
      if (fgetc s.input).1 ≠ EOF then
        (BF_OK, { bf_debug_state s with
          input := (fgetc s.input).2
          memory := s.memory.set s.data_ptr ((fgetc s.input).1 % 256).toNat })
      else
        (BF_OK, { bf_debug_state s with
          input := (fgetc s.input).2
          memory := s.memory.set s.data_ptr 0 }) := by
  unfold bf_execute_instruction
  rw [if_neg (Nat.not_le.mpr hpc)]
  simp only [hi, bf_debug_state_data_ptr, bf_debug_state_memory_size, bf_debug_state_stack_top,
    bf_debug_state_memory, bf_debug_state_bracket_stack, bf_debug_state_program,
    bf_debug_state_program_size, bf_debug_state_program_ptr, bf_debug_state_stack_size,
    bf_debug_state_input, bf_debug_state_output, Char.reduceEq, if_false, if_true]

theorem bf_execute_instruction_open (s : bf_state_t) (hpc : s.program_ptr < s.program_size)
    (hi : s.program.getD s.program_ptr (Char.ofNat 0) = '[') :
    bf_execute_instruction s =
      if s.memory.getD s.data_ptr 0 = 0 then
        if (bf_scan_forward s.program s.program_size (s.program_size - s.program_ptr)
            s.program_ptr 1).1 ≥ s.program_size then
          (BF_ERROR_UNMATCHED_BRACKET,
            bf_set_error { bf_debug_state s with
              program_ptr := (bf_scan_forward s.program s.program_size
                (s.program_size - s.program_ptr) s.program_ptr 1).1 }
              BF_ERROR_UNMATCHED_BRACKET (some "未匹配的 '['"))
        else
          (BF_OK, { bf_debug_state s with
            program_ptr := (bf_scan_forward s.program s.program_size
              (s.program_size - s.program_ptr) s.program_ptr 1).1 })
      else
        if s.stack_top ≥ s.stack_size then
          (BF_ERROR_STACK_OVERFLOW,
            bf_set_error (bf_debug_state s) BF_ERROR_STACK_OVERFLOW (some "括号栈溢出"))
        else
          (BF_OK, { bf_debug_state s with
            bracket_stack := s.bracket_stack.set s.stack_top s.program_ptr
            stack_top := s.stack_top + 1 }) := by
  unfold bf_execute_instruction
  rw [if_neg (Nat.not_le.mpr hpc)]
  simp only [hi, bf_debug_state_data_ptr, bf_debug_state_memory_size, bf_debug_state_stack_top,
    bf_debug_state_memory, bf_debug_state_bracket_stack, bf_debug_state_program,
    bf_debug_state_program_size, bf_debug_state_program_ptr, bf_debug_state_stack_size,
    bf_debug_state_input, bf_debug_state_output, Char.reduceEq, if_false, if_true]

theorem bf_execute_instruction_close (s : bf_state_t) (hpc : s.program_ptr < s.program_size)
    (hi : s.program.getD s.program_ptr (Char.ofNat 0) = ']') :
    bf_execute_instruction s =
      if s.stack_top = 0 then
        (BF_ERROR_UNMATCHED_BRACKET,
          bf_set_error (bf_debug_state s) BF_ERROR_UNMATCHED_BRACKET (some "未匹配的 ']'"))
      else if s.memory.getD s.data_ptr 0 ≠ 0 then
        (BF_OK, { bf_debug_state s with
          program_ptr := s.bracket_stack.getD (s.stack_top - 1) 0 })
      else (BF_OK, { bf_debug_state s with stack_top := s.stack_top - 1 }) := by
  unfold bf_execute_instruction
  rw [if_neg (Nat.not_le.mpr hpc)]
  simp only [hi, bf_debug_state_data_ptr, bf_debug_state_memory_size, bf_debug_state_stack_top,
    bf_debug_state_memory, bf_debug_state_bracket_stack, bf_debug_state_program,
    bf_debug_state_program_size, bf_debug_state_program_ptr, bf_debug_state_stack_size,
    bf_debug_state_input, bf_debug_state_output, Char.reduceEq, if_false, if_true]

theorem bf_execute_instruction_other (s : bf_state_t) (hpc : s.program_ptr < s.program_size)
    (h1 : s.program.getD s.program_ptr (Char.ofNat 0) ≠ '>')
    (h2 : s.program.getD s.program_ptr (Char.ofNat 0) ≠ '<')
    (h3 : s.program.getD s.program_ptr (Char.ofNat 0) ≠ '+')
    (h4 : s.program.getD s.program_ptr (Char.ofNat 0) ≠ '-')
    (h5 : s.program.getD s.program_ptr (Char.ofNat 0) ≠ '.')
    (h6 : s.program.getD s.program_ptr (Char.ofNat 0) ≠ ',')
    (h7 : s.program.getD s.program_ptr (Char.ofNat 0) ≠ '[')
    (h8 : s.program.getD s.program_ptr (Char.ofNat 0) ≠ ']') :
    bf_execute_instruction s = (BF_OK, bf_debug_state s) := by
  unfold bf_execute_instruction
  rw [if_neg (Nat.not_le.mpr hpc)]
  simp only [h1, h2, h3, h4, h5, h6, h7, h8, if_false]


/-! ## Theorems: the data pointer stays on the tape -/

theorem instruction_cases (c : Char) :
    c = '>' ∨ c = '<' ∨ c = '+' ∨ c = '-' ∨ c = '.' ∨ c = ',' ∨ c = '[' ∨ c = ']' ∨
      (c ≠ '>' ∧ c ≠ '<' ∧ c ≠ '+' ∧ c ≠ '-' ∧ c ≠ '.' ∧ c ≠ ',' ∧ c ≠ '[' ∧ c ≠ ']') := by
  tauto

/-- A dispatch keeps the data pointer on the tape and does not resize the tape. -/
theorem bf_execute_instruction_tape (s : bf_state_t)
    (hlen : s.memory.length = s.memory_size) (hpos : 1 ≤ s.memory_size)
    (hfit : s.memory_size < 2 ^ SIZE_BITS) (hdp : s.data_ptr < s.memory_size) :
    (bf_execute_instruction s).2.data_ptr < s.memory_size ∧
      (bf_execute_instruction s).2.memory_size = s.memory_size ∧
      (bf_execute_instruction s).2.memory.length = s.memory_size := by
  by_cases hpc : s.program_ptr < s.program_size
  · rcases instruction_cases (s.program.getD s.program_ptr (Char.ofNat 0)) with
      h | h | h | h | h | h | h | h | ⟨h1, h2, h3, h4, h5, h6, h7, h8⟩
    · rw [bf_execute_instruction_right s hpc h, memory_size_pred _ hpos hfit]
      split_ifs <;> simp [bf_set_error, hlen, hdp]
      omega
    · rw [bf_execute_instruction_left s hpc h]
      split_ifs <;> simp [bf_set_error, hlen, hdp]
      omega
    · rw [bf_execute_instruction_plus s hpc h]
      simp [hlen, hdp]
    · rw [bf_execute_instruction_minus s hpc h]
      simp [hlen, hdp]
    · rw [bf_execute_instruction_put s hpc h]
      simp [hlen, hdp]
    · rw [bf_execute_instruction_get s hpc h]
      split_ifs <;> simp [hlen, hdp]
    · rw [bf_execute_instruction_open s hpc h]
      split_ifs <;> simp [bf_set_error, hlen, hdp]
    · rw [bf_execute_instruction_close s hpc h]
      split_ifs <;> simp [bf_set_error, hlen, hdp]
    · rw [bf_execute_instruction_other s hpc h1 h2 h3 h4 h5 h6 h7 h8]
      simp [hlen, hdp]
  · rw [bf_execute_instruction_done s (Nat.not_lt.mp hpc)]
    exact ⟨hdp, rfl, hlen⟩

/-- One pass through the loop body keeps the data pointer on the tape. -/
theorem bf_execute_program_body_tape (s : bf_state_t)
    (hlen : s.memory.length = s.memory_size) (hpos : 1 ≤ s.memory_size)
    (hfit : s.memory_size < 2 ^ SIZE_BITS) (hdp : s.data_ptr < s.memory_size) :
    (bf_execute_program_body s).2.data_ptr < s.memory_size ∧
      (bf_execute_program_body s).2.memory_size = s.memory_size ∧
      (bf_execute_program_body s).2.memory.length = s.memory_size := by
  have h := bf_execute_instruction_tape s hlen hpos hfit hdp
  unfold bf_execute_program_body
  simp only []
  split_ifs
  · exact h
  · exact h

theorem bf_execute_program_iterate_tape (n : Nat) :
    ∀ s : bf_state_t, s.memory.length = s.memory_size → 1 ≤ s.memory_size →
      s.memory_size < 2 ^ SIZE_BITS → s.data_ptr < s.memory_size →
      (bf_execute_program_iterate n s).data_ptr < s.memory_size ∧
        (bf_execute_program_iterate n s).memory_size = s.memory_size ∧
        (bf_execute_program_iterate n s).memory.length = s.memory_size := by
  induction n with
  | zero => intro s hlen _ _ hdp; exact ⟨hdp, rfl, hlen⟩
  | succ n ih =>
    intro s hlen hpos hfit hdp
    unfold bf_execute_program_iterate
    have hb := bf_execute_program_body_tape s hlen hpos hfit hdp
    split_ifs
    · rcases hbody : bf_execute_program_body s with ⟨r, t⟩
      rw [hbody] at hb
      cases r with
      | some e => exact hb
      | none =>
        simp only []
        have := ih t (by rw [hb.2.2, hb.2.1]) (by rw [hb.2.1]; exact hpos)
          (by rw [hb.2.1]; exact hfit) (by rw [hb.2.1]; exact hb.1)
        rw [hb.2.1] at this
        exact this
    · exact ⟨hdp, rfl, hlen⟩

theorem bf_execute_program_tape (fuel : Nat) :
    ∀ (s : bf_state_t) (r : bf_error_t) (t : bf_state_t),
      s.memory.length = s.memory_size → 1 ≤ s.memory_size →
      s.memory_size < 2 ^ SIZE_BITS → s.data_ptr < s.memory_size →
      bf_execute_program fuel s = some (r, t) →
      t.data_ptr < s.memory_size ∧ t.memory_size = s.memory_size ∧
        t.memory.length = s.memory_size := by
  induction fuel with
  | zero =>
    intro s r t hlen _ _ hdp h
    unfold bf_execute_program at h
    split_ifs at h
    simp only [Option.some.injEq, Prod.mk.injEq] at h
    rw [← h.2]
    exact ⟨hdp, rfl, hlen⟩
  | succ n ih =>
    intro s r t hlen hpos hfit hdp h
    have hb := bf_execute_program_body_tape s hlen hpos hfit hdp
    unfold bf_execute_program at h
    split_ifs at h
    · rcases hbody : bf_execute_program_body s with ⟨r1, t1⟩
      rw [hbody] at hb h
      cases r1 with
      | some e =>
        simp only [Option.some.injEq, Prod.mk.injEq] at h
        rw [← h.2]
        exact hb
      | none =>
        simp only [] at h hb
        have := ih t1 r t (by rw [hb.2.2, hb.2.1]) (by rw [hb.2.1]; exact hpos)
          (by rw [hb.2.1]; exact hfit) (by rw [hb.2.1]; exact hb.1) h
        rw [hb.2.1] at this
        exact this
    · simp only [Option.some.injEq, Prod.mk.injEq] at h
      rw [← h.2]
      exact ⟨hdp, rfl, hlen⟩

/-- C3. From a state whose tape has `memory_size >= 1` cells and whose data
pointer is on the tape, the data pointer is still on the tape (and the tape
has kept its size) after one dispatch, after any number of passes through the
loop of `bf_execute_program`, and in whatever state that loop ends. -/
theorem data_ptr_in_bounds (s : bf_state_t)
    (hlen : s.memory.length = s.memory_size) (hpos : 1 ≤ s.memory_size)
    (hfit : s.memory_size < 2 ^ SIZE_BITS) (hdp : s.data_ptr < s.memory_size) :
    ((bf_execute_instruction s).2.data_ptr < (bf_execute_instruction s).2.memory_size ∧
      (bf_execute_instruction s).2.memory.length = (bf_execute_instruction s).2.memory_size ∧
      (bf_execute_instruction s).2.memory_size = s.memory_size) ∧
    (∀ n, (bf_execute_program_iterate n s).data_ptr <
          (bf_execute_program_iterate n s).memory_size ∧
        (bf_execute_program_iterate n s).memory.length =
          (bf_execute_program_iterate n s).memory_size ∧
        (bf_execute_program_iterate n s).memory_size = s.memory_size) ∧
    (∀ fuel r t, bf_execute_program fuel s = some (r, t) →
      t.data_ptr < t.memory_size ∧ t.memory.length = t.memory_size ∧
        t.memory_size = s.memory_size) := by
  refine ⟨?_, fun n => ?_, fun fuel r t h => ?_⟩
  · have h := bf_execute_instruction_tape s hlen hpos hfit hdp
    rw [h.2.1]
    exact ⟨h.1, h.2.2, rfl⟩
  · have h := bf_execute_program_iterate_tape n s hlen hpos hfit hdp
    rw [h.2.1]
    exact ⟨h.1, h.2.2, rfl⟩
  · have h := bf_execute_program_tape fuel s r t hlen hpos hfit hdp h
    rw [h.2.1]
    exact ⟨h.1, h.2.2, rfl⟩

/-- C3, witness: the invariant after three passes of the run of `>>+<` from
the freshly created state. -/
theorem data_ptr_in_bounds_witness :
    (bf_execute_program_iterate 3 (bf_loaded_state false [] ">>+<".toList)).data_ptr <
        (bf_execute_program_iterate 3 (bf_loaded_state false [] ">>+<".toList)).memory_size ∧
      (bf_execute_program_iterate 3 (bf_loaded_state false [] ">>+<".toList)).memory.length =
        (bf_execute_program_iterate 3 (bf_loaded_state false [] ">>+<".toList)).memory_size ∧
      (bf_execute_program_iterate 3 (bf_loaded_state false [] ">>+<".toList)).memory_size =
        MEMORY_SIZE :=
  (data_ptr_in_bounds (bf_loaded_state false [] ">>+<".toList)
    (List.length_replicate _ _) (by decide) (by decide) (by decide)).2.1 3

/-! ## Theorems: pointer moves, cell arithmetic, input -/

/-- C4. Pointer moves fail exactly at the tape edges. On a state whose data
pointer is on a tape of at least one cell: `>` reports
`BF_ERROR_MEMORY_OVERFLOW` exactly when the data pointer is `memory_size - 1`
and otherwise succeeds and adds one to it; `<` reports
`BF_ERROR_MEMORY_UNDERFLOW` exactly when the data pointer is `0` and otherwise
succeeds and takes one from it; on either error the tape, the data pointer,
the instruction pointer and the bracket stack are as before. -/
theorem pointer_moves (s : bf_state_t) (hpc : s.program_ptr < s.program_size)
    (hpos : 1 ≤ s.memory_size) (hfit : s.memory_size < 2 ^ SIZE_BITS)
    (hdp : s.data_ptr < s.memory_size) :
    (s.program.getD s.program_ptr (Char.ofNat 0) = '>' →
      ((bf_execute_instruction s).1 = BF_ERROR_MEMORY_OVERFLOW ↔
        s.data_ptr = s.memory_size - 1) ∧
      (s.data_ptr ≠ s.memory_size - 1 →
        (bf_execute_instruction s).1 = BF_OK ∧
          (bf_execute_instruction s).2.data_ptr = s.data_ptr + 1) ∧
      ((bf_execute_instruction s).1 = BF_ERROR_MEMORY_OVERFLOW →
        (bf_execute_instruction s).2.memory = s.memory ∧
          (bf_execute_instruction s).2.data_ptr = s.data_ptr ∧
          (bf_execute_instruction s).2.program_ptr = s.program_ptr ∧
          (bf_execute_instruction s).2.bracket_stack = s.bracket_stack ∧
          (bf_execute_instruction s).2.stack_top = s.stack_top)) ∧
    (s.program.getD s.program_ptr (Char.ofNat 0) = '<' →
      ((bf_execute_instruction s).1 = BF_ERROR_MEMORY_UNDERFLOW ↔ s.data_ptr = 0) ∧
      (s.data_ptr ≠ 0 →
        (bf_execute_instruction s).1 = BF_OK ∧
          (bf_execute_instruction s).2.data_ptr = s.data_ptr - 1) ∧
      ((bf_execute_instruction s).1 = BF_ERROR_MEMORY_UNDERFLOW →
        (bf_execute_instruction s).2.memory = s.memory ∧
          (bf_execute_instruction s).2.data_ptr = s.data_ptr ∧
          (bf_execute_instruction s).2.program_ptr = s.program_ptr ∧
          (bf_execute_instruction s).2.bracket_stack = s.bracket_stack ∧
          (bf_execute_instruction s).2.stack_top = s.stack_top)) := by
  constructor
  · intro h
    rw [bf_execute_instruction_right s hpc h, memory_size_pred _ hpos hfit]
    by_cases hedge : s.data_ptr = s.memory_size - 1
    · rw [if_pos (by omega)]
      simp [bf_set_error, hedge]
    · rw [if_neg (by omega)]
      simp [hedge]
  · intro h
    rw [bf_execute_instruction_left s hpc h]
    by_cases hedge : s.data_ptr = 0
    · rw [if_pos hedge]
      simp [bf_set_error, hedge]
    · rw [if_neg hedge]
      simp [hedge]

/-- C4, witness: on the fresh tape of 30000 cells `>` at cell 29999 overflows
and `<` at cell 0 underflows. -/
theorem pointer_moves_witness :
    (bf_execute_instruction
        { bf_loaded_state false [] ">".toList with data_ptr := 29999 }).1 =
        BF_ERROR_MEMORY_OVERFLOW ∧
    (bf_execute_instruction (bf_loaded_state false [] "<".toList)).1 =
        BF_ERROR_MEMORY_UNDERFLOW :=
  ⟨((pointer_moves { bf_loaded_state false [] ">".toList with data_ptr := 29999 }
      (by decide) (by decide) (by decide) (by decide)).1 (by decide)).1.mpr (by decide),
   ((pointer_moves (bf_loaded_state false [] "<".toList)
      (by decide) (by decide) (by decide) (by decide)).2 (by decide)).1.mpr (by decide)⟩

/-- C5. Cell arithmetic wraps and never fails: `+` succeeds and leaves
`(v + 1) mod 256` in the current cell, `-` succeeds and leaves
`(v - 1) mod 256` there, where `v` is the value before; no other cell, nor the
size of the tape, nor the data pointer, nor the bracket stack changes. -/
theorem cell_arithmetic (s : bf_state_t) (hpc : s.program_ptr < s.program_size)
    (hdp : s.data_ptr < s.memory.length) :
    (s.program.getD s.program_ptr (Char.ofNat 0) = '+' →
      (bf_execute_instruction s).1 = BF_OK ∧
      (bf_execute_instruction s).2.memory.getD s.data_ptr 0 =
        (s.memory.getD s.data_ptr 0 + 1) % 256 ∧
      (∀ i, i ≠ s.data_ptr →
        (bf_execute_instruction s).2.memory.getD i 0 = s.memory.getD i 0) ∧
      (bf_execute_instruction s).2.memory.length = s.memory.length ∧
      (bf_execute_instruction s).2.data_ptr = s.data_ptr ∧
      (bf_execute_instruction s).2.bracket_stack = s.bracket_stack ∧
      (bf_execute_instruction s).2.stack_top = s.stack_top) ∧
    (s.program.getD s.program_ptr (Char.ofNat 0) = '-' →
      (bf_execute_instruction s).1 = BF_OK ∧
      (((bf_execute_instruction s).2.memory.getD s.data_ptr 0 : Nat) : Int) =
        ((s.memory.getD s.data_ptr 0 : Nat) - 1 : Int) % 256 ∧
      (∀ i, i ≠ s.data_ptr →
        (bf_execute_instruction s).2.memory.getD i 0 = s.memory.getD i 0) ∧
      (bf_execute_instruction s).2.memory.length = s.memory.length ∧
      (bf_execute_instruction s).2.data_ptr = s.data_ptr ∧
      (bf_execute_instruction s).2.bracket_stack = s.bracket_stack ∧
      (bf_execute_instruction s).2.stack_top = s.stack_top) := by
  constructor
  · intro h
    rw [bf_execute_instruction_plus s hpc h]
    refine ⟨rfl, ?_, fun i hi => ?_, ?_, ?_, ?_, ?_⟩
    · simp [List.getD_eq_getElem?_getD, hdp]
    · simp [List.getD_eq_getElem?_getD, List.getElem?_set_ne (Ne.symm hi)]
    · simp
    · simp
    · simp
    · simp
  · intro h
    rw [bf_execute_instruction_minus s hpc h]
    refine ⟨rfl, ?_, fun i hi => ?_, ?_, ?_, ?_, ?_⟩
    · simp only [List.getD_eq_getElem?_getD, bf_debug_state_memory]
      rw [List.getElem?_set_self hdp]
      simp only [Option.getD_some]
      omega
    · simp [List.getD_eq_getElem?_getD, List.getElem?_set_ne (Ne.symm hi)]
    · simp
    · simp
    · simp
    · simp

/-- C5, witness: `+` on a cell holding 255 leaves 0, and `-` on a cell
holding 0 leaves 255. -/
theorem cell_arithmetic_witness :
    (bf_execute_instruction
        { bf_loaded_state false [] "+".toList with memory := [255], memory_size := 1 }).2.memory.getD
        0 0 = 0 ∧
    (((bf_execute_instruction
        { bf_loaded_state false [] "-".toList with memory := [0], memory_size := 1 }).2.memory.getD
        0 0 : Nat) : Int) = 255 :=
  ⟨((cell_arithmetic
      { bf_loaded_state false [] "+".toList with memory := [255], memory_size := 1 }
      (by decide) (by decide)).1 (by decide)).2.1,
   ((cell_arithmetic
      { bf_loaded_state false [] "-".toList with memory := [0], memory_size := 1 }
      (by decide) (by decide)).2 (by decide)).2.1⟩

/-- C6. Read semantics: `,` never reports an error; at the end of the input
the current cell becomes 0 whatever it held; when the next input byte is `b`
the current cell becomes `b` and exactly that byte is consumed; no other cell
changes. -/
theorem read_semantics (s : bf_state_t) (hpc : s.program_ptr < s.program_size)
    (hdp : s.data_ptr < s.memory.length)
    (hi : s.program.getD s.program_ptr (Char.ofNat 0) = ',') :
    (bf_execute_instruction s).1 = BF_OK ∧
    (s.input = [] →
      (bf_execute_instruction s).2.memory.getD s.data_ptr 0 = 0 ∧
        (bf_execute_instruction s).2.input = []) ∧
    (∀ b rest, b < 256 → s.input = b :: rest →
      (bf_execute_instruction s).2.memory.getD s.data_ptr 0 = b ∧
        (bf_execute_instruction s).2.input = rest) ∧
    (∀ i, i ≠ s.data_ptr →
      (bf_execute_instruction s).2.memory.getD i 0 = s.memory.getD i 0) ∧
    (bf_execute_instruction s).2.memory.length = s.memory.length := by
  rw [bf_execute_instruction_get s hpc hi]
  refine ⟨?_, ?_, ?_, ?_, ?_⟩
  · split_ifs <;> rfl
  · intro hin
    rw [hin]
    simp [fgetc, List.getD_eq_getElem?_getD, hdp]
  · intro b rest hb hin
    rw [hin]
    have hne : (b : Int) ≠ EOF := by unfold EOF; omega
    have hmod : ((b : Int) % 256).toNat = b := by omega
    simp only [fgetc, ne_eq, hne, not_false_eq_true, if_true, List.getD_eq_getElem?_getD,
      bf_debug_state_memory, hmod]
    rw [List.getElem?_set_self hdp]
    simp
  · intro i hne
    split_ifs <;>
      simp [List.getD_eq_getElem?_getD, List.getElem?_set_ne (Ne.symm hne)]
  · split_ifs <;> simp

/-- C6, witness: with the input bytes 255, 7 waiting, `,` overwrites a cell
holding 9 with 255 and leaves the byte 7 in the input. -/
theorem read_semantics_witness :
    (bf_execute_instruction
        { bf_loaded_state false [255, 7] ",".toList with memory := [9], memory_size := 1 }).2.memory.getD
        0 0 = 255 ∧
    (bf_execute_instruction
        { bf_loaded_state false [255, 7] ",".toList with
          memory := [9], memory_size := 1 }).2.input = [7] :=
  (read_semantics
    { bf_loaded_state false [255, 7] ",".toList with memory := [9], memory_size := 1 }
    (by decide) (by decide) (by decide)).2.2.1 255 [7] (by decide) rfl

/-! ## Theorems: the forward jump -/

theorem bracket_depth_nil : bracket_depth [] = 0 := by
  simp [bracket_depth]

theorem bracket_depth_step (x : Char) (c : Int) (l : List Char) :
    (if x = '[' then c + 1 else if x = ']' then c - 1 else c) + bracket_depth l =
      c + bracket_depth (x :: l) := by
  unfold bracket_depth
  by_cases hx : x = '['
  · subst hx
    simp only [if_true, List.count_cons_self, List.count_cons,
      show ('[' == ']') = false from by decide, Bool.false_eq_true, if_false]
    push_cast
    omega
  · by_cases hy : x = ']'
    · subst hy
      simp only [if_true, List.count_cons_self, List.count_cons,
        show (']' == '[') = false from by decide, Bool.false_eq_true, if_false]
      push_cast
      omega
    · have e1 : (x == '[') = false := by simpa using hx
      have e2 : (x == ']') = false := by simpa using hy
      simp only [if_neg hx, if_neg hy, List.count_cons, e1, e2, Bool.false_eq_true, if_false]
      omega

/-- The counter moves by at most one per symbol. -/
theorem bracket_count_step_ge (x : Char) (c : Int) :
    c - 1 ≤ (if x = '[' then c + 1 else if x = ']' then c - 1 else c) := by
  split_ifs <;> omega

/-- Once the counter is not positive the scan stops where it stands. -/
theorem bf_scan_forward_stop (program : List Char) (size fuel ptr : Nat) (c : Int)
    (h : c ≤ 0) : bf_scan_forward program size fuel ptr c = (ptr, c) := by
  cases fuel with
  | zero => rfl
  | succ f =>
    unfold bf_scan_forward
    rw [if_neg (by omega)]

theorem drop_take_succ (program : List Char) (a k : Nat) (h : a < program.length) :
    (program.drop a).take (k + 1) =
      program.getD a (Char.ofNat 0) :: (program.drop (a + 1)).take k := by
  rw [List.drop_eq_getElem_cons h, List.take_succ_cons, List.getD_eq_getElem _ _ h]

/-- What the forward scan computes, started after position `ptr` with a
positive counter `c` and with fuel for the rest of the program: it stops on
the first position at which the counter, moved by the brackets passed, is 0,
and runs off the end of the program when there is no such position. -/
theorem bf_scan_forward_spec (program : List Char) (fuel : Nat) :
    ∀ (ptr : Nat) (c : Int), 0 < c → program.length ≤ ptr + fuel →
      (∀ k, ptr + 1 + k < program.length →
        c + bracket_depth ((program.drop (ptr + 1)).take (k + 1)) = 0 →
        (∀ j, j < k → c + bracket_depth ((program.drop (ptr + 1)).take (j + 1)) ≠ 0) →
        (bf_scan_forward program program.length fuel ptr c).1 = ptr + 1 + k) ∧
      ((∀ k, ptr + 1 + k < program.length →
          c + bracket_depth ((program.drop (ptr + 1)).take (k + 1)) ≠ 0) →
        program.length ≤ (bf_scan_forward program program.length fuel ptr c).1) := by
  induction fuel with
  | zero =>
    intro ptr c _ hfuel
    refine ⟨fun k hk _ _ => ?_, fun _ => ?_⟩
    · omega
    · simp only [bf_scan_forward]
      omega
  | succ f ih =>
    intro ptr c hc hfuel
    unfold bf_scan_forward
    rw [if_pos hc]
    by_cases hlt : ptr + 1 < program.length
    · simp only [if_pos hlt]
      have hstep := fun l => bracket_depth_step (program.getD (ptr + 1) (Char.ofNat 0)) c l
      have hge := bracket_count_step_ge (program.getD (ptr + 1) (Char.ofNat 0)) c
      generalize hc' : (if program.getD (ptr + 1) (Char.ofNat 0) = '[' then c + 1
        else if program.getD (ptr + 1) (Char.ofNat 0) = ']' then c - 1 else c) = c' at hstep hge
      refine ⟨fun k hk hzero hmin => ?_, fun hnone => ?_⟩
      · cases k with
        | zero =>
          rw [drop_take_succ program (ptr + 1) 0 hlt, ← hstep, List.take_zero,
            bracket_depth_nil] at hzero
          have hz : c' = 0 := by omega
          rw [hz, bf_scan_forward_stop _ _ _ _ _ (le_refl _)]
        | succ k =>
          have h0 := hmin 0 (Nat.succ_pos _)
          rw [drop_take_succ program (ptr + 1) 0 hlt, ← hstep, List.take_zero,
            bracket_depth_nil] at h0
          have hpos : 0 < c' := by omega
          have := (ih (ptr + 1) c' hpos (by omega)).1 k (by omega)
            (by rw [hstep, ← drop_take_succ program (ptr + 1) (k + 1) hlt]; exact hzero)
            (fun j hj => by
              rw [hstep, ← drop_take_succ program (ptr + 1) (j + 1) hlt]
              exact hmin (j + 1) (by omega))
          rw [this]
          omega
      · have h0 := hnone 0 (by omega)
        rw [drop_take_succ program (ptr + 1) 0 hlt, ← hstep, List.take_zero,
          bracket_depth_nil] at h0
        have hpos : 0 < c' := by omega
        exact (ih (ptr + 1) c' hpos (by omega)).2 (fun k hk => by
          rw [hstep, ← drop_take_succ program (ptr + 1) (k + 1) hlt]
          exact hnone (k + 1) (by omega))
    · simp only [if_neg hlt]
      refine ⟨fun k hk _ _ => ?_, fun _ => ?_⟩
      · omega
      · omega

/-- Any fuel that covers the rest of the program gives the same scan: the
scan is a function of the program and the position alone. -/
theorem bf_scan_forward_fuel (program : List Char) (size : Nat) (fuel : Nat) :
    ∀ (fuel' ptr : Nat) (c : Int), ptr < size → size ≤ ptr + fuel → size ≤ ptr + fuel' →
      bf_scan_forward program size fuel ptr c = bf_scan_forward program size fuel' ptr c := by
  induction fuel with
  | zero =>
    intro fuel' ptr c hp h _
    omega
  | succ f ih =>
    intro fuel' ptr c hp h h'
    cases fuel' with
    | zero => omega
    | succ f' =>
      simp only [bf_scan_forward]
      split_ifs with h1 h2
      all_goals first
        | rfl
        | exact ih f' (ptr + 1) _ h2 (by omega) (by omega)

/-- A stretch that starts on a `[` has depth one more than what follows. -/
theorem program_slice_open (program : List Char) (p r : Nat) (hp : p < program.length)
    (hi : program.getD p (Char.ofNat 0) = '[') (hr : p ≤ r) :
    bracket_depth (program_slice program p r) =
      1 + bracket_depth ((program.drop (p + 1)).take (r - p)) := by
  unfold program_slice
  have h : r + 1 - p = (r - p) + 1 := by omega
  rw [h, drop_take_succ program p (r - p) hp, hi]
  have := bracket_depth_step '[' 0 ((program.drop (p + 1)).take (r - p))
  simp only [if_true] at this
  omega

/-- C7. Forward jump. When `[` is dispatched at position `p` with the current
cell 0: if `q` is the matching `]` (the first position after `p` at which the
count of `[` minus `]` in `program[p..q]` is back to 0), the dispatch returns
`BF_OK` with `program_ptr = q` and with the tape, the data pointer and the
bracket stack as before; if there is no such position it returns
`BF_ERROR_UNMATCHED_BRACKET`. -/
theorem forward_jump (s : bf_state_t) (hlen : s.program.length = s.program_size)
    (hpc : s.program_ptr < s.program_size)
    (hi : s.program.getD s.program_ptr (Char.ofNat 0) = '[')
    (hz : s.memory.getD s.data_ptr 0 = 0) :
    (∀ q, matching_close s.program s.program_ptr q →
      (bf_execute_instruction s).1 = BF_OK ∧
        (bf_execute_instruction s).2.program_ptr = q ∧
        (bf_execute_instruction s).2.memory = s.memory ∧
        (bf_execute_instruction s).2.data_ptr = s.data_ptr ∧
        (bf_execute_instruction s).2.bracket_stack = s.bracket_stack ∧
        (bf_execute_instruction s).2.stack_top = s.stack_top) ∧
    ((¬ ∃ q, matching_close s.program s.program_ptr q) →
      (bf_execute_instruction s).1 = BF_ERROR_UNMATCHED_BRACKET) := by
  have hp : s.program_ptr < s.program.length := by omega
  have hspec := bf_scan_forward_spec s.program (s.program_size - s.program_ptr)
    s.program_ptr 1 (by omega) (by omega)
  rw [hlen] at hspec
  rw [bf_execute_instruction_open s hpc hi, if_pos hz]
  constructor
  · rintro q ⟨hpq, hq, hzero, hmin⟩
    have hk : q = s.program_ptr + 1 + (q - s.program_ptr - 1) := by omega
    have hscan := hspec.1 (q - s.program_ptr - 1) (by omega)
      (by
        rw [program_slice_open s.program s.program_ptr q hp hi (by omega)] at hzero
        have e : q - s.program_ptr - 1 + 1 = q - s.program_ptr := by omega
        rw [e]
        exact hzero)
      (fun j hj => by
        have := hmin (s.program_ptr + 1 + j) (by omega) (by omega)
        rw [program_slice_open s.program s.program_ptr _ hp hi (by omega)] at this
        have e : s.program_ptr + 1 + j - s.program_ptr = j + 1 := by omega
        rw [e] at this
        exact this)
    rw [← hk] at hscan
    rw [hscan, if_neg (by omega)]
    simp
  · intro hnone
    have hge := hspec.2 (fun k hk hzero => by
      classical
      have hex : ∃ k, s.program_ptr + 1 + k < s.program_size ∧
          1 + bracket_depth ((s.program.drop (s.program_ptr + 1)).take (k + 1)) = 0 :=
        ⟨k, hk, hzero⟩
      apply hnone
      refine ⟨s.program_ptr + 1 + Nat.find hex, by omega, ?_, ?_, ?_⟩
      · have := (Nat.find_spec hex).1
        omega
      · rw [program_slice_open s.program s.program_ptr _ hp hi (by omega)]
        have e : s.program_ptr + 1 + Nat.find hex - s.program_ptr = Nat.find hex + 1 := by
          omega
        rw [e]
        exact (Nat.find_spec hex).2
      · intro r hr hpr hzr
        rw [program_slice_open s.program s.program_ptr r hp hi (by omega)] at hzr
        have hr' : r - s.program_ptr - 1 < Nat.find hex := by omega
        apply Nat.find_min hex hr'
        refine ⟨?_, ?_⟩
        · have := (Nat.find_spec hex).1
          omega
        · have e : r - s.program_ptr - 1 + 1 = r - s.program_ptr := by omega
          rw [e]
          exact hzr)
    rw [if_pos hge]

/-- C7, witness: in `[-[+]]>` entered with a zero cell the jump from the `[`
at position 0 lands on the `]` at position 5, and in `[[]` it reports the
unmatched bracket. -/
theorem forward_jump_witness :
    ((bf_execute_instruction (bf_loaded_state false [] "[-[+]]>".toList)).1 = BF_OK ∧
      (bf_execute_instruction (bf_loaded_state false [] "[-[+]]>".toList)).2.program_ptr = 5) ∧
    (bf_execute_instruction (bf_loaded_state false [] "[[]".toList)).1 =
      BF_ERROR_UNMATCHED_BRACKET :=
  ⟨⟨((forward_jump (bf_loaded_state false [] "[-[+]]>".toList) rfl (by decide) (by decide)
        (by decide)).1 5 (by decide)).1,
    ((forward_jump (bf_loaded_state false [] "[-[+]]>".toList) rfl (by decide) (by decide)
        (by decide)).1 5 (by decide)).2.1⟩,
   (forward_jump (bf_loaded_state false [] "[[]".toList) rfl (by decide) (by decide)
      (by decide)).2 (by
        rintro ⟨q, hpq, hq, hzero, -⟩
        have hq3 : q < 3 := hq
        have hq0 : 0 < q := hpq
        interval_cases q <;> revert hzero <;> decide)⟩

/-! ## Theorems: the backward jump -/

/-- A pass that does not end the loop is one unit of fuel. -/
theorem bf_execute_program_pass (fuel : Nat) (s t : bf_state_t)
    (hpc : s.program_ptr < s.program_size) (hbody : bf_execute_program_body s = (none, t)) :
    bf_execute_program (fuel + 1) s = bf_execute_program fuel t := by
  conv_lhs => unfold bf_execute_program
  rw [if_pos hpc, hbody]

/-- A pass that reports an error ends the loop with that error. -/
theorem bf_execute_program_abort (fuel : Nat) (s t : bf_state_t) (e : bf_error_t)
    (hpc : s.program_ptr < s.program_size) (hbody : bf_execute_program_body s = (some e, t)) :
    bf_execute_program (fuel + 1) s = some (e, t) := by
  conv_lhs => unfold bf_execute_program
  rw [if_pos hpc, hbody]

/-- The loop is left with `BF_OK` once the instruction pointer is at the end. -/
theorem bf_execute_program_done (fuel : Nat) (s : bf_state_t)
    (hpc : s.program_size ≤ s.program_ptr) :
    bf_execute_program fuel s = some (BF_OK, s) := by
  unfold bf_execute_program
  rw [if_neg (Nat.not_lt.mpr hpc)]

/-- C8, as the code has it. When `]` is dispatched by the execution loop with a
non-empty bracket stack and a nonzero current cell, the dispatch succeeds and
sets the instruction pointer to the top entry of the stack, the loop then adds
one to it, and the run goes on from there: the next instruction dispatched is
the one after the `[`, the first of the loop body. The tape, the data pointer
and the bracket stack are as before. -/
theorem backward_jump (s : bf_state_t) (hpc : s.program_ptr < s.program_size)
    (hi : s.program.getD s.program_ptr (Char.ofNat 0) = ']')
    (htop : s.stack_top ≠ 0) (hcell : s.memory.getD s.data_ptr 0 ≠ 0) :
    (bf_execute_instruction s).1 = BF_OK ∧
    (bf_execute_instruction s).2.program_ptr = s.bracket_stack.getD (s.stack_top - 1) 0 ∧
    (bf_execute_program_body s).1 = none ∧
    (bf_execute_program_body s).2.program_ptr = s.bracket_stack.getD (s.stack_top - 1) 0 + 1 ∧
    (bf_execute_program_body s).2.bracket_stack = s.bracket_stack ∧
    (bf_execute_program_body s).2.stack_top = s.stack_top ∧
    (bf_execute_program_body s).2.memory = s.memory ∧
    (bf_execute_program_body s).2.data_ptr = s.data_ptr ∧
    (∀ fuel, bf_execute_program (fuel + 1) s =
      bf_execute_program fuel (bf_execute_program_body s).2) := by
  have hstep : bf_execute_instruction s =
      (BF_OK, { bf_debug_state s with
        program_ptr := s.bracket_stack.getD (s.stack_top - 1) 0 }) := by
    rw [bf_execute_instruction_close s hpc hi, if_neg htop, if_pos hcell]
  have hbody : bf_execute_program_body s =
      (none, { bf_debug_state s with
        program_ptr := s.bracket_stack.getD (s.stack_top - 1) 0 + 1 }) := by
    unfold bf_execute_program_body
    rw [hstep]
    rfl
  refine ⟨by rw [hstep], by rw [hstep], by rw [hbody], by rw [hbody], ?_, ?_, ?_, ?_, ?_⟩
  · rw [hbody]; simp
  · rw [hbody]; simp
  · rw [hbody]; simp
  · rw [hbody]; simp
  · intro fuel
    rw [bf_execute_program_pass fuel s _ hpc hbody, hbody]

/-- C8, witness: in the run of `++[-]`, the `]` at position 4 is dispatched
with the cell at 1 and the `[` of position 2 on the stack; the next dispatch
is at position 3. -/
theorem backward_jump_witness :
    (bf_execute_program_body loop_tail_state).2.program_ptr = 2 + 1 :=
  (backward_jump loop_tail_state (by decide) (by decide) (by decide) (by decide)).2.2.2.1

/-- C8, as the specification has it, fails. In the run of `++[-]` the `]` at
position 4 is dispatched with a stack whose top entry is 2, the position of
the `[`, and with the current cell at 1; the pass does not end the loop, and
the next instruction dispatched is the `-` at position 3, not the `[` at
position 2. -/
theorem backward_jump_counterexample :
    loop_tail_state.program_ptr = 4 ∧
    loop_tail_state.program_ptr < loop_tail_state.program_size ∧
    loop_tail_state.program.getD loop_tail_state.program_ptr (Char.ofNat 0) = ']' ∧
    loop_tail_state.stack_top = 1 ∧
    loop_tail_state.bracket_stack.getD (loop_tail_state.stack_top - 1) 0 = 2 ∧
    loop_tail_state.program.getD 2 (Char.ofNat 0) = '[' ∧
    loop_tail_state.memory.getD loop_tail_state.data_ptr 0 = 1 ∧
    (bf_execute_program_body loop_tail_state).1 = none ∧
    (bf_execute_program_body loop_tail_state).2.program_ptr = 3 ∧
    (bf_execute_program_body loop_tail_state).2.program_ptr ≠
      loop_tail_state.bracket_stack.getD (loop_tail_state.stack_top - 1) 0 ∧
    loop_tail_state.program.getD 3 (Char.ofNat 0) = '-' ∧
    bf_dispatch_trace 6 (bf_loaded_state false [] "++[-]".toList) = [0, 1, 2, 3, 4, 3] := by
  decide

/-! ## Theorems: the engine does not read the debug flag, nor the input when
there is no `,` -/

theorem bf_debug_state_quiet (s : bf_state_t) (i : List Nat) :
    bf_debug_state (bf_quiet s i) = bf_quiet s i := by
  simp [bf_debug_state, bf_quiet]

theorem bf_quiet_debug_state (s : bf_state_t) (i : List Nat) :
    bf_quiet (bf_debug_state s) i = bf_quiet s i := by
  unfold bf_debug_state
  split <;> simp [bf_quiet]

/-- The program is read-only for the engine. -/
theorem bf_execute_instruction_program (s : bf_state_t) :
    (bf_execute_instruction s).2.program = s.program ∧
      (bf_execute_instruction s).2.program_size = s.program_size := by
  by_cases hpc : s.program_ptr < s.program_size
  · rcases instruction_cases (s.program.getD s.program_ptr (Char.ofNat 0)) with
      h | h | h | h | h | h | h | h | ⟨h1, h2, h3, h4, h5, h6, h7, h8⟩
    · rw [bf_execute_instruction_right s hpc h]
      split_ifs <;> simp [bf_set_error]
    · rw [bf_execute_instruction_left s hpc h]
      split_ifs <;> simp [bf_set_error]
    · rw [bf_execute_instruction_plus s hpc h]
      simp
    · rw [bf_execute_instruction_minus s hpc h]
      simp
    · rw [bf_execute_instruction_put s hpc h]
      simp
    · rw [bf_execute_instruction_get s hpc h]
      split_ifs <;> simp
    · rw [bf_execute_instruction_open s hpc h]
      split_ifs <;> simp [bf_set_error]
    · rw [bf_execute_instruction_close s hpc h]
      split_ifs <;> simp [bf_set_error]
    · rw [bf_execute_instruction_other s hpc h1 h2 h3 h4 h5 h6 h7 h8]
      simp
  · rw [bf_execute_instruction_done s (Nat.not_lt.mp hpc)]
    exact ⟨rfl, rfl⟩

theorem bf_execute_program_body_program (s : bf_state_t) :
    (bf_execute_program_body s).2.program = s.program ∧
      (bf_execute_program_body s).2.program_size = s.program_size := by
  have h := bf_execute_instruction_program s
  unfold bf_execute_program_body
  simp only []
  split_ifs
  · exact h
  · exact h

/-- A dispatch of anything but `,` computes the same from the quiet state. -/
theorem bf_execute_instruction_quiet (s : bf_state_t) (i : List Nat)
    (hi : s.program.getD s.program_ptr (Char.ofNat 0) ≠ ',') :
    bf_execute_instruction (bf_quiet s i) =
      ((bf_execute_instruction s).1, bf_quiet (bf_execute_instruction s).2 i) := by
  by_cases hpc : s.program_ptr < s.program_size
  · rcases instruction_cases (s.program.getD s.program_ptr (Char.ofNat 0)) with
      h | h | h | h | h | h | h | h | ⟨h1, h2, h3, h4, h5, h6, h7, h8⟩
    · rw [bf_execute_instruction_right s hpc h, bf_execute_instruction_right (bf_quiet s i) hpc h,
        bf_debug_state_quiet]
      simp only [bf_quiet, bf_set_error]
      split_ifs <;> simp
    · rw [bf_execute_instruction_left s hpc h, bf_execute_instruction_left (bf_quiet s i) hpc h,
        bf_debug_state_quiet]
      simp only [bf_quiet, bf_set_error]
      split_ifs <;> simp
    · rw [bf_execute_instruction_plus s hpc h, bf_execute_instruction_plus (bf_quiet s i) hpc h,
        bf_debug_state_quiet]
      simp [bf_quiet]
    · rw [bf_execute_instruction_minus s hpc h,
        bf_execute_instruction_minus (bf_quiet s i) hpc h, bf_debug_state_quiet]
      simp [bf_quiet]
    · rw [bf_execute_instruction_put s hpc h, bf_execute_instruction_put (bf_quiet s i) hpc h,
        bf_debug_state_quiet]
      simp [bf_quiet]
    · exact absurd h hi
    · rw [bf_execute_instruction_open s hpc h, bf_execute_instruction_open (bf_quiet s i) hpc h,
        bf_debug_state_quiet]
      simp only [bf_quiet, bf_set_error]
      split_ifs <;> simp
    · rw [bf_execute_instruction_close s hpc h,
        bf_execute_instruction_close (bf_quiet s i) hpc h, bf_debug_state_quiet]
      simp only [bf_quiet, bf_set_error]
      split_ifs <;> simp
    · rw [bf_execute_instruction_other s hpc h1 h2 h3 h4 h5 h6 h7 h8,
        bf_execute_instruction_other (bf_quiet s i) hpc h1 h2 h3 h4 h5 h6 h7 h8,
        bf_debug_state_quiet, bf_quiet_debug_state]
  · rw [bf_execute_instruction_done s (Nat.not_lt.mp hpc),
      bf_execute_instruction_done (bf_quiet s i) (Nat.not_lt.mp hpc)]

theorem getD_ne_comma (l : List Char) (i : Nat) (h : ',' ∉ l) :
    l.getD i (Char.ofNat 0) ≠ ',' := by
  by_cases hi : i < l.length
  · rw [List.getD_eq_getElem _ _ hi]
    intro hc
    exact h (hc ▸ List.getElem_mem hi)
  · rw [List.getD_eq_default _ _ (Nat.not_lt.mp hi)]
    decide

/-- A pass through the loop body of a program without `,` computes the same
from the quiet state. -/
theorem bf_execute_program_body_quiet (s : bf_state_t) (i : List Nat)
    (hc : ',' ∉ s.program) :
    bf_execute_program_body (bf_quiet s i) =
      ((bf_execute_program_body s).1, bf_quiet (bf_execute_program_body s).2 i) := by
  unfold bf_execute_program_body
  rw [bf_execute_instruction_quiet s i (getD_ne_comma _ _ hc)]
  simp only []
  split_ifs
  · rfl
  · rfl

/-- The run of a program without `,` computes the same from the quiet state. -/
theorem bf_execute_program_quiet (fuel : Nat) :
    ∀ (s : bf_state_t) (i : List Nat), ',' ∉ s.program →
      bf_execute_program fuel (bf_quiet s i) =
        (bf_execute_program fuel s).map (fun r => (r.1, bf_quiet r.2 i)) := by
  induction fuel with
  | zero =>
    intro s i _
    unfold bf_execute_program
    have e1 : (bf_quiet s i).program_ptr = s.program_ptr := rfl
    have e2 : (bf_quiet s i).program_size = s.program_size := rfl
    rw [e1, e2]
    split_ifs <;> rfl
  | succ n ih =>
    intro s i hc
    have hb := bf_execute_program_body_quiet s i hc
    have hp := (bf_execute_program_body_program s).1
    unfold bf_execute_program
    have e1 : (bf_quiet s i).program_ptr = s.program_ptr := rfl
    have e2 : (bf_quiet s i).program_size = s.program_size := rfl
    rw [e1, e2]
    split_ifs
    · rw [hb]
      rcases hbody : bf_execute_program_body s with ⟨r, t⟩
      rw [hbody] at hp
      cases r with
      | some e => rfl
      | none => exact ih t i (by rw [hp]; exact hc)
    · rfl

/-- The dispatches of a program without `,` are the same from the quiet state. -/
theorem bf_dispatch_trace_quiet (n : Nat) :
    ∀ (s : bf_state_t) (i : List Nat), ',' ∉ s.program →
      bf_dispatch_trace n (bf_quiet s i) = bf_dispatch_trace n s := by
  induction n with
  | zero => intro s i _; rfl
  | succ n ih =>
    intro s i hc
    have hb := bf_execute_program_body_quiet s i hc
    have hp := (bf_execute_program_body_program s).1
    unfold bf_dispatch_trace
    have e1 : (bf_quiet s i).program_ptr = s.program_ptr := rfl
    have e2 : (bf_quiet s i).program_size = s.program_size := rfl
    rw [e1, e2]
    split_ifs
    · rw [hb]
      rcases hbody : bf_execute_program_body s with ⟨r, t⟩
      rw [hbody] at hp
      cases r with
      | some e => rfl
      | none =>
        simp only []
        rw [ih t i (by rw [hp]; exact hc)]
    · rfl

/-! ## Theorems: the corpus program -/

theorem bf_quiet_loaded_state (debug_mode : Bool) (stdin i : List Nat) (program : List Char) :
    bf_quiet (bf_loaded_state debug_mode stdin program) i = bf_loaded_state false i program :=
  rfl

set_option maxRecDepth 100000 in
/-- The run of the corpus program with debugging off and no input, evaluated:
870 passes through the loop, `BF_OK`, and the bytes of `Hello` on the output. -/
theorem hello_run_quiet :
    (bf_execute_program 870 (bf_loaded_state false [] hello)).map
      (fun r => (r.1, r.2.output)) = some (BF_OK, [72, 101, 108, 108, 111]) := by
  decide!

/-- C9. The corpus program passes validation, and its run from the freshly
created state (30000 zero cells, data pointer 0, empty stack), whatever the
debug flag and the input, ends after 870 passes through the loop with `BF_OK`
and with exactly the bytes 72, 101, 108, 108, 111 (`Hello`) written. -/
theorem hello_prints_hello :
    bf_validate_program hello hello.length = BF_OK ∧
    ∀ (debug_mode : Bool) (stdin : List Nat),
      ∃ t, bf_execute_program 870 (bf_loaded_state debug_mode stdin hello) = some (BF_OK, t) ∧
        t.output = [72, 101, 108, 108, 111] := by
  refine ⟨by decide, fun debug_mode stdin => ?_⟩
  have hq := bf_execute_program_quiet 870 (bf_loaded_state debug_mode stdin hello) []
    (show ',' ∉ hello from by decide)
  rw [bf_quiet_loaded_state] at hq
  have hrun := hello_run_quiet
  rw [hq] at hrun
  rcases hres : bf_execute_program 870 (bf_loaded_state debug_mode stdin hello) with _ | ⟨r, t⟩
  · rw [hres] at hrun
    cases hrun
  · rw [hres] at hrun
    simp only [Option.map_some', Option.some.injEq, Prod.mk.injEq] at hrun
    refine ⟨t, ?_, hrun.2⟩
    rw [hrun.1]

/-! ## Theorems: the clear loop -/

theorem clear_loop_length (n : Nat) : (clear_loop n).length = n + 3 := by
  simp [clear_loop]

theorem clear_loop_getD_plus (n pc : Nat) (h : pc < n) :
    (clear_loop n).getD pc (Char.ofNat 0) = '+' := by
  unfold clear_loop
  rw [List.getD_eq_getElem?_getD, List.getElem?_append_left (by simpa using h)]
  simp [h]

theorem clear_loop_getD_tail (n k : Nat) :
    (clear_loop n).getD (n + k) (Char.ofNat 0) = "[-]".toList.getD k (Char.ofNat 0) := by
  unfold clear_loop
  rw [List.getD_eq_getElem?_getD, List.getElem?_append_right (by simp)]
  simp [List.getD_eq_getElem?_getD]

theorem clear_loop_state_init (n : Nat) :
    bf_loaded_state false [] (clear_loop n) =
      clear_loop_state n 0 0 0 (List.replicate STACK_SIZE 0) := rfl

theorem clear_loop_body_plus (n pc v top : Nat) (st : List Nat) (h : pc < n) :
    bf_execute_program_body (clear_loop_state n pc v top st) =
      (none, clear_loop_state n (pc + 1) ((v + 1) % 256) top st) := by
  have hpc : (clear_loop_state n pc v top st).program_ptr <
      (clear_loop_state n pc v top st).program_size := by
    show pc < (clear_loop n).length
    rw [clear_loop_length]; omega
  unfold bf_execute_program_body
  rw [bf_execute_instruction_plus _ hpc (clear_loop_getD_plus n pc h)]
  rfl

theorem clear_loop_state_pc (n pc v top : Nat) (st : List Nat) (h : pc < n + 3) :
    (clear_loop_state n pc v top st).program_ptr <
      (clear_loop_state n pc v top st).program_size := by
  show pc < (clear_loop n).length
  rw [clear_loop_length]; exact h

theorem clear_loop_scan (n : Nat) :
    bf_scan_forward (clear_loop n) (n + 3) (n + 3 - n) n 1 = (n + 2, 0) := by
  have e : n + 3 - n = 3 := by omega
  have h1 : (clear_loop n).getD (n + 1) (Char.ofNat 0) = '-' := clear_loop_getD_tail n 1
  have h2 : (clear_loop n).getD (n + 1 + 1) (Char.ofNat 0) = ']' := clear_loop_getD_tail n 2
  rw [e]
  simp only [bf_scan_forward, h1, h2, Char.reduceEq, if_false, if_true]
  simp

theorem clear_loop_body_open_zero (n top : Nat) (st : List Nat) :
    bf_execute_program_body (clear_loop_state n n 0 top st) =
      (none, clear_loop_state n (n + 3) 0 top st) := by
  unfold bf_execute_program_body
  rw [bf_execute_instruction_open _ (clear_loop_state_pc n n 0 top st (by omega))
    (clear_loop_getD_tail n 0)]
  have hs : bf_scan_forward (clear_loop_state n n 0 top st).program
      (clear_loop_state n n 0 top st).program_size
      ((clear_loop_state n n 0 top st).program_size - (clear_loop_state n n 0 top st).program_ptr)
      (clear_loop_state n n 0 top st).program_ptr 1 = (n + 2, 0) := by
    show bf_scan_forward (clear_loop n) (clear_loop n).length ((clear_loop n).length - n) n 1 = _
    rw [clear_loop_length]
    exact clear_loop_scan n
  rw [hs, if_pos (show (clear_loop_state n n 0 top st).memory.getD
    (clear_loop_state n n 0 top st).data_ptr 0 = 0 from rfl)]
  have hlt : ¬ (n + 2 ≥ (clear_loop_state n n 0 top st).program_size) := by
    show ¬ (n + 2 ≥ (clear_loop n).length)
    rw [clear_loop_length]; omega
  simp only [if_neg hlt]
  rfl

theorem clear_loop_body_open_nonzero (n v : Nat) (st : List Nat) (hv : v ≠ 0) :
    bf_execute_program_body (clear_loop_state n n v 0 (0 :: st)) =
      (none, clear_loop_state n (n + 1) v 1 (n :: st)) := by
  unfold bf_execute_program_body
  rw [bf_execute_instruction_open _ (clear_loop_state_pc n n v 0 _ (by omega))
    (clear_loop_getD_tail n 0)]
  rw [if_neg (show ¬ ((clear_loop_state n n v 0 (0 :: st)).memory.getD
    (clear_loop_state n n v 0 (0 :: st)).data_ptr 0 = 0) from hv)]
  rw [if_neg (show ¬ ((clear_loop_state n n v 0 (0 :: st)).stack_top ≥
    (clear_loop_state n n v 0 (0 :: st)).stack_size) from
    (by decide : ¬ (0 ≥ STACK_SIZE)))]
  rfl

theorem clear_loop_body_minus (n v top : Nat) (st : List Nat) :
    bf_execute_program_body (clear_loop_state n (n + 1) v top st) =
      (none, clear_loop_state n (n + 2) ((v + 256 - 1) % 256) top st) := by
  unfold bf_execute_program_body
  rw [bf_execute_instruction_minus _ (clear_loop_state_pc n (n + 1) v top st (by omega))
    (clear_loop_getD_tail n 1)]
  rfl

theorem clear_loop_body_close_nonzero (n v : Nat) (st : List Nat) (hv : v ≠ 0) :
    bf_execute_program_body (clear_loop_state n (n + 2) v 1 (n :: st)) =
      (none, clear_loop_state n (n + 1) v 1 (n :: st)) := by
  unfold bf_execute_program_body
  rw [bf_execute_instruction_close _ (clear_loop_state_pc n (n + 2) v 1 _ (by omega))
    (clear_loop_getD_tail n 2)]
  rw [if_neg (show ¬ ((clear_loop_state n (n + 2) v 1 (n :: st)).stack_top = 0) from
    Nat.one_ne_zero)]
  rw [if_pos (show (clear_loop_state n (n + 2) v 1 (n :: st)).memory.getD
    (clear_loop_state n (n + 2) v 1 (n :: st)).data_ptr 0 ≠ 0 from hv)]
  rfl

theorem clear_loop_body_close_zero (n : Nat) (st : List Nat) :
    bf_execute_program_body (clear_loop_state n (n + 2) 0 1 st) =
      (none, clear_loop_state n (n + 3) 0 0 st) := by
  unfold bf_execute_program_body
  rw [bf_execute_instruction_close _ (clear_loop_state_pc n (n + 2) 0 1 _ (by omega))
    (clear_loop_getD_tail n 2)]
  rw [if_neg (show ¬ ((clear_loop_state n (n + 2) 0 1 st).stack_top = 0) from
    Nat.one_ne_zero)]
  rw [if_neg (show ¬ ((clear_loop_state n (n + 2) 0 1 st).memory.getD
    (clear_loop_state n (n + 2) 0 1 st).data_ptr 0 ≠ 0) from fun h => h rfl)]
  rfl

/-- The `n` increments: `k` passes take the clear-loop program from its start
to position `k` with `k mod 256` in the first cell. -/
theorem clear_loop_increments (n : Nat) (st : List Nat) (k : Nat) :
    k ≤ n → ∀ f, bf_execute_program (k + f) (clear_loop_state n 0 0 0 st) =
      bf_execute_program f (clear_loop_state n k (k % 256) 0 st) := by
  induction k with
  | zero => intro _ f; rw [Nat.zero_add]
  | succ k ih =>
    intro hk f
    have e : k + 1 + f = k + (f + 1) := by omega
    rw [e, ih (by omega) (f + 1), bf_execute_program_pass f _ _
      (clear_loop_state_pc n k _ 0 st (by omega)) (clear_loop_body_plus n k _ 0 st (by omega))]
    have e2 : (k % 256 + 1) % 256 = (k + 1) % 256 := by omega
    rw [e2]

/-- The loop `[-]` entered with `v` in the cell, `0 < v < 256`: `2 v` passes
from the `-` leave the loop with the cell at 0 and the stack popped. -/
theorem clear_loop_decrements (n : Nat) (st : List Nat) (v : Nat) :
    v < 256 → ∀ f, bf_execute_program (2 * (v + 1) + f) (clear_loop_state n (n + 1) (v + 1) 1 (n :: st)) =
      bf_execute_program f (clear_loop_state n (n + 3) 0 0 (n :: st)) := by
  induction v with
  | zero =>
    intro _ f
    have e : 2 * (0 + 1) + f = (f + 1) + 1 := by omega
    rw [e, bf_execute_program_pass (f + 1) _ _
      (clear_loop_state_pc n (n + 1) _ 1 _ (by omega)) (clear_loop_body_minus n _ 1 _)]
    exact bf_execute_program_pass f _ _
      (clear_loop_state_pc n (n + 2) _ 1 _ (by omega)) (clear_loop_body_close_zero n _)
  | succ v ih =>
    intro hv f
    have e : 2 * (v + 1 + 1) + f = (2 * (v + 1) + f + 1) + 1 := by omega
    rw [e, bf_execute_program_pass _ _ _
      (clear_loop_state_pc n (n + 1) _ 1 _ (by omega)) (clear_loop_body_minus n _ 1 _)]
    have e2 : (v + 1 + 1 + 256 - 1) % 256 = v + 1 := by omega
    rw [e2, bf_execute_program_pass _ _ _
      (clear_loop_state_pc n (n + 2) _ 1 _ (by omega))
      (clear_loop_body_close_nonzero n (v + 1) _ (by omega))]
    exact ih (by omega) f

/-- The run of the clear-loop program with debugging off and no input: it ends
with `BF_OK` at the end of the program, the tape all zero, the data pointer at
0 and the stack empty. -/
theorem clear_loop_run_quiet (n : Nat) :
    ∃ fuel t, bf_execute_program fuel (bf_loaded_state false [] (clear_loop n)) =
        some (BF_OK, t) ∧
      t.memory = List.replicate MEMORY_SIZE 0 ∧ t.data_ptr = 0 ∧ t.stack_top = 0 ∧
      t.program_ptr = n + 3 ∧ t.program_size = n + 3 := by
  rw [clear_loop_state_init]
  have hinc := clear_loop_increments n (List.replicate STACK_SIZE 0) n (le_refl _)
  have hdone : ∀ st, (clear_loop_state n (n + 3) 0 0 st).program_size ≤
      (clear_loop_state n (n + 3) 0 0 st).program_ptr := by
    intro st
    show (clear_loop n).length ≤ n + 3
    rw [clear_loop_length]
  by_cases hz : n % 256 = 0
  · refine ⟨n + 1, clear_loop_state n (n + 3) 0 0 (List.replicate STACK_SIZE 0), ?_, rfl, rfl,
      rfl, rfl, clear_loop_length n⟩
    rw [hinc 1, hz, bf_execute_program_pass 0 _ _
      (clear_loop_state_pc n n _ 0 _ (by omega)) (clear_loop_body_open_zero n 0 _)]
    exact bf_execute_program_done 0 _ (hdone _)
  · obtain ⟨w, hw⟩ : ∃ w, n % 256 = w + 1 := ⟨n % 256 - 1, by omega⟩
    have hw256 : w < 256 := by omega
    rw [hw] at hinc
    refine ⟨n + (2 * (w + 1) + 0 + 1),
      clear_loop_state n (n + 3) 0 0 (n :: List.replicate (STACK_SIZE - 1) 0), ?_, rfl, rfl,
      rfl, rfl, clear_loop_length n⟩
    rw [hinc _]
    have hst : List.replicate STACK_SIZE 0 = 0 :: List.replicate (STACK_SIZE - 1) 0 := rfl
    rw [hst, bf_execute_program_pass _ _ _
      (clear_loop_state_pc n n _ 0 _ (by omega))
      (clear_loop_body_open_nonzero n _ _ (Nat.succ_ne_zero w))]
    exact (clear_loop_decrements n _ w hw256 0).trans (bf_execute_program_done 0 _ (hdone _))

/-- What the run from the quiet state ends with, the run from the state itself
ends with, up to the debug stream and the input. -/
theorem bf_execute_program_of_quiet (fuel : Nat) (s : bf_state_t) (i : List Nat)
    (hc : ',' ∉ s.program) (r : bf_error_t) (t0 : bf_state_t)
    (h : bf_execute_program fuel (bf_quiet s i) = some (r, t0)) :
    ∃ t, bf_execute_program fuel s = some (r, t) ∧ bf_quiet t i = t0 := by
  rw [bf_execute_program_quiet fuel s i hc] at h
  rcases hres : bf_execute_program fuel s with _ | ⟨r1, t1⟩
  · rw [hres] at h
    cases h
  · rw [hres] at h
    simp only [Option.map_some', Option.some.injEq, Prod.mk.injEq] at h
    exact ⟨t1, by rw [h.1], h.2⟩

theorem clear_loop_no_comma (n : Nat) : ',' ∉ clear_loop n := by
  simp [clear_loop, List.mem_replicate]

/-- The run of `+++[-]` with debugging off and no input, evaluated. -/
theorem clear_loop_three_quiet :
    (bf_execute_program 10 (bf_loaded_state false [] (clear_loop 3))).map Prod.fst =
        some BF_OK ∧
      bf_dispatch_trace 10 (bf_loaded_state false [] (clear_loop 3)) =
        [0, 1, 2, 3, 4, 5, 4, 5, 4, 5] := by
  decide!

/-- C10. Clear-loop termination. For every `n`, the program made of `n` times
`+` followed by `[-]`, run from the freshly created state (whatever the debug
flag and the input), ends with `BF_OK` after finitely many passes, with all
30000 cells at 0, the data pointer at 0, the bracket stack empty and the
instruction pointer at the end of the program. For `n = 3` the program is
`+++[-]`, the run takes ten passes, they dispatch the positions
0, 1, 2, 3, 4, 5, 4, 5, 4, 5, and exactly three of these dispatches are the
`-` of the loop body. -/
theorem clear_loop_terminates :
    (∀ (n : Nat) (debug_mode : Bool) (stdin : List Nat),
      ∃ fuel t, bf_execute_program fuel (bf_loaded_state debug_mode stdin (clear_loop n)) =
          some (BF_OK, t) ∧
        t.memory = List.replicate MEMORY_SIZE 0 ∧ t.data_ptr = 0 ∧ t.stack_top = 0 ∧
        t.program_ptr = t.program_size) ∧
    clear_loop 3 = "+++[-]".toList ∧
    (∀ (debug_mode : Bool) (stdin : List Nat),
      (∃ t, bf_execute_program 10 (bf_loaded_state debug_mode stdin (clear_loop 3)) =
        some (BF_OK, t)) ∧
      bf_dispatch_trace 10 (bf_loaded_state debug_mode stdin (clear_loop 3)) =
        [0, 1, 2, 3, 4, 5, 4, 5, 4, 5] ∧
      ((bf_dispatch_trace 10 (bf_loaded_state debug_mode stdin (clear_loop 3))).map
        (fun p => (clear_loop 3).getD p (Char.ofNat 0))).count '-' = 3) := by
  refine ⟨fun n debug_mode stdin => ?_, by decide, fun debug_mode stdin => ?_⟩
  · obtain ⟨fuel, t0, hrun, hmem, hdp, htop, hpc, hsize⟩ := clear_loop_run_quiet n
    rw [← bf_quiet_loaded_state debug_mode stdin [] (clear_loop n)] at hrun
    obtain ⟨t, ht, hq⟩ := bf_execute_program_of_quiet fuel _ [] (clear_loop_no_comma n) _ _ hrun
    refine ⟨fuel, t, ht, ?_, ?_, ?_, ?_⟩
    · rw [← hmem, ← hq]; rfl
    · rw [← hdp, ← hq]; rfl
    · rw [← htop, ← hq]; rfl
    · have e1 : t.program_ptr = t0.program_ptr := by rw [← hq]; rfl
      have e2 : t.program_size = t0.program_size := by rw [← hq]; rfl
      rw [e1, e2, hpc, hsize]
  · have htrace : bf_dispatch_trace 10 (bf_loaded_state debug_mode stdin (clear_loop 3)) =
        [0, 1, 2, 3, 4, 5, 4, 5, 4, 5] := by
      rw [← bf_dispatch_trace_quiet 10 _ [] (clear_loop_no_comma 3), bf_quiet_loaded_state]
      exact clear_loop_three_quiet.2
    refine ⟨?_, htrace, ?_⟩
    · have hfst := clear_loop_three_quiet.1
      rcases hrun : bf_execute_program 10 (bf_loaded_state false [] (clear_loop 3)) with
        _ | ⟨r0, t0⟩
      · rw [hrun] at hfst
        cases hfst
      rw [hrun] at hfst
      simp only [Option.map_some', Option.some.injEq] at hfst
      rw [hfst] at hrun
      rw [← bf_quiet_loaded_state debug_mode stdin [] (clear_loop 3)] at hrun
      obtain ⟨t, ht, -⟩ :=
        bf_execute_program_of_quiet 10 _ [] (clear_loop_no_comma 3) _ _ hrun
      exact ⟨t, ht⟩
    · rw [htrace]
      decide

/-! ## Theorems: the move loop -/

theorem move_loop_state_init (m : Nat) :
    bf_loaded_state_sized (m + 2) false [] move_loop =
      move_loop_state m 0 0 0 0 0 (0 :: List.replicate (STACK_SIZE - 1) 0) := rfl

theorem move_loop_state_pc (m pc dp a b top : Nat) (st : List Nat) (h : pc < 7) :
    (move_loop_state m pc dp a b top st).program_ptr <
      (move_loop_state m pc dp a b top st).program_size := h

/-- The seven passes of the move loop on a tape of `m + 2` cells. -/
theorem move_loop_run_quiet (m : Nat) (hfit : m + 2 < 2 ^ SIZE_BITS) :
    bf_execute_program 7 (bf_loaded_state_sized (m + 2) false [] move_loop) =
      some (BF_OK, move_loop_state m 7 0 0 1 0 (1 :: List.replicate (STACK_SIZE - 1) 0)) := by
  have h0 : bf_execute_program_body
      (move_loop_state m 0 0 0 0 0 (0 :: List.replicate (STACK_SIZE - 1) 0)) =
      (none, move_loop_state m 1 0 1 0 0 (0 :: List.replicate (STACK_SIZE - 1) 0)) := by
    unfold bf_execute_program_body
    rw [bf_execute_instruction_plus _ (move_loop_state_pc m 0 _ _ _ _ _ (by decide)) rfl]
    rfl
  have h1 : bf_execute_program_body
      (move_loop_state m 1 0 1 0 0 (0 :: List.replicate (STACK_SIZE - 1) 0)) =
      (none, move_loop_state m 2 0 1 0 1 (1 :: List.replicate (STACK_SIZE - 1) 0)) := by
    unfold bf_execute_program_body
    rw [bf_execute_instruction_open _ (move_loop_state_pc m 1 _ _ _ _ _ (by decide)) rfl]
    rw [if_neg (show ¬ ((move_loop_state m 1 0 1 0 0 _).memory.getD
      (move_loop_state m 1 0 1 0 0 _).data_ptr 0 = 0) from Nat.one_ne_zero)]
    rw [if_neg (show ¬ ((move_loop_state m 1 0 1 0 0 _).stack_top ≥
      (move_loop_state m 1 0 1 0 0 _).stack_size) from (by decide : ¬ (0 ≥ STACK_SIZE)))]
    rfl
  have h2 : bf_execute_program_body
      (move_loop_state m 2 0 1 0 1 (1 :: List.replicate (STACK_SIZE - 1) 0)) =
      (none, move_loop_state m 3 1 1 0 1 (1 :: List.replicate (STACK_SIZE - 1) 0)) := by
    unfold bf_execute_program_body
    rw [bf_execute_instruction_right _ (move_loop_state_pc m 2 _ _ _ _ _ (by decide)) rfl]
    have hsz : (move_loop_state m 2 0 1 0 1 (1 :: List.replicate (STACK_SIZE - 1) 0)).memory_size =
        m + 2 := rfl
    rw [hsz, memory_size_pred _ (by omega) hfit]
    rw [if_neg (show ¬ ((move_loop_state m 2 0 1 0 1 _).data_ptr ≥ m + 2 - 1) from
      (by omega : ¬ (0 ≥ m + 2 - 1)))]
    rfl
  have h3 : bf_execute_program_body
      (move_loop_state m 3 1 1 0 1 (1 :: List.replicate (STACK_SIZE - 1) 0)) =
      (none, move_loop_state m 4 1 1 1 1 (1 :: List.replicate (STACK_SIZE - 1) 0)) := by
    unfold bf_execute_program_body
    rw [bf_execute_instruction_plus _ (move_loop_state_pc m 3 _ _ _ _ _ (by decide)) rfl]
    rfl
  have h4 : bf_execute_program_body
      (move_loop_state m 4 1 1 1 1 (1 :: List.replicate (STACK_SIZE - 1) 0)) =
      (none, move_loop_state m 5 0 1 1 1 (1 :: List.replicate (STACK_SIZE - 1) 0)) := by
    unfold bf_execute_program_body
    rw [bf_execute_instruction_left _ (move_loop_state_pc m 4 _ _ _ _ _ (by decide)) rfl]
    rw [if_neg (show ¬ ((move_loop_state m 4 1 1 1 1 _).data_ptr = 0) from Nat.one_ne_zero)]
    rfl
  have h5 : bf_execute_program_body
      (move_loop_state m 5 0 1 1 1 (1 :: List.replicate (STACK_SIZE - 1) 0)) =
      (none, move_loop_state m 6 0 0 1 1 (1 :: List.replicate (STACK_SIZE - 1) 0)) := by
    have e : (0 : Nat) = (1 + 256 - 1) % 256 := by decide
    unfold bf_execute_program_body
    rw [bf_execute_instruction_minus _ (move_loop_state_pc m 5 _ _ _ _ _ (by decide)) rfl]
    conv_rhs => rw [e]
    rfl
  have h6 : bf_execute_program_body
      (move_loop_state m 6 0 0 1 1 (1 :: List.replicate (STACK_SIZE - 1) 0)) =
      (none, move_loop_state m 7 0 0 1 0 (1 :: List.replicate (STACK_SIZE - 1) 0)) := by
    unfold bf_execute_program_body
    rw [bf_execute_instruction_close _ (move_loop_state_pc m 6 _ _ _ _ _ (by decide)) rfl]
    rw [if_neg (show ¬ ((move_loop_state m 6 0 0 1 1 _).stack_top = 0) from Nat.one_ne_zero)]
    rw [if_neg (show ¬ ((move_loop_state m 6 0 0 1 1 _).memory.getD
      (move_loop_state m 6 0 0 1 1 _).data_ptr 0 ≠ 0) from fun h => h rfl)]
    rfl
  rw [move_loop_state_init,
    bf_execute_program_pass 6 _ _ (move_loop_state_pc m 0 _ _ _ _ _ (by decide)) h0,
    bf_execute_program_pass 5 _ _ (move_loop_state_pc m 1 _ _ _ _ _ (by decide)) h1,
    bf_execute_program_pass 4 _ _ (move_loop_state_pc m 2 _ _ _ _ _ (by decide)) h2,
    bf_execute_program_pass 3 _ _ (move_loop_state_pc m 3 _ _ _ _ _ (by decide)) h3,
    bf_execute_program_pass 2 _ _ (move_loop_state_pc m 4 _ _ _ _ _ (by decide)) h4,
    bf_execute_program_pass 1 _ _ (move_loop_state_pc m 5 _ _ _ _ _ (by decide)) h5,
    bf_execute_program_pass 0 _ _ (move_loop_state_pc m 6 _ _ _ _ _ (by decide)) h6]
  exact bf_execute_program_done 0 _ (Nat.le_refl 7)

/-- C11. The program `+[>+<-]`, run from the freshly created state on a tape
of `N >= 2` cells (whatever the debug flag and the input), leaves the loop of
`bf_execute_program` after seven passes with `BF_OK`: the loop body runs once,
moves the 1 of the first cell into the second, and the `]` finds the first
cell at 0. -/
theorem move_loop_terminates (N : Nat) (hN : 2 ≤ N) (hfit : N < 2 ^ SIZE_BITS)
    (debug_mode : Bool) (stdin : List Nat) :
    ∃ t, bf_execute_program 7 (bf_loaded_state_sized N debug_mode stdin move_loop) =
        some (BF_OK, t) ∧
      t.memory = 0 :: 1 :: List.replicate (N - 2) 0 ∧ t.data_ptr = 0 ∧ t.stack_top = 0 ∧
      t.program_ptr = t.program_size := by
  obtain ⟨m, rfl⟩ : ∃ m, N = m + 2 := ⟨N - 2, by omega⟩
  have hrun := move_loop_run_quiet m hfit
  have hq : bf_quiet (bf_loaded_state_sized (m + 2) debug_mode stdin move_loop) [] =
      bf_loaded_state_sized (m + 2) false [] move_loop := rfl
  rw [← hq] at hrun
  obtain ⟨t, ht, hqt⟩ := bf_execute_program_of_quiet 7 _ []
    (show ',' ∉ move_loop from by decide) _ _ hrun
  refine ⟨t, ht, ?_, ?_, ?_, ?_⟩
  · have e : t.memory = (bf_quiet t []).memory := rfl
    rw [e, hqt]
    rfl
  · have e : t.data_ptr = (bf_quiet t []).data_ptr := rfl
    rw [e, hqt]
    rfl
  · have e : t.stack_top = (bf_quiet t []).stack_top := rfl
    rw [e, hqt]
    rfl
  · have e1 : t.program_ptr = (bf_quiet t []).program_ptr := rfl
    have e2 : t.program_size = (bf_quiet t []).program_size := rfl
    rw [e1, e2, hqt]
    rfl

/-- C11, witness: the default tape of 30000 cells, where the state is the one
`bf_create_state` makes. -/
theorem move_loop_terminates_witness :
    bf_loaded_state_sized MEMORY_SIZE false [] move_loop = bf_loaded_state false [] move_loop ∧
    ∃ t, bf_execute_program 7 (bf_loaded_state_sized MEMORY_SIZE false [] move_loop) =
        some (BF_OK, t) ∧
      t.memory = 0 :: 1 :: List.replicate (MEMORY_SIZE - 2) 0 ∧ t.data_ptr = 0 ∧
      t.stack_top = 0 ∧ t.program_ptr = t.program_size :=
  ⟨rfl, move_loop_terminates MEMORY_SIZE (by decide) (by decide) false []⟩

/-! ## Theorems: the loader -/

theorem mem_instruction_symbols (c : Char) :
    c ∈ instruction_symbols ↔
      (c = '>' ∨ c = '<' ∨ c = '+' ∨ c = '-' ∨ c = '.' ∨ c = ',' ∨ c = '[' ∨ c = ']') := by
  simp [instruction_symbols]

theorem take_set_self {α : Type} (l : List α) (n : Nat) (a : α) :
    (l.set n a).take n = l.take n := by
  rw [List.set_take, List.set_eq_of_length_le]
  rw [List.length_take]
  exact Nat.min_le_left _ _

/-- The invariant of the filter loop: what has been read is compacted at the
front of the buffer, what has not been read is untouched. -/
theorem bf_filter_loop_spec (raw : List Char) (n : Nat) :
    ∀ (buffer : List Char) (i filtered_size : Nat),
      filtered_size ≤ i → i + n = raw.length → buffer.length = raw.length →
      buffer.drop i = raw.drop i →
      buffer.take filtered_size = (raw.take i).filter (fun c => c ∈ instruction_symbols) →
      (bf_filter_loop n buffer i filtered_size).1.take
          (bf_filter_loop n buffer i filtered_size).2 =
        raw.filter (fun c => c ∈ instruction_symbols) ∧
      (bf_filter_loop n buffer i filtered_size).2 =
        (raw.filter (fun c => c ∈ instruction_symbols)).length ∧
      (bf_filter_loop n buffer i filtered_size).1.length = raw.length := by
  induction n with
  | zero =>
    intro buffer i fs hfs hi hlen _ htake
    simp only [bf_filter_loop]
    have hi' : i = raw.length := by omega
    rw [hi', List.take_length] at htake
    refine ⟨htake, ?_, hlen⟩
    rw [← htake, List.length_take]
    omega
  | succ n ih =>
    intro buffer i fs hfs hi hlen hdrop htake
    have hib : i < buffer.length := by omega
    have hir : i < raw.length := by omega
    have hc : buffer.getD i (Char.ofNat 0) = raw[i] := by
      rw [List.getD_eq_getElem _ _ hib]
      have h1 := List.drop_eq_getElem_cons hib
      have h2 := List.drop_eq_getElem_cons hir
      rw [hdrop, h2] at h1
      exact ((List.cons.injEq _ _ _ _).mp h1).1.symm
    have hdrop' : buffer.drop (i + 1) = raw.drop (i + 1) := by
      have h1 := List.drop_eq_getElem_cons hib
      have h2 := List.drop_eq_getElem_cons hir
      rw [hdrop, h2] at h1
      exact ((List.cons.injEq _ _ _ _).mp h1).2.symm
    have hraw : raw.take (i + 1) = raw.take i ++ [raw[i]] := by
      rw [List.take_succ, List.getElem?_eq_getElem hir]
      rfl
    unfold bf_filter_loop
    simp only [hc]
    split_ifs with hp
    · apply ih (buffer.set fs raw[i]) (i + 1) (fs + 1) (by omega) (by omega)
        (by rw [List.length_set]; exact hlen)
      · rw [List.drop_set_of_lt _ _ (by omega : fs < i + 1)]
        exact hdrop'
      · have hfsb : fs < (buffer.set fs raw[i]).length := by
          rw [List.length_set]; omega
        rw [List.take_succ, List.getElem?_eq_getElem hfsb, List.getElem_set_self,
          take_set_self, htake, hraw, List.filter_append]
        simp [(mem_instruction_symbols raw[i]).mpr hp]
    · apply ih buffer (i + 1) fs (by omega) (by omega) hlen hdrop'
      rw [htake, hraw, List.filter_append]
      have : ¬ raw[i] ∈ instruction_symbols := fun h => hp ((mem_instruction_symbols _).mp h)
      simp [this]

/-- The filter loop run over a whole buffer. -/
theorem bf_filter_loop_whole (raw : List Char) :
    (bf_filter_loop raw.length raw 0 0).1.take (bf_filter_loop raw.length raw 0 0).2 =
        raw.filter (fun c => c ∈ instruction_symbols) ∧
      (bf_filter_loop raw.length raw 0 0).2 =
        (raw.filter (fun c => c ∈ instruction_symbols)).length :=
  have h := bf_filter_loop_spec raw raw.length raw 0 0 (Nat.le_refl 0) (Nat.zero_add _) rfl rfl rfl
  ⟨h.1, h.2.1⟩

theorem bf_validate_program_ne_too_large (program : List Char) (size : Nat) :
    bf_validate_program program size ≠ BF_ERROR_PROGRAM_TOO_LARGE := by
  unfold bf_validate_program
  rcases bf_validate_loop_range (program.take size) 0 0 0 with h | h | h <;> rw [h] <;> decide

/-- C12, as the specification has it, fails. A pipe that holds the five bytes
`+[-].` opens and is far below `MAX_PROGRAM_SIZE`, but `ftell` cannot measure
it and reports -1, and `bf_load_program` returns
`BF_ERROR_PROGRAM_TOO_LARGE`. -/
theorem size_limit_counterexample :
    (bf_host_with_pipe "+[-].".toList).fopen =
        some { ftell_end := -1, bytes := "+[-].".toList } ∧
      "+[-].".toList.length = 5 ∧ 5 ≤ MAX_PROGRAM_SIZE ∧
      (bf_load_program (bf_create_state false [])
        (bf_host_with_pipe "+[-].".toList)).1 = BF_ERROR_PROGRAM_TOO_LARGE := by
  refine ⟨rfl, rfl, by decide, ?_⟩
  decide

/-- C12, as the code has it. Size limit precedes filtering. The length that
`bf_load_program` tests is the offset `ftell` reports at the end of the opened
file. It returns `BF_ERROR_PROGRAM_TOO_LARGE` exactly when the file opens and
that offset is negative or above `MAX_PROGRAM_SIZE`, and then whatever the
bytes are, having changed nothing in the state but the error record. So for a
file whose length is what `ftell` reports: if it has more than
`MAX_PROGRAM_SIZE` bytes the loader returns `BF_ERROR_PROGRAM_TOO_LARGE`
whatever the bytes are; if it has at most `MAX_PROGRAM_SIZE` bytes it does
not, whatever the bytes and whatever the allocator does. -/
theorem size_limit_precedes_filtering (state : bf_state_t) (host : bf_host) :
    ((bf_load_program state host).1 = BF_ERROR_PROGRAM_TOO_LARGE ↔
      ∃ file : bf_file, host.fopen = some file ∧
        (file.ftell_end < 0 ∨ file.ftell_end > (MAX_PROGRAM_SIZE : Int))) ∧
    (∀ file : bf_file, host.fopen = some file →
      (file.ftell_end < 0 ∨ file.ftell_end > (MAX_PROGRAM_SIZE : Int)) →
      bf_load_program state host =
        (BF_ERROR_PROGRAM_TOO_LARGE,
          bf_set_error state BF_ERROR_PROGRAM_TOO_LARGE (some "程序文件过大"))) ∧
    (∀ file : bf_file, host.fopen = some file →
      file.ftell_end = (file.bytes.length : Int) →
      (MAX_PROGRAM_SIZE < file.bytes.length →
        bf_load_program state host =
          (BF_ERROR_PROGRAM_TOO_LARGE,
            bf_set_error state BF_ERROR_PROGRAM_TOO_LARGE (some "程序文件过大"))) ∧
      (file.bytes.length ≤ MAX_PROGRAM_SIZE →
        (bf_load_program state host).1 ≠ BF_ERROR_PROGRAM_TOO_LARGE)) := by
  have hbig : ∀ file : bf_file, host.fopen = some file →
      (file.ftell_end < 0 ∨ file.ftell_end > (MAX_PROGRAM_SIZE : Int)) →
      bf_load_program state host =
        (BF_ERROR_PROGRAM_TOO_LARGE,
          bf_set_error state BF_ERROR_PROGRAM_TOO_LARGE (some "程序文件过大")) := by
    intro file hopen hc
    unfold bf_load_program
    rw [hopen]
    simp only []
    rw [if_pos hc]
  have hsmall : ∀ file : bf_file, host.fopen = some file →
      ¬ (file.ftell_end < 0 ∨ file.ftell_end > (MAX_PROGRAM_SIZE : Int)) →
      (bf_load_program state host).1 ≠ BF_ERROR_PROGRAM_TOO_LARGE := by
    intro file hopen hc
    unfold bf_load_program
    rw [hopen]
    simp only []
    rw [if_neg hc]
    split_ifs
    all_goals first
      | exact bf_validate_program_ne_too_large _ _
      | simp
  refine ⟨⟨fun h => ?_, fun h => ?_⟩, hbig, fun file hopen htell => ⟨fun hlen => ?_, fun hlen => ?_⟩⟩
  · cases hopen : host.fopen with
    | none =>
      unfold bf_load_program at h
      rw [hopen] at h
      simp at h
    | some file =>
      refine ⟨file, rfl, ?_⟩
      by_contra hc
      exact hsmall file hopen hc h
  · obtain ⟨file, hopen, hc⟩ := h
    rw [hbig file hopen hc]
  · exact hbig file hopen (Or.inr (by rw [htell]; exact_mod_cast hlen))
  · apply hsmall file hopen
    rw [htell]
    push_neg
    exact ⟨by omega, by exact_mod_cast hlen⟩

/-- C12, witness: a file of 1000001 blanks is refused as too large, and a
file of exactly 1000000 blanks is not. -/
theorem size_limit_precedes_filtering_witness :
    (bf_load_program (bf_create_state false [])
        (bf_host_with_file (List.replicate 1000001 ' '))).1 = BF_ERROR_PROGRAM_TOO_LARGE ∧
    (bf_load_program (bf_create_state false [])
        (bf_host_with_file (List.replicate 1000000 ' '))).1 ≠ BF_ERROR_PROGRAM_TOO_LARGE :=
  ⟨congrArg Prod.fst (((size_limit_precedes_filtering (bf_create_state false [])
      (bf_host_with_file (List.replicate 1000001 ' '))).2.2 _ rfl rfl).1
      (by rw [List.length_replicate]; decide)),
   ((size_limit_precedes_filtering (bf_create_state false [])
      (bf_host_with_file (List.replicate 1000000 ' '))).2.2 _ rfl rfl).2
      (by rw [List.length_replicate]; decide)⟩

/-- C13. Filtering keeps exactly the instructions. Run over any raw bytes, the
in-place filter loop leaves at the front of the buffer the subsequence of the
bytes that are among the eight symbols, in their order, and `filtered_size`
is its length; so when `bf_load_program` succeeds on a file, `program` is
that subsequence of the file and `program_size` its length; and the filter
loop run over an already filtered sequence leaves it as it is. -/
theorem filter_keeps_instructions :
    (∀ raw : List Char,
      (bf_filter_loop raw.length raw 0 0).1.take (bf_filter_loop raw.length raw 0 0).2 =
          raw.filter (fun c => c ∈ instruction_symbols) ∧
        (bf_filter_loop raw.length raw 0 0).2 =
          (raw.filter (fun c => c ∈ instruction_symbols)).length) ∧
    (∀ (state : bf_state_t) (host : bf_host) (file : bf_file),
      host.fopen = some file → file.ftell_end = (file.bytes.length : Int) →
      (bf_load_program state host).1 = BF_OK →
      (bf_load_program state host).2.program =
          file.bytes.filter (fun c => c ∈ instruction_symbols) ∧
        (bf_load_program state host).2.program_size =
          (file.bytes.filter (fun c => c ∈ instruction_symbols)).length) ∧
    (∀ raw : List Char,
      (bf_filter_loop (raw.filter (fun c => c ∈ instruction_symbols)).length
          (raw.filter (fun c => c ∈ instruction_symbols)) 0 0).1.take
        (bf_filter_loop (raw.filter (fun c => c ∈ instruction_symbols)).length
          (raw.filter (fun c => c ∈ instruction_symbols)) 0 0).2 =
        raw.filter (fun c => c ∈ instruction_symbols)) := by
  refine ⟨bf_filter_loop_whole, ?_, fun raw => ?_⟩
  · intro state host file hopen htell hok
    have hread : (file.bytes.take file.ftell_end.toNat) = file.bytes := by
      rw [htell, Int.toNat_ofNat, List.take_length]
    have hw := bf_filter_loop_whole file.bytes
    unfold bf_load_program at hok ⊢
    rw [hopen] at hok ⊢
    simp only [hread] at hok ⊢
    split_ifs at hok ⊢
    all_goals first
      | exact hw
      | exact absurd hok ‹_›
  · rw [(bf_filter_loop_whole _).1, List.filter_filter]
    simp

/-- C13, witness: from a file that holds `say +[-]. ok` the loader keeps
`+[-].`, five symbols. -/
theorem filter_keeps_instructions_witness :
    (bf_load_program (bf_create_state false [])
        (bf_host_with_file "say +[-]. ok".toList)).2.program = "+[-].".toList ∧
    (bf_load_program (bf_create_state false [])
        (bf_host_with_file "say +[-]. ok".toList)).2.program_size = 5 :=
  filter_keeps_instructions.2.1 (bf_create_state false [])
    (bf_host_with_file "say +[-]. ok".toList) _ rfl rfl (by decide)

/-! ## Theorems: the failure position -/

/-- C14, as the specification has it, fails. The sequence `[+.` is not a
validated program. Run from the freshly created state, its only dispatch is
the `[` at position 0, with the current cell 0; the forward scan runs off the
end, and `bf_execute_program` returns `BF_ERROR_UNMATCHED_BRACKET` with the
instruction pointer at 3, the size of the program, not at 0. -/
theorem failure_position_lost :
    bf_validate_program "[+.".toList 3 = BF_ERROR_UNMATCHED_BRACKET ∧
    bf_dispatch_trace 5 (bf_loaded_state false [] "[+.".toList) = [0] ∧
    (bf_execute_program 5 (bf_loaded_state false [] "[+.".toList)).map
      (fun r => (r.1, r.2.program_ptr, r.2.program_size)) =
      some (BF_ERROR_UNMATCHED_BRACKET, 3, 3) := by
  decide

/-! ## Theorems: the debug flag is not observable -/

theorem bf_debug_state_mute (s : bf_state_t) : bf_debug_state (bf_mute s) = bf_mute s := by
  simp [bf_debug_state, bf_mute]

theorem bf_mute_debug_state (s : bf_state_t) : bf_mute (bf_debug_state s) = bf_mute s := by
  unfold bf_debug_state
  split <;> simp [bf_mute]

/-- A dispatch computes the same from the muted state. -/
theorem bf_execute_instruction_mute (s : bf_state_t) :
    bf_execute_instruction (bf_mute s) =
      ((bf_execute_instruction s).1, bf_mute (bf_execute_instruction s).2) := by
  by_cases hpc : s.program_ptr < s.program_size
  · rcases instruction_cases (s.program.getD s.program_ptr (Char.ofNat 0)) with
      h | h | h | h | h | h | h | h | ⟨h1, h2, h3, h4, h5, h6, h7, h8⟩
    · rw [bf_execute_instruction_right s hpc h, bf_execute_instruction_right (bf_mute s) hpc h,
        bf_debug_state_mute]
      simp only [bf_mute, bf_set_error]
      split_ifs <;> simp
    · rw [bf_execute_instruction_left s hpc h, bf_execute_instruction_left (bf_mute s) hpc h,
        bf_debug_state_mute]
      simp only [bf_mute, bf_set_error]
      split_ifs <;> simp
    · rw [bf_execute_instruction_plus s hpc h, bf_execute_instruction_plus (bf_mute s) hpc h,
        bf_debug_state_mute]
      simp [bf_mute]
    · rw [bf_execute_instruction_minus s hpc h,
        bf_execute_instruction_minus (bf_mute s) hpc h, bf_debug_state_mute]
      simp [bf_mute]
    · rw [bf_execute_instruction_put s hpc h, bf_execute_instruction_put (bf_mute s) hpc h,
        bf_debug_state_mute]
      simp [bf_mute]
    · rw [bf_execute_instruction_get s hpc h, bf_execute_instruction_get (bf_mute s) hpc h,
        bf_debug_state_mute]
      simp only [bf_mute, bf_set_error]
      split_ifs <;> simp
    · rw [bf_execute_instruction_open s hpc h, bf_execute_instruction_open (bf_mute s) hpc h,
        bf_debug_state_mute]
      simp only [bf_mute, bf_set_error]
      split_ifs <;> simp
    · rw [bf_execute_instruction_close s hpc h,
        bf_execute_instruction_close (bf_mute s) hpc h, bf_debug_state_mute]
      simp only [bf_mute, bf_set_error]
      split_ifs <;> simp
    · rw [bf_execute_instruction_other s hpc h1 h2 h3 h4 h5 h6 h7 h8,
        bf_execute_instruction_other (bf_mute s) hpc h1 h2 h3 h4 h5 h6 h7 h8,
        bf_debug_state_mute, bf_mute_debug_state]
  · rw [bf_execute_instruction_done s (Nat.not_lt.mp hpc),
      bf_execute_instruction_done (bf_mute s) (Nat.not_lt.mp hpc)]

theorem bf_execute_program_body_mute (s : bf_state_t) :
    bf_execute_program_body (bf_mute s) =
      ((bf_execute_program_body s).1, bf_mute (bf_execute_program_body s).2) := by
  unfold bf_execute_program_body
  rw [bf_execute_instruction_mute s]
  simp only []
  split_ifs
  · rfl
  · rfl

theorem bf_execute_program_iterate_mute (n : Nat) :
    ∀ s : bf_state_t,
      bf_execute_program_iterate n (bf_mute s) = bf_mute (bf_execute_program_iterate n s) := by
  induction n with
  | zero => intro s; rfl
  | succ n ih =>
    intro s
    have hb := bf_execute_program_body_mute s
    unfold bf_execute_program_iterate
    have e1 : (bf_mute s).program_ptr = s.program_ptr := rfl
    have e2 : (bf_mute s).program_size = s.program_size := rfl
    rw [e1, e2]
    split_ifs
    · rw [hb]
      rcases bf_execute_program_body s with ⟨r, t⟩
      cases r with
      | some e => rfl
      | none => exact ih t
    · rfl

theorem bf_execute_program_mute (fuel : Nat) :
    ∀ s : bf_state_t,
      bf_execute_program fuel (bf_mute s) =
        (bf_execute_program fuel s).map (fun r => (r.1, bf_mute r.2)) := by
  induction fuel with
  | zero =>
    intro s
    unfold bf_execute_program
    have e1 : (bf_mute s).program_ptr = s.program_ptr := rfl
    have e2 : (bf_mute s).program_size = s.program_size := rfl
    rw [e1, e2]
    split_ifs <;> rfl
  | succ n ih =>
    intro s
    have hb := bf_execute_program_body_mute s
    unfold bf_execute_program
    have e1 : (bf_mute s).program_ptr = s.program_ptr := rfl
    have e2 : (bf_mute s).program_size = s.program_size := rfl
    rw [e1, e2]
    split_ifs
    · rw [hb]
      rcases bf_execute_program_body s with ⟨r, t⟩
      cases r with
      | some e => rfl
      | none => exact ih t
    · rfl

theorem bf_dispatch_trace_mute (n : Nat) :
    ∀ s : bf_state_t, bf_dispatch_trace n (bf_mute s) = bf_dispatch_trace n s := by
  induction n with
  | zero => intro s; rfl
  | succ n ih =>
    intro s
    have hb := bf_execute_program_body_mute s
    unfold bf_dispatch_trace
    have e1 : (bf_mute s).program_ptr = s.program_ptr := rfl
    have e2 : (bf_mute s).program_size = s.program_size := rfl
    rw [e1, e2]
    split_ifs
    · rw [hb]
      rcases bf_execute_program_body s with ⟨r, t⟩
      cases r with
      | some e => rfl
      | none =>
        simp only []
        rw [ih t]
    · rfl

/-- C15. Debug instrumentation is observational only. Take a state and the
state that differs from it in `debug_mode` alone. After any number of passes
through the loop of `bf_execute_program` the two runs are in states that
agree in everything but the debug flag and the debug stream (instruction
pointer, data pointer, tape, bracket stack, input left, output written, error
record); they dispatch at the same positions; and with any fuel either both
run out of it or both end, with the same status, in states that agree in the
same way. -/
theorem debug_is_observational (s : bf_state_t) (b : Bool) :
    (∀ n, bf_mute (bf_execute_program_iterate n { s with debug_mode := b }) =
      bf_mute (bf_execute_program_iterate n s)) ∧
    (∀ n, bf_dispatch_trace n { s with debug_mode := b } = bf_dispatch_trace n s) ∧
    (∀ fuel, (bf_execute_program fuel { s with debug_mode := b }).map
        (fun r => (r.1, bf_mute r.2)) =
      (bf_execute_program fuel s).map (fun r => (r.1, bf_mute r.2))) := by
  have hm : bf_mute { s with debug_mode := b } = bf_mute s := rfl
  refine ⟨fun n => ?_, fun n => ?_, fun fuel => ?_⟩
  · rw [← bf_execute_program_iterate_mute, ← bf_execute_program_iterate_mute, hm]
  · rw [← bf_dispatch_trace_mute n { s with debug_mode := b }, hm, bf_dispatch_trace_mute]
  · rw [← bf_execute_program_mute, ← bf_execute_program_mute, hm]

/-! ## Theorems: the debug window -/

/-- The window when neither `data_ptr + 5` nor `memory_size - 1` wraps. -/
theorem bf_debug_window_eq (s : bf_state_t) (hdp : s.data_ptr < s.memory_size)
    (hfit : s.memory_size < 2 ^ SIZE_BITS) (hsum : s.data_ptr + 5 < 2 ^ SIZE_BITS) :
    bf_debug_window s =
      List.range' (s.data_ptr - 5)
        (min (s.memory_size - 1) (s.data_ptr + 5) + 1 - (s.data_ptr - 5)) := by
  unfold bf_debug_window
  rw [memory_size_pred _ (by omega) hfit, Nat.mod_eq_of_lt hsum]
  have hstart : (if s.data_ptr > 5 then s.data_ptr - 5 else 0) = s.data_ptr - 5 := by
    split_ifs <;> omega
  have hend : (if s.data_ptr + 5 < s.memory_size then s.data_ptr + 5 else s.memory_size - 1) =
      min (s.memory_size - 1) (s.data_ptr + 5) := by
    split_ifs <;> omega
  simp only [hstart, hend]

/-- C17. Debug window. In a state whose data pointer is on the tape (and whose
sizes are far enough from the end of `size_t` for `data_ptr + 5` not to
wrap), `bf_debug_state` with `debug_mode` on appends to the debug stream the
header, then one record for each cell of the window, then the line end; the
window is the list, in increasing order, of exactly the indices `i` with
`max(0, data_ptr - 5) <= i <= min(memory_size - 1, data_ptr + 5)`; it has at
most 11 indices, `data_ptr` is one of them, and all of them, like the index
`data_ptr` read for the header, are below `memory_size`. -/
theorem debug_window (s : bf_state_t) (hdp : s.data_ptr < s.memory_size)
    (hfit : s.memory_size < 2 ^ SIZE_BITS) (hsum : s.data_ptr + 5 < 2 ^ SIZE_BITS)
    (hdbg : s.debug_mode = true) :
    (bf_debug_state s).err =
      s.err ++
        [bf_debug_out.header s.program_ptr s.data_ptr (s.memory.getD s.data_ptr 0) s.stack_top,
          bf_debug_out.label] ++
        (bf_debug_window s).map (fun i =>
          if i = s.data_ptr then bf_debug_out.current_cell (s.memory.getD i 0)
          else bf_debug_out.other_cell (s.memory.getD i 0)) ++
        [bf_debug_out.newline] ∧
    (∀ i : Nat, i ∈ bf_debug_window s ↔
      (max 0 ((s.data_ptr : Int) - 5) ≤ (i : Int) ∧
        (i : Int) ≤ min ((s.memory_size : Int) - 1) ((s.data_ptr : Int) + 5))) ∧
    (bf_debug_window s).Pairwise (fun i j => i < j) ∧
    (bf_debug_window s).length ≤ 11 ∧
    s.data_ptr ∈ bf_debug_window s ∧
    (∀ i, i ∈ bf_debug_window s → i < s.memory_size) := by
  have hw := bf_debug_window_eq s hdp hfit hsum
  have hmem : ∀ i : Nat, i ∈ bf_debug_window s ↔
      (s.data_ptr - 5 ≤ i ∧ i ≤ min (s.memory_size - 1) (s.data_ptr + 5)) := by
    intro i
    rw [hw, List.mem_range'_1]
    omega
  refine ⟨?_, ?_, ?_, ?_, ?_, ?_⟩
  · unfold bf_debug_state
    simp [hdbg]
  · intro i
    rw [hmem i]
    omega
  · rw [hw]
    exact List.pairwise_lt_range' _ _
  · rw [hw, List.length_range']
    omega
  · rw [hmem]
    omega
  · intro i hi
    rw [hmem] at hi
    omega

/-- C17, witness: on the fresh tape with the data pointer at cell 2 the window
is the cells 0 to 7, at most 11 and with cell 2 among them. -/
theorem debug_window_witness :
    bf_debug_window { bf_loaded_state true [] "+".toList with data_ptr := 2 } =
        [0, 1, 2, 3, 4, 5, 6, 7] ∧
    (bf_debug_window { bf_loaded_state true [] "+".toList with data_ptr := 2 }).length ≤ 11 ∧
    2 ∈ bf_debug_window { bf_loaded_state true [] "+".toList with data_ptr := 2 } :=
  ⟨by decide,
   (debug_window { bf_loaded_state true [] "+".toList with data_ptr := 2 }
      (by decide) (by decide) (by decide) rfl).2.2.2.1,
   (debug_window { bf_loaded_state true [] "+".toList with data_ptr := 2 }
      (by decide) (by decide) (by decide) rfl).2.2.2.2.1⟩

/-! ## Theorems: the lexical structure of the brackets -/

theorem open_brackets_succ_open (program : List Char) (i : Nat)
    (h : program.getD i (Char.ofNat 0) = '[') :
    open_brackets program (i + 1) = open_brackets program i ++ [i] := by
  rw [open_brackets, if_pos h]

theorem open_brackets_succ_close (program : List Char) (i : Nat)
    (h : program.getD i (Char.ofNat 0) = ']') :
    open_brackets program (i + 1) =
      (open_brackets program i).take ((open_brackets program i).length - 1) := by
  rw [open_brackets, if_neg (by rw [h]; decide), if_pos h, List.dropLast_eq_take]

theorem open_brackets_succ_other (program : List Char) (i : Nat)
    (h1 : program.getD i (Char.ofNat 0) ≠ '[') (h2 : program.getD i (Char.ofNat 0) ≠ ']') :
    open_brackets program (i + 1) = open_brackets program i := by
  rw [open_brackets, if_neg h1, if_neg h2]

/-- The depth of a stretch, extended by one symbol. -/
theorem program_slice_succ (program : List Char) (p r : Nat) (hpr : p ≤ r + 1)
    (hr : r + 1 < program.length) :
    bracket_depth (program_slice program p (r + 1)) =
      bracket_depth (program_slice program p r) +
        (if program.getD (r + 1) (Char.ofNat 0) = '[' then 1
         else if program.getD (r + 1) (Char.ofNat 0) = ']' then -1 else 0) := by
  unfold program_slice
  have e : r + 1 + 1 - p = (r + 1 - p) + 1 := by omega
  have hlt : r + 1 - p < (program.drop p).length := by
    rw [List.length_drop]; omega
  rw [e, List.take_succ, List.getElem?_eq_getElem hlt, List.getElem_drop]
  have hidx : p + (r + 1 - p) = r + 1 := by omega
  simp only [hidx, Option.toList_some]
  rw [List.getD_eq_getElem _ _ hr]
  unfold bracket_depth
  rw [List.count_append, List.count_append]
  by_cases hx : program[r + 1] = '['
  · simp [hx]
    omega
  · by_cases hy : program[r + 1] = ']'
    · simp [hy]
      omega
    · have e1 : (program[r + 1] == '[') = false := by simpa using hx
      have e2 : (program[r + 1] == ']') = false := by simpa using hy
      simp [hx, hy, List.count_cons, e1, e2]

/-- The stretch made of one `[`. -/
theorem program_slice_self (program : List Char) (p : Nat) (hp : p < program.length)
    (hi : program.getD p (Char.ofNat 0) = '[') :
    bracket_depth (program_slice program p p) = 1 := by
  rw [program_slice_open program p p hp hi (Nat.le_refl _), Nat.sub_self, List.take_zero,
    bracket_depth_nil]
  rfl

/-- While the count since the `[` at `p` has not come back to 0, that `[` and
all that was open before it stay open, and the number of open brackets is the
number before `p` plus the count since `p`. -/
theorem open_brackets_after_open (program : List Char) (p : Nat) (hp : p < program.length)
    (hi : program.getD p (Char.ofNat 0) = '[') (n : Nat) :
    p + n < program.length →
    (∀ r, p < r → r ≤ p + n → bracket_depth (program_slice program p r) ≠ 0) →
    (open_brackets program (p + n + 1)).take ((open_brackets program p).length + 1) =
        open_brackets program p ++ [p] ∧
      ((open_brackets program (p + n + 1)).length : Int) =
        (open_brackets program p).length + bracket_depth (program_slice program p (p + n)) ∧
      1 ≤ bracket_depth (program_slice program p (p + n)) := by
  induction n with
  | zero =>
    intro _ _
    simp only [Nat.add_zero]
    rw [open_brackets_succ_open program p hi, program_slice_self program p hp hi]
    refine ⟨?_, ?_, le_refl _⟩
    · rw [List.take_of_length_le]
      simp
    · simp
  | succ n ih =>
    intro hlt hne
    obtain ⟨htake, hlen, hd⟩ := ih (by omega) (fun r h1 h2 => hne r h1 (by omega))
    have hslice := program_slice_succ program p (p + n) (by omega) hlt
    have hnz := hne (p + n + 1) (by omega) (Nat.le_refl _)
    have e : p + (n + 1) = p + n + 1 := rfl
    rw [e]
    rw [hslice] at hnz ⊢
    by_cases hx : program.getD (p + n + 1) (Char.ofNat 0) = '['
    · rw [if_pos hx] at hnz ⊢
      rw [open_brackets_succ_open program (p + n + 1) hx]
      refine ⟨?_, ?_, by omega⟩
      · rw [List.take_append_of_le_length (by omega)]
        exact htake
      · rw [List.length_append, List.length_singleton]
        push_cast
        omega
    · by_cases hy : program.getD (p + n + 1) (Char.ofNat 0) = ']'
      · rw [if_neg hx, if_pos hy] at hnz ⊢
        rw [open_brackets_succ_close program (p + n + 1) hy]
        have hlen2 : (open_brackets program p).length + 2 ≤
            (open_brackets program (p + n + 1)).length := by omega
        refine ⟨?_, ?_, by omega⟩
        · rw [List.take_take, Nat.min_eq_left (by omega)]
          exact htake
        · rw [List.length_take, Nat.min_eq_left (by omega)]
          omega
      · rw [if_neg hx, if_neg hy] at hnz ⊢
        rw [open_brackets_succ_other program (p + n + 1) hx hy]
        exact ⟨htake, by omega, by omega⟩

/-- At the matching `]` of a `[` the stack of open brackets is what it was
before the `[`, plus that `[`; after it, it is what it was before the `[`. -/
theorem open_brackets_matching_close (program : List Char) (p q : Nat)
    (hi : program.getD p (Char.ofNat 0) = '[') (hm : matching_close program p q) :
    program.getD q (Char.ofNat 0) = ']' ∧
      open_brackets program q = open_brackets program p ++ [p] ∧
      open_brackets program (q + 1) = open_brackets program p := by
  obtain ⟨hpq, hq, hzero, hmin⟩ := hm
  have hp : p < program.length := by omega
  obtain ⟨n, rfl⟩ : ∃ n, q = p + n + 1 := ⟨q - p - 1, by omega⟩
  obtain ⟨htake, hlen, hd⟩ := open_brackets_after_open program p hp hi n (by omega)
    (fun r h1 h2 => hmin r (by omega) h1)
  rw [program_slice_succ program p (p + n) (by omega) hq] at hzero
  have hclose : program.getD (p + n + 1) (Char.ofNat 0) = ']' := by
    by_contra hy
    by_cases hx : program.getD (p + n + 1) (Char.ofNat 0) = '['
    · rw [if_pos hx] at hzero; omega
    · rw [if_neg hx, if_neg hy] at hzero; omega
  rw [if_neg (by rw [hclose]; decide), if_pos hclose] at hzero
  have hlen1 : (open_brackets program (p + n + 1)).length =
      (open_brackets program p).length + 1 := by omega
  have hq' : open_brackets program (p + n + 1) = open_brackets program p ++ [p] := by
    rw [← htake, ← hlen1, List.take_length]
  refine ⟨hclose, hq', ?_⟩
  rw [open_brackets_succ_close program (p + n + 1) hclose, hq']
  simp

/-- An entry of the stack of open brackets is the position of a `[`; the stack
just after that `[` was the stack up to this entry, and it has stayed so up
to this entry ever since. -/
theorem open_brackets_entry (program : List Char) (i : Nat) :
    ∀ k p, (open_brackets program i)[k]? = some p →
      p < i ∧ program.getD p (Char.ofNat 0) = '[' ∧
        open_brackets program (p + 1) = (open_brackets program i).take (k + 1) ∧
        ∀ r, p < r → r ≤ i →
          (open_brackets program r).take (k + 1) = (open_brackets program i).take (k + 1) := by
  induction i with
  | zero =>
    intro k p h
    simp [open_brackets] at h
  | succ i ih =>
    intro k p h
    have hk : k < (open_brackets program (i + 1)).length := by
      rcases Nat.lt_or_ge k (open_brackets program (i + 1)).length with h1 | h1
      · exact h1
      · rw [List.getElem?_eq_none h1] at h
        cases h
    by_cases hx : program.getD i (Char.ofNat 0) = '['
    · rw [open_brackets_succ_open program i hx] at h hk ⊢
      rw [List.length_append, List.length_singleton] at hk
      by_cases hk' : k < (open_brackets program i).length
      · rw [List.getElem?_append_left hk'] at h
        obtain ⟨h1, h2, h3, h4⟩ := ih k p h
        rw [List.take_append_of_le_length (by omega)]
        refine ⟨by omega, h2, h3, fun r hr1 hr2 => ?_⟩
        rcases Nat.lt_or_ge r (i + 1) with hr | hr
        · exact h4 r hr1 (by omega)
        · have : r = i + 1 := by omega
          subst this
          rw [open_brackets_succ_open program i hx, List.take_append_of_le_length (by omega)]
      · have hkeq : k = (open_brackets program i).length := by omega
        subst hkeq
        rw [List.getElem?_append_right (Nat.le_refl _), Nat.sub_self] at h
        simp only [List.getElem?_cons_zero, Option.some.injEq] at h
        subst h
        have hfull : (open_brackets program i ++ [i]).take ((open_brackets program i).length + 1) =
            open_brackets program i ++ [i] := by
          rw [List.take_of_length_le]
          simp
        refine ⟨by omega, hx, ?_, fun r hr1 hr2 => ?_⟩
        · rw [open_brackets_succ_open program i hx, hfull]
        · have : r = i + 1 := by omega
          subst this
          rw [open_brackets_succ_open program i hx]
    · by_cases hy : program.getD i (Char.ofNat 0) = ']'
      · rw [open_brackets_succ_close program i hy] at h hk ⊢
        rw [List.length_take] at hk
        have hk' : k + 1 ≤ (open_brackets program i).length - 1 := by omega
        rw [List.getElem?_take_of_lt (by omega)] at h
        obtain ⟨h1, h2, h3, h4⟩ := ih k p h
        rw [List.take_take, Nat.min_eq_left hk']
        refine ⟨by omega, h2, h3, fun r hr1 hr2 => ?_⟩
        rcases Nat.lt_or_ge r (i + 1) with hr | hr
        · exact h4 r hr1 (by omega)
        · have : r = i + 1 := by omega
          subst this
          rw [open_brackets_succ_close program i hy, List.take_take, Nat.min_eq_left hk']
      · rw [open_brackets_succ_other program i hx hy] at h ⊢
        obtain ⟨h1, h2, h3, h4⟩ := ih k p h
        refine ⟨by omega, h2, h3, fun r hr1 hr2 => ?_⟩
        rcases Nat.lt_or_ge r (i + 1) with hr | hr
        · exact h4 r hr1 (by omega)
        · have : r = i + 1 := by omega
          subst this
          rw [open_brackets_succ_other program i hx hy]

/-- In a sequence in which no prefix closes more than it opens, the number of
open brackets after a prefix is its count of `[` minus its count of `]`. -/
theorem open_brackets_length (program : List Char) (i : Nat) :
    i ≤ program.length →
    (∀ n, n ≤ i → (program.take n).count ']' ≤ (program.take n).count '[') →
    (open_brackets program i).length + (program.take i).count ']' =
      (program.take i).count '[' := by
  induction i with
  | zero => intro _ _; simp [open_brackets]
  | succ i ih =>
    intro hi hpre
    have hlt : i < program.length := by omega
    have ih' := ih (by omega) (fun n hn => hpre n (by omega))
    have hnow := hpre (i + 1) (Nat.le_refl _)
    have htake : program.take (i + 1) = program.take i ++ [program.getD i (Char.ofNat 0)] := by
      rw [List.take_succ, List.getElem?_eq_getElem hlt, List.getD_eq_getElem _ _ hlt]
      rfl
    rw [htake, List.count_append, List.count_append] at hnow ⊢
    by_cases hx : program.getD i (Char.ofNat 0) = '['
    · have c1 : List.count '[' [program.getD i (Char.ofNat 0)] = 1 := by rw [hx]; decide
      have c2 : List.count ']' [program.getD i (Char.ofNat 0)] = 0 := by rw [hx]; decide
      rw [c1, c2] at hnow ⊢
      rw [open_brackets_succ_open program i hx, List.length_append, List.length_singleton]
      omega
    · by_cases hy : program.getD i (Char.ofNat 0) = ']'
      · have c1 : List.count '[' [program.getD i (Char.ofNat 0)] = 0 := by rw [hy]; decide
        have c2 : List.count ']' [program.getD i (Char.ofNat 0)] = 1 := by rw [hy]; decide
        rw [c1, c2] at hnow ⊢
        rw [open_brackets_succ_close program i hy, List.length_take]
        omega
      · have e1 : (program.getD i (Char.ofNat 0) == '[') = false := by simpa using hx
        have e2 : (program.getD i (Char.ofNat 0) == ']') = false := by simpa using hy
        have c1 : List.count '[' [program.getD i (Char.ofNat 0)] = 0 := by
          simp only [List.count_cons, List.count_nil, e1]; rfl
        have c2 : List.count ']' [program.getD i (Char.ofNat 0)] = 0 := by
          simp only [List.count_cons, List.count_nil, e2]; rfl
        rw [c1, c2]
        rw [open_brackets_succ_other program i hx hy]
        omega

/-! ## Theorems: balanced programs -/

/-- If the count since the `[` at `p` is back to 0 somewhere, the first such
position is the matching `]`. -/
theorem matching_close_of_zero (program : List Char) (p r : Nat) (hpr : p < r)
    (hr : r < program.length) (hzero : bracket_depth (program_slice program p r) = 0) :
    ∃ q, q ≤ r ∧ matching_close program p q := by
  classical
  have hex : ∃ q, p < q ∧ bracket_depth (program_slice program p q) = 0 := ⟨r, hpr, hzero⟩
  refine ⟨Nat.find hex, Nat.find_min' hex ⟨hpr, hzero⟩, (Nat.find_spec hex).1, ?_,
    (Nat.find_spec hex).2, ?_⟩
  · have := Nat.find_min' hex ⟨hpr, hzero⟩
    omega
  · intro r' hr' hpr' hz
    exact Nat.find_min hex hr' ⟨hpr', hz⟩

/-- The forward scan from a `[` stops on its matching `]` when there is one
and runs off the end of the program when there is none. -/
theorem bf_scan_forward_matching (program : List Char) (p : Nat) (hp : p < program.length)
    (hi : program.getD p (Char.ofNat 0) = '[') :
    (∀ q, matching_close program p q →
      (bf_scan_forward program program.length (program.length - p) p 1).1 = q) ∧
    ((¬ ∃ q, matching_close program p q) →
      program.length ≤ (bf_scan_forward program program.length (program.length - p) p 1).1) := by
  have hspec := bf_scan_forward_spec program (program.length - p) p 1 (by omega) (by omega)
  constructor
  · rintro q ⟨hpq, hq, hzero, hmin⟩
    have hk : q = p + 1 + (q - p - 1) := by omega
    have hscan := hspec.1 (q - p - 1) (by omega)
      (by
        rw [program_slice_open program p q hp hi (by omega)] at hzero
        have e : q - p - 1 + 1 = q - p := by omega
        rw [e]
        exact hzero)
      (fun j hj => by
        have := hmin (p + 1 + j) (by omega) (by omega)
        rw [program_slice_open program p _ hp hi (by omega)] at this
        have e : p + 1 + j - p = j + 1 := by omega
        rw [e] at this
        exact this)
    rw [← hk] at hscan
    exact hscan
  · intro hnone
    apply hspec.2
    intro k hk hzero
    apply hnone
    have hz : bracket_depth (program_slice program p (p + 1 + k)) = 0 := by
      rw [program_slice_open program p _ hp hi (by omega)]
      have e : p + 1 + k - p = k + 1 := by omega
      rw [e]
      exact hzero
    obtain ⟨q, -, hq⟩ := matching_close_of_zero program p (p + 1 + k) (by omega) hk hz
    exact ⟨q, hq⟩

/-- In a balanced program nothing is open at the end. -/
theorem open_brackets_end (program : List Char) (hb : brackets_balanced program) :
    open_brackets program program.length = [] := by
  have h := open_brackets_length program program.length (Nat.le_refl _) hb.1
  rw [List.take_length, hb.2] at h
  exact List.eq_nil_of_length_eq_zero (by omega)

/-- In a validated program at most `MAX_NESTING` brackets are ever open. -/
theorem open_brackets_bound (program : List Char) (hb : brackets_balanced program)
    (hn : nesting_within MAX_NESTING program) (i : Nat) (hi : i ≤ program.length) :
    (open_brackets program i).length ≤ MAX_NESTING := by
  have h := open_brackets_length program i hi (fun n hn' => hb.1 n (by omega))
  have := hn i hi
  omega

/-- In a balanced program a `]` finds a bracket open. -/
theorem open_brackets_at_close (program : List Char) (hb : brackets_balanced program)
    (q : Nat) (hq : q < program.length) (hi : program.getD q (Char.ofNat 0) = ']') :
    1 ≤ (open_brackets program q).length := by
  have h := open_brackets_length program q (by omega) (fun n hn' => hb.1 n (by omega))
  have hnow := hb.1 (q + 1) (by omega)
  rw [List.take_succ, List.getElem?_eq_getElem hq, ← List.getD_eq_getElem _ (Char.ofNat 0) hq, hi,
    List.count_append, List.count_append] at hnow
  have c1 : List.count ']' (some ']').toList = 1 := by decide
  have c2 : List.count '[' (some ']').toList = 0 := by decide
  rw [c1, c2] at hnow
  omega

/-- In a balanced program every `[` has its matching `]`. -/
theorem matching_close_exists (program : List Char) (hb : brackets_balanced program)
    (p : Nat) (hp : p < program.length) (hi : program.getD p (Char.ofNat 0) = '[') :
    ∃ q, matching_close program p q := by
  by_contra hnone
  have hne : ∀ r, p < r → r ≤ p + (program.length - 1 - p) →
      bracket_depth (program_slice program p r) ≠ 0 := by
    intro r hpr hr hz
    obtain ⟨q, -, hq⟩ := matching_close_of_zero program p r hpr (by omega) hz
    exact hnone ⟨q, hq⟩
  obtain ⟨-, hlen, hd⟩ := open_brackets_after_open program p hp hi (program.length - 1 - p)
    (by omega) hne
  have e : p + (program.length - 1 - p) + 1 = program.length := by omega
  rw [e, open_brackets_end program hb] at hlen
  simp only [List.length_nil, Nat.cast_zero] at hlen
  omega


/-- The length of the stack of open brackets just after a `[`. -/
theorem open_brackets_entry_length (program : List Char) (i k p : Nat)
    (h : (open_brackets program i)[k]? = some p) :
    (open_brackets program p).length = k := by
  obtain ⟨-, h2, h3, -⟩ := open_brackets_entry program i k p h
  have hk : k < (open_brackets program i).length := by
    rcases Nat.lt_or_ge k (open_brackets program i).length with h1 | h1
    · exact h1
    · rw [List.getElem?_eq_none h1] at h
      cases h
  have hl := congrArg List.length h3
  rw [open_brackets_succ_open program p h2, List.length_append, List.length_singleton,
    List.length_take] at hl
  omega

/-- An open bracket has not been closed: the count since it has not come back
to 0. -/
theorem open_brackets_entry_encloses (program : List Char) (i k p : Nat)
    (hi : i ≤ program.length) (h : (open_brackets program i)[k]? = some p) :
    encloses program p i := by
  obtain ⟨h1, h2, h3, h4⟩ := open_brackets_entry program i k p h
  have hb := open_brackets_entry_length program i k p h
  have hk : k < (open_brackets program i).length := by
    rcases Nat.lt_or_ge k (open_brackets program i).length with h1 | h1
    · exact h1
    · rw [List.getElem?_eq_none h1] at h
      cases h
  refine ⟨h1, h2, fun r hr hpr hz => ?_⟩
  obtain ⟨q, hqr, hm⟩ := matching_close_of_zero program p r hpr (by omega) hz
  have hclose := (open_brackets_matching_close program p q h2 hm).2.2
  have hpers := h4 (q + 1) (by have := hm.1; omega) (by omega)
  have hl := congrArg List.length hpers
  rw [hclose, List.length_take, List.length_take, hb] at hl
  omega

/-- A `]` closes the bracket on top of the stack of open brackets. -/
theorem matching_close_of_top (program : List Char) (q p : Nat) (hq : q < program.length)
    (hi : program.getD q (Char.ofNat 0) = ']')
    (h : (open_brackets program q)[(open_brackets program q).length - 1]? = some p) :
    matching_close program p q := by
  obtain ⟨h1, h2, -⟩ := open_brackets_entry program q _ p h
  have hb := open_brackets_entry_length program q _ p h
  have hpos : 1 ≤ (open_brackets program q).length := by
    rcases Nat.lt_or_ge 0 (open_brackets program q).length with h0 | h0
    · exact h0
    · rw [List.getElem?_eq_none (by omega)] at h
      cases h
  obtain ⟨-, -, henc⟩ := open_brackets_entry_encloses program q _ p (by omega) h
  obtain ⟨n, hn⟩ : ∃ n, q = p + n + 1 := ⟨q - p - 1, by omega⟩
  obtain ⟨-, hlen, -⟩ := open_brackets_after_open program p (by omega) h2 n (by omega)
    (fun r hr1 hr2 => henc r (by omega) hr1)
  refine ⟨h1, hq, ?_, henc⟩
  rw [hn, program_slice_succ program p (p + n) (by omega) (by omega), ← hn,
    if_neg (by rw [hi]; decide), if_pos hi]
  rw [← hn, hb] at hlen
  omega

/-- The open brackets are listed in increasing order. -/
theorem open_brackets_sorted (program : List Char) (i : Nat) :
    (open_brackets program i).Pairwise (fun a b => a < b) := by
  induction i with
  | zero => simp [open_brackets]
  | succ i ih =>
    by_cases hx : program.getD i (Char.ofNat 0) = '['
    · rw [open_brackets_succ_open program i hx, List.pairwise_append]
      refine ⟨ih, List.pairwise_singleton _ _, fun a ha b hb => ?_⟩
      rw [List.mem_singleton] at hb
      rw [hb]
      obtain ⟨k, hk⟩ := List.getElem?_of_mem ha
      exact (open_brackets_entry program i k a hk).1
    · by_cases hy : program.getD i (Char.ofNat 0) = ']'
      · rw [open_brackets_succ_close program i hy]
        exact ih.sublist (List.take_sublist _ _)
      · rw [open_brackets_succ_other program i hx hy]
        exact ih

theorem mem_open_brackets_iff (program : List Char) (i p : Nat) (hi : i ≤ program.length) :
    p ∈ open_brackets program i ↔ encloses program p i := by
  constructor
  · intro hp
    obtain ⟨k, hk⟩ := List.getElem?_of_mem hp
    exact open_brackets_entry_encloses program i k p hi hk
  · rintro ⟨h1, h2, h3⟩
    obtain ⟨n, hn⟩ : ∃ n, i = p + n + 1 := ⟨i - p - 1, by omega⟩
    obtain ⟨htake, -, -⟩ := open_brackets_after_open program p (by omega) h2 n (by omega)
      (fun r hr1 hr2 => h3 r (by omega) hr1)
    rw [← hn] at htake
    have hmem : p ∈ (open_brackets program i).take ((open_brackets program p).length + 1) := by
      rw [htake]
      simp
    exact List.mem_of_mem_take hmem

/-- The stack of open brackets, found by matching from the left, is the list
of the enclosing brackets. -/
theorem open_brackets_eq_enclosing (program : List Char) (i : Nat) (hi : i ≤ program.length) :
    open_brackets program i = enclosing_brackets program i := by
  have hs1 := open_brackets_sorted program i
  have hs2 : (enclosing_brackets program i).Pairwise (fun a b => a < b) := by
    unfold enclosing_brackets
    exact (List.pairwise_lt_range i).sublist (List.filter_sublist _)
  have hperm : (open_brackets program i).Perm (enclosing_brackets program i) := by
    rw [List.perm_ext_iff_of_nodup (hs1.imp (fun h => Nat.ne_of_lt h))
      (hs2.imp (fun h => Nat.ne_of_lt h))]
    intro p
    rw [mem_open_brackets_iff program i p hi]
    unfold enclosing_brackets
    rw [List.mem_filter, List.mem_range]
    simp only [decide_eq_true_eq]
    exact ⟨fun h => ⟨h.1, h⟩, fun h => h.2⟩
  exact List.eq_of_perm_of_sorted hperm hs1 hs2

/-! ## Theorems: the bracket stack of a validated program -/

/-- The invariant moves with the instruction pointer over a symbol that is not
a bracket, when the stack is left alone. -/
theorem stack_invariant_advance (program : List Char) (s t : bf_state_t)
    (hinv : stack_invariant program s) (hpc : s.program_ptr < s.program_size)
    (h1 : s.program.getD s.program_ptr (Char.ofNat 0) ≠ '[')
    (h2 : s.program.getD s.program_ptr (Char.ofNat 0) ≠ ']')
    (e1 : t.program = s.program) (e2 : t.program_size = s.program_size)
    (e3 : t.stack_size = s.stack_size) (e4 : t.bracket_stack = s.bracket_stack)
    (e5 : t.stack_top = s.stack_top) (e6 : t.program_ptr = s.program_ptr + 1) :
    stack_invariant program t := by
  obtain ⟨i1, i2, i3, i4, i5, i6, i7⟩ := hinv
  rw [i1] at h1 h2
  have hopen := open_brackets_succ_other program s.program_ptr h1 h2
  refine ⟨by rw [e1, i1], by rw [e2, i2], by rw [e3, i3], by rw [e4, i4], by rw [e6]; omega,
    by rw [e5, e6, hopen, i6], by rw [e4, e5, e6, hopen, i7]⟩

/-- The invariant stays when neither the stack nor the instruction pointer
moves. -/
theorem stack_invariant_same (program : List Char) (s t : bf_state_t)
    (hinv : stack_invariant program s)
    (e1 : t.program = s.program) (e2 : t.program_size = s.program_size)
    (e3 : t.stack_size = s.stack_size) (e4 : t.bracket_stack = s.bracket_stack)
    (e5 : t.stack_top = s.stack_top) (e6 : t.program_ptr = s.program_ptr) :
    stack_invariant program t := by
  obtain ⟨i1, i2, i3, i4, i5, i6, i7⟩ := hinv
  exact ⟨by rw [e1, i1], by rw [e2, i2], by rw [e3, i3], by rw [e4, i4], by rw [e6]; omega,
    by rw [e5, e6, i6], by rw [e4, e5, e6, i7]⟩

/-- The top entry of the stack, read as the code reads it. -/
theorem stack_top_entry (program : List Char) (s : bf_state_t)
    (hinv : stack_invariant program s) (htop : s.stack_top ≠ 0) :
    (open_brackets program s.program_ptr)[s.stack_top - 1]? =
      some (s.bracket_stack.getD (s.stack_top - 1) 0) := by
  obtain ⟨-, -, -, i4, -, i6, i7⟩ := hinv
  have hlt : s.stack_top - 1 < s.stack_top := by omega
  have hle : s.stack_top ≤ s.bracket_stack.length := by
    have : (s.bracket_stack.take s.stack_top).length = s.stack_top := by rw [i7, ← i6]
    rw [List.length_take] at this
    omega
  rw [← i7, List.getElem?_take_of_lt hlt, List.getD_eq_getElem?_getD,
    List.getElem?_eq_getElem (by omega)]
  rfl

/-- The pass through the loop body, spelled out from the result of the
dispatch. -/
theorem bf_execute_program_body_ok (s t : bf_state_t)
    (h : bf_execute_instruction s = (BF_OK, t)) :
    bf_execute_program_body s = (none, { t with program_ptr := t.program_ptr + 1 }) := by
  unfold bf_execute_program_body
  rw [h]
  rfl

theorem bf_execute_program_body_error (s t : bf_state_t) (e : bf_error_t) (he : e ≠ BF_OK)
    (h : bf_execute_instruction s = (e, t)) :
    bf_execute_program_body s = (some e, t) := by
  unfold bf_execute_program_body
  rw [h]
  simp only []
  rw [if_pos he]

/-- One pass through the loop body of a validated program keeps the bracket
stack in step with the brackets, and can only fail on the tape. -/
theorem stack_invariant_body (program : List Char) (hb : brackets_balanced program)
    (hn : nesting_within MAX_NESTING program) (s : bf_state_t)
    (hinv : stack_invariant program s) (hpc : s.program_ptr < s.program_size) :
    stack_invariant program (bf_execute_program_body s).2 ∧
      ((bf_execute_program_body s).1 = none ∨
        (bf_execute_program_body s).1 = some BF_ERROR_MEMORY_OVERFLOW ∨
        (bf_execute_program_body s).1 = some BF_ERROR_MEMORY_UNDERFLOW) := by
  have hinv' := hinv
  obtain ⟨i1, i2, i3, i4, i5, i6, i7⟩ := hinv'
  have hp : s.program_ptr < program.length := by omega
  rcases instruction_cases (s.program.getD s.program_ptr (Char.ofNat 0)) with
    h | h | h | h | h | h | h | h | ⟨h1, h2, h3, h4, h5, h6, h7, h8⟩
  · have hstep := bf_execute_instruction_right s hpc h
    by_cases hc : s.data_ptr ≥ (s.memory_size + 2 ^ SIZE_BITS - 1) % 2 ^ SIZE_BITS
    · rw [if_pos hc] at hstep
      rw [bf_execute_program_body_error s _ _ (by decide) hstep]
      exact ⟨stack_invariant_same program s _ hinv (by simp [bf_set_error])
        (by simp [bf_set_error]) (by simp [bf_set_error]) (by simp [bf_set_error])
        (by simp [bf_set_error]) (by simp [bf_set_error]), Or.inr (Or.inl rfl)⟩
    · rw [if_neg hc] at hstep
      rw [bf_execute_program_body_ok s _ hstep]
      exact ⟨stack_invariant_advance program s _ hinv hpc (by rw [h]; decide)
        (by rw [h]; decide) (by simp) (by simp) (by simp) (by simp) (by simp) (by simp),
        Or.inl rfl⟩
  · have hstep := bf_execute_instruction_left s hpc h
    by_cases hc : s.data_ptr = 0
    · rw [if_pos hc] at hstep
      rw [bf_execute_program_body_error s _ _ (by decide) hstep]
      exact ⟨stack_invariant_same program s _ hinv (by simp [bf_set_error])
        (by simp [bf_set_error]) (by simp [bf_set_error]) (by simp [bf_set_error])
        (by simp [bf_set_error]) (by simp [bf_set_error]), Or.inr (Or.inr rfl)⟩
    · rw [if_neg hc] at hstep
      rw [bf_execute_program_body_ok s _ hstep]
      exact ⟨stack_invariant_advance program s _ hinv hpc (by rw [h]; decide)
        (by rw [h]; decide) (by simp) (by simp) (by simp) (by simp) (by simp) (by simp),
        Or.inl rfl⟩
  · rw [bf_execute_program_body_ok s _ (bf_execute_instruction_plus s hpc h)]
    exact ⟨stack_invariant_advance program s _ hinv hpc (by rw [h]; decide)
      (by rw [h]; decide) (by simp) (by simp) (by simp) (by simp) (by simp) (by simp),
      Or.inl rfl⟩
  · rw [bf_execute_program_body_ok s _ (bf_execute_instruction_minus s hpc h)]
    exact ⟨stack_invariant_advance program s _ hinv hpc (by rw [h]; decide)
      (by rw [h]; decide) (by simp) (by simp) (by simp) (by simp) (by simp) (by simp),
      Or.inl rfl⟩
  · rw [bf_execute_program_body_ok s _ (bf_execute_instruction_put s hpc h)]
    exact ⟨stack_invariant_advance program s _ hinv hpc (by rw [h]; decide)
      (by rw [h]; decide) (by simp) (by simp) (by simp) (by simp) (by simp) (by simp),
      Or.inl rfl⟩
  · have hstep := bf_execute_instruction_get s hpc h
    by_cases hc : (fgetc s.input).1 ≠ EOF
    · rw [if_pos hc] at hstep
      rw [bf_execute_program_body_ok s _ hstep]
      exact ⟨stack_invariant_advance program s _ hinv hpc (by rw [h]; decide)
        (by rw [h]; decide) (by simp) (by simp) (by simp) (by simp) (by simp) (by simp),
        Or.inl rfl⟩
    · rw [if_neg hc] at hstep
      rw [bf_execute_program_body_ok s _ hstep]
      exact ⟨stack_invariant_advance program s _ hinv hpc (by rw [h]; decide)
        (by rw [h]; decide) (by simp) (by simp) (by simp) (by simp) (by simp) (by simp),
        Or.inl rfl⟩
  · have hi : program.getD s.program_ptr (Char.ofNat 0) = '[' := by rw [← i1]; exact h
    have hstep := bf_execute_instruction_open s hpc h
    by_cases hz : s.memory.getD s.data_ptr 0 = 0
    · obtain ⟨q, hm⟩ := matching_close_exists program hb s.program_ptr hp hi
      have hscan := (bf_scan_forward_matching program s.program_ptr hp hi).1 q hm
      have hq : q < program.length := hm.2.1
      rw [if_pos hz, i1, i2, hscan, if_neg (by omega)] at hstep
      rw [bf_execute_program_body_ok s _ hstep]
      have hopen := (open_brackets_matching_close program s.program_ptr q hi hm).2.2
      refine ⟨⟨by simp [i1], by simp [i2], by simp [i3], by simp [i4], ?_, ?_, ?_⟩, Or.inl rfl⟩
      · show q + 1 ≤ program.length
        omega
      · show (bf_debug_state s).stack_top = (open_brackets program (q + 1)).length
        rw [hopen, bf_debug_state_stack_top, i6]
      · show (bf_debug_state s).bracket_stack.take (bf_debug_state s).stack_top =
          open_brackets program (q + 1)
        rw [hopen, bf_debug_state_stack_top, bf_debug_state_bracket_stack, i7]
    · have hopen := open_brackets_succ_open program s.program_ptr hi
      have hbound := open_brackets_bound program hb hn (s.program_ptr + 1) (by omega)
      rw [hopen, List.length_append, List.length_singleton, ← i6] at hbound
      have hroom : s.stack_top < s.bracket_stack.length := by
        rw [i4]; exact hbound
      rw [if_neg hz, if_neg (by rw [i3]; exact Nat.not_le.mpr hbound)] at hstep
      rw [bf_execute_program_body_ok s _ hstep]
      refine ⟨⟨by simp [i1], by simp [i2], by simp [i3], by simp [i4], ?_, ?_, ?_⟩, Or.inl rfl⟩
      · show (bf_debug_state s).program_ptr + 1 ≤ program.length
        rw [bf_debug_state_program_ptr]
        omega
      · show s.stack_top + 1 = (open_brackets program ((bf_debug_state s).program_ptr + 1)).length
        rw [bf_debug_state_program_ptr, hopen, List.length_append, List.length_singleton, i6]
      · show (s.bracket_stack.set s.stack_top s.program_ptr).take (s.stack_top + 1) =
          open_brackets program ((bf_debug_state s).program_ptr + 1)
        rw [bf_debug_state_program_ptr, hopen, List.take_succ,
          List.getElem?_set_self hroom, take_set_self, i7]
        rfl
  · have hi : program.getD s.program_ptr (Char.ofNat 0) = ']' := by rw [← i1]; exact h
    have hstep := bf_execute_instruction_close s hpc h
    have htop := open_brackets_at_close program hb s.program_ptr hp hi
    rw [← i6] at htop
    rw [if_neg (by omega)] at hstep
    by_cases hz : s.memory.getD s.data_ptr 0 ≠ 0
    · rw [if_pos hz] at hstep
      rw [bf_execute_program_body_ok s _ hstep]
      have hentry := stack_top_entry program s hinv (by omega)
      obtain ⟨e1, e2, e3, -⟩ := open_brackets_entry program s.program_ptr _ _ hentry
      have hfull : (open_brackets program s.program_ptr).take (s.stack_top - 1 + 1) =
          open_brackets program s.program_ptr := by
        rw [List.take_of_length_le]
        omega
      rw [hfull] at e3
      refine ⟨⟨by simp [i1], by simp [i2], by simp [i3], by simp [i4], ?_, ?_, ?_⟩, Or.inl rfl⟩
      · show s.bracket_stack.getD (s.stack_top - 1) 0 + 1 ≤ program.length
        omega
      · show (bf_debug_state s).stack_top =
          (open_brackets program (s.bracket_stack.getD (s.stack_top - 1) 0 + 1)).length
        rw [e3, bf_debug_state_stack_top, i6]
      · show (bf_debug_state s).bracket_stack.take (bf_debug_state s).stack_top =
          open_brackets program (s.bracket_stack.getD (s.stack_top - 1) 0 + 1)
        rw [e3, bf_debug_state_stack_top, bf_debug_state_bracket_stack, i7]
    · rw [if_neg hz] at hstep
      rw [bf_execute_program_body_ok s _ hstep]
      have hopen := open_brackets_succ_close program s.program_ptr hi
      refine ⟨⟨by simp [i1], by simp [i2], by simp [i3], by simp [i4], ?_, ?_, ?_⟩, Or.inl rfl⟩
      · show (bf_debug_state s).program_ptr + 1 ≤ program.length
        rw [bf_debug_state_program_ptr]
        omega
      · show s.stack_top - 1 = (open_brackets program ((bf_debug_state s).program_ptr + 1)).length
        rw [bf_debug_state_program_ptr, hopen, List.length_take, ← i6]
        omega
      · show (bf_debug_state s).bracket_stack.take (s.stack_top - 1) =
          open_brackets program ((bf_debug_state s).program_ptr + 1)
        rw [bf_debug_state_program_ptr, bf_debug_state_bracket_stack, hopen, ← i6, ← i7,
          List.take_take, Nat.min_eq_left (by omega)]
  · rw [bf_execute_program_body_ok s _
      (bf_execute_instruction_other s hpc h1 h2 h3 h4 h5 h6 h7 h8)]
    exact ⟨stack_invariant_advance program s _ hinv hpc h7 h8 (by simp) (by simp) (by simp)
      (by simp) (by simp) (by simp), Or.inl rfl⟩


/-- What one pass through the loop body does to the bracket stack: nothing, or
a push of the instruction pointer on a `[` with a nonzero cell, or a pop on a
`]` with a zero cell, the entry popped being the `[` that this `]` closes. -/
theorem stack_change_body (program : List Char) (s : bf_state_t)
    (hinv : stack_invariant program s) (hpc : s.program_ptr < s.program_size) :
    (bf_execute_program_body s).2.stack_top = s.stack_top ∨
    ((bf_execute_program_body s).2.stack_top = s.stack_top + 1 ∧
      s.program.getD s.program_ptr (Char.ofNat 0) = '[' ∧
      s.memory.getD s.data_ptr 0 ≠ 0 ∧
      (bf_execute_program_body s).2.bracket_stack.getD s.stack_top 0 = s.program_ptr) ∨
    ((bf_execute_program_body s).2.stack_top + 1 = s.stack_top ∧
      s.program.getD s.program_ptr (Char.ofNat 0) = ']' ∧
      s.memory.getD s.data_ptr 0 = 0 ∧
      matching_close program (s.bracket_stack.getD (s.stack_top - 1) 0) s.program_ptr) := by
  have hinv' := hinv
  obtain ⟨i1, i2, i3, i4, i5, i6, i7⟩ := hinv'
  have hp : s.program_ptr < program.length := by omega
  rcases instruction_cases (s.program.getD s.program_ptr (Char.ofNat 0)) with
    h | h | h | h | h | h | h | h | ⟨h1, h2, h3, h4, h5, h6, h7, h8⟩
  · have hstep := bf_execute_instruction_right s hpc h
    by_cases hc : s.data_ptr ≥ (s.memory_size + 2 ^ SIZE_BITS - 1) % 2 ^ SIZE_BITS
    · rw [if_pos hc] at hstep
      rw [bf_execute_program_body_error s _ _ (by decide) hstep]
      exact Or.inl (by simp [bf_set_error])
    · rw [if_neg hc] at hstep
      rw [bf_execute_program_body_ok s _ hstep]
      exact Or.inl (by simp)
  · have hstep := bf_execute_instruction_left s hpc h
    by_cases hc : s.data_ptr = 0
    · rw [if_pos hc] at hstep
      rw [bf_execute_program_body_error s _ _ (by decide) hstep]
      exact Or.inl (by simp [bf_set_error])
    · rw [if_neg hc] at hstep
      rw [bf_execute_program_body_ok s _ hstep]
      exact Or.inl (by simp)
  · rw [bf_execute_program_body_ok s _ (bf_execute_instruction_plus s hpc h)]
    exact Or.inl (by simp)
  · rw [bf_execute_program_body_ok s _ (bf_execute_instruction_minus s hpc h)]
    exact Or.inl (by simp)
  · rw [bf_execute_program_body_ok s _ (bf_execute_instruction_put s hpc h)]
    exact Or.inl (by simp)
  · have hstep := bf_execute_instruction_get s hpc h
    by_cases hc : (fgetc s.input).1 ≠ EOF
    · rw [if_pos hc] at hstep
      rw [bf_execute_program_body_ok s _ hstep]
      exact Or.inl (by simp)
    · rw [if_neg hc] at hstep
      rw [bf_execute_program_body_ok s _ hstep]
      exact Or.inl (by simp)
  · have hstep := bf_execute_instruction_open s hpc h
    by_cases hz : s.memory.getD s.data_ptr 0 = 0
    · rw [if_pos hz] at hstep
      by_cases hc : (bf_scan_forward s.program s.program_size (s.program_size - s.program_ptr)
          s.program_ptr 1).1 ≥ s.program_size
      · rw [if_pos hc] at hstep
        rw [bf_execute_program_body_error s _ _ (by decide) hstep]
        exact Or.inl (by simp [bf_set_error])
      · rw [if_neg hc] at hstep
        rw [bf_execute_program_body_ok s _ hstep]
        exact Or.inl (by simp)
    · rw [if_neg hz] at hstep
      by_cases hc : s.stack_top ≥ s.stack_size
      · rw [if_pos hc] at hstep
        rw [bf_execute_program_body_error s _ _ (by decide) hstep]
        exact Or.inl (by simp [bf_set_error])
      · rw [if_neg hc] at hstep
        rw [bf_execute_program_body_ok s _ hstep]
        refine Or.inr (Or.inl ⟨by simp, h, hz, ?_⟩)
        show (s.bracket_stack.set s.stack_top s.program_ptr).getD s.stack_top 0 = s.program_ptr
        rw [List.getD_eq_getElem?_getD, List.getElem?_set_self (by omega)]
        rfl
  · have hi : program.getD s.program_ptr (Char.ofNat 0) = ']' := by rw [← i1]; exact h
    have hstep := bf_execute_instruction_close s hpc h
    by_cases htop : s.stack_top = 0
    · rw [if_pos htop] at hstep
      rw [bf_execute_program_body_error s _ _ (by decide) hstep]
      exact Or.inl (by simp [bf_set_error])
    · rw [if_neg htop] at hstep
      by_cases hz : s.memory.getD s.data_ptr 0 ≠ 0
      · rw [if_pos hz] at hstep
        rw [bf_execute_program_body_ok s _ hstep]
        exact Or.inl (by simp)
      · rw [if_neg hz] at hstep
        rw [bf_execute_program_body_ok s _ hstep]
        have hentry := stack_top_entry program s hinv htop
        refine Or.inr (Or.inr ⟨?_, h, by simpa using hz, ?_⟩)
        · show s.stack_top - 1 + 1 = s.stack_top
          omega
        · exact matching_close_of_top program s.program_ptr _ hp hi (by rw [← i6]; exact hentry)
  · rw [bf_execute_program_body_ok s _
      (bf_execute_instruction_other s hpc h1 h2 h3 h4 h5 h6 h7 h8)]
    exact Or.inl (by simp)


/-- The freshly loaded state satisfies the invariant. -/
theorem stack_invariant_loaded (debug_mode : Bool) (stdin : List Nat) (program : List Char) :
    stack_invariant program (bf_loaded_state debug_mode stdin program) :=
  ⟨rfl, rfl, rfl, List.length_replicate _ _, Nat.zero_le _, rfl, rfl⟩

theorem stack_invariant_iterate (program : List Char) (hb : brackets_balanced program)
    (hn : nesting_within MAX_NESTING program) (n : Nat) :
    ∀ s, stack_invariant program s →
      stack_invariant program (bf_execute_program_iterate n s) := by
  induction n with
  | zero => intro s h; exact h
  | succ n ih =>
    intro s hinv
    unfold bf_execute_program_iterate
    split_ifs with hpc
    · have hbody := (stack_invariant_body program hb hn s hinv hpc).1
      rcases hres : bf_execute_program_body s with ⟨r, t⟩
      rw [hres] at hbody
      cases r with
      | some e => exact hbody
      | none => exact ih t hbody
    · exact hinv

/-- Where the run of a validated program ends: with `BF_OK` or a tape error,
the invariant still in force. -/
theorem stack_invariant_run (program : List Char) (hb : brackets_balanced program)
    (hn : nesting_within MAX_NESTING program) (fuel : Nat) :
    ∀ s r t, stack_invariant program s → bf_execute_program fuel s = some (r, t) →
      stack_invariant program t ∧
        ((r = BF_OK ∧ t.program_size ≤ t.program_ptr) ∨ r = BF_ERROR_MEMORY_OVERFLOW ∨
          r = BF_ERROR_MEMORY_UNDERFLOW) := by
  induction fuel with
  | zero =>
    intro s r t hinv hrun
    unfold bf_execute_program at hrun
    split_ifs at hrun with hpc
    simp only [Option.some.injEq, Prod.mk.injEq] at hrun
    rw [← hrun.1, ← hrun.2]
    exact ⟨hinv, Or.inl ⟨rfl, Nat.not_lt.mp hpc⟩⟩
  | succ n ih =>
    intro s r t hinv hrun
    unfold bf_execute_program at hrun
    split_ifs at hrun with hpc
    · have hbody := stack_invariant_body program hb hn s hinv hpc
      rcases hres : bf_execute_program_body s with ⟨r1, t1⟩
      rw [hres] at hbody hrun
      cases r1 with
      | some e =>
        simp only [Option.some.injEq, Prod.mk.injEq] at hrun
        rw [← hrun.1, ← hrun.2]
        refine ⟨hbody.1, ?_⟩
        rcases hbody.2 with h | h | h
        · cases h
        · simp only [Option.some.injEq] at h
          exact Or.inr (Or.inl h)
        · simp only [Option.some.injEq] at h
          exact Or.inr (Or.inr h)
      | none => exact ih t1 r t hbody.1 hrun
    · simp only [Option.some.injEq, Prod.mk.injEq] at hrun
      rw [← hrun.1, ← hrun.2]
      exact ⟨hinv, Or.inl ⟨rfl, Nat.not_lt.mp hpc⟩⟩

/-- C18. Runtime bracket errors are unreachable after validation. For a
program that `bf_validate_program` accepts, with `STACK_SIZE` and
`MAX_NESTING` both 1000, the run of `bf_execute_program` from the freshly
created state (whatever the debug flag, the input and the fuel) never ends
with `BF_ERROR_STACK_OVERFLOW` nor with `BF_ERROR_UNMATCHED_BRACKET`: if it
ends, it ends with `BF_OK`, `BF_ERROR_MEMORY_OVERFLOW` or
`BF_ERROR_MEMORY_UNDERFLOW`. -/
theorem runtime_bracket_errors_unreachable (program : List Char)
    (hv : bf_validate_program program program.length = BF_OK)
    (debug_mode : Bool) (stdin : List Nat) (fuel : Nat) :
    ((bf_execute_program fuel (bf_loaded_state debug_mode stdin program)).map Prod.fst = none ∨
      (bf_execute_program fuel (bf_loaded_state debug_mode stdin program)).map Prod.fst =
        some BF_OK ∨
      (bf_execute_program fuel (bf_loaded_state debug_mode stdin program)).map Prod.fst =
        some BF_ERROR_MEMORY_OVERFLOW ∨
      (bf_execute_program fuel (bf_loaded_state debug_mode stdin program)).map Prod.fst =
        some BF_ERROR_MEMORY_UNDERFLOW) ∧
    (bf_execute_program fuel (bf_loaded_state debug_mode stdin program)).map Prod.fst ≠
      some BF_ERROR_STACK_OVERFLOW ∧
    (bf_execute_program fuel (bf_loaded_state debug_mode stdin program)).map Prod.fst ≠
      some BF_ERROR_UNMATCHED_BRACKET ∧
    STACK_SIZE = 1000 ∧ MAX_NESTING = 1000 := by
  unfold bf_validate_program at hv
  rw [List.take_length] at hv
  obtain ⟨hb, hn⟩ := (bf_validate_loop_accepts program).mp hv
  have hrun := stack_invariant_run program hb hn fuel
    (bf_loaded_state debug_mode stdin program)
  rcases hres : bf_execute_program fuel (bf_loaded_state debug_mode stdin program) with
    _ | ⟨r, t⟩
  · simp [STACK_SIZE, MAX_NESTING]
  · rcases (hrun r t (stack_invariant_loaded _ _ _) hres).2 with h | h | h
    · rw [h.1]; simp [STACK_SIZE, MAX_NESTING]
    · rw [h]; simp [STACK_SIZE, MAX_NESTING]
    · rw [h]; simp [STACK_SIZE, MAX_NESTING]

/-- C18, witness: the validated program `+[-]<`, whose run ends on the tape
edge, with fuel for twenty passes. -/
theorem runtime_bracket_errors_unreachable_witness :
    (bf_execute_program 20 (bf_loaded_state false [] "+[-]<".toList)).map Prod.fst ≠
        some BF_ERROR_STACK_OVERFLOW ∧
    (bf_execute_program 20 (bf_loaded_state false [] "+[-]<".toList)).map Prod.fst ≠
        some BF_ERROR_UNMATCHED_BRACKET :=
  ⟨(runtime_bracket_errors_unreachable "+[-]<".toList (by decide) false [] 20).2.1,
   (runtime_bracket_errors_unreachable "+[-]<".toList (by decide) false [] 20).2.2.1⟩


/-- C16. Bracket-stack invariant. For a program that `bf_validate_program`
accepts, run from the freshly created state, in the state reached after any
number of passes through the loop of `bf_execute_program`: the entries of the
bracket stack below `stack_top` are exactly the positions of the `[` that
lexically enclose the instruction pointer, outermost first; `stack_top` is
the lexical nesting depth there, the count of `[` minus the count of `]`
before it; and the next pass, if there is one, leaves `stack_top` as it is,
or pushes the instruction pointer while on a `[` with a nonzero cell, or pops
the top entry while on a `]` with a zero cell, that entry being the `[` this
`]` matches. And when the run ends with `BF_OK` the stack is empty. -/
theorem bracket_stack_invariant (program : List Char)
    (hv : bf_validate_program program program.length = BF_OK)
    (debug_mode : Bool) (stdin : List Nat) :
    (∀ n s, bf_execute_program_iterate n (bf_loaded_state debug_mode stdin program) = s →
      s.bracket_stack.take s.stack_top = enclosing_brackets program s.program_ptr ∧
      s.stack_top + (program.take s.program_ptr).count ']' =
        (program.take s.program_ptr).count '[' ∧
      (s.program_ptr < s.program_size →
        (bf_execute_program_body s).2.stack_top = s.stack_top ∨
        ((bf_execute_program_body s).2.stack_top = s.stack_top + 1 ∧
          s.program.getD s.program_ptr (Char.ofNat 0) = '[' ∧
          s.memory.getD s.data_ptr 0 ≠ 0 ∧
          (bf_execute_program_body s).2.bracket_stack.getD s.stack_top 0 = s.program_ptr) ∨
        ((bf_execute_program_body s).2.stack_top + 1 = s.stack_top ∧
          s.program.getD s.program_ptr (Char.ofNat 0) = ']' ∧
          s.memory.getD s.data_ptr 0 = 0 ∧
          matching_close program (s.bracket_stack.getD (s.stack_top - 1) 0) s.program_ptr))) ∧
    (∀ fuel t, bf_execute_program fuel (bf_loaded_state debug_mode stdin program) =
        some (BF_OK, t) → t.stack_top = 0) := by
  unfold bf_validate_program at hv
  rw [List.take_length] at hv
  obtain ⟨hb, hn⟩ := (bf_validate_loop_accepts program).mp hv
  constructor
  · intro n s hs
    have hinv := stack_invariant_iterate program hb hn n _ (stack_invariant_loaded debug_mode
      stdin program)
    rw [hs] at hinv
    have hinv' := hinv
    obtain ⟨-, -, -, -, i5, i6, i7⟩ := hinv'
    refine ⟨?_, ?_, fun hpc => stack_change_body program s hinv hpc⟩
    · rw [i7, open_brackets_eq_enclosing program s.program_ptr i5]
    · rw [i6]
      exact open_brackets_length program s.program_ptr i5 (fun k hk => hb.1 k (by omega))
  · intro fuel t hrun
    obtain ⟨hinv, hend⟩ := stack_invariant_run program hb hn fuel _ _ t
      (stack_invariant_loaded debug_mode stdin program) hrun
    obtain ⟨-, i2, -, -, i5, i6, -⟩ := hinv
    rcases hend with h | h | h
    · have hpc : t.program_ptr = program.length := by
        have := h.2
        omega
      rw [i6, hpc, open_brackets_end program hb]
      rfl
    · cases h
    · cases h

/-- C16, witness: in the run of `+[[-]]`, after three passes the instruction
pointer is on the `-`, inside both loops, and the stack holds the positions 1
and 2 of the two `[`. -/
theorem bracket_stack_invariant_witness :
    (bf_execute_program_iterate 3 (bf_loaded_state false [] "+[[-]]".toList)).bracket_stack.take
        (bf_execute_program_iterate 3 (bf_loaded_state false [] "+[[-]]".toList)).stack_top =
      enclosing_brackets "+[[-]]".toList
        (bf_execute_program_iterate 3 (bf_loaded_state false [] "+[[-]]".toList)).program_ptr ∧
    enclosing_brackets "+[[-]]".toList 3 = [1, 2] ∧
    (bf_execute_program_iterate 3 (bf_loaded_state false [] "+[[-]]".toList)).program_ptr = 3 :=
  ⟨((bracket_stack_invariant "+[[-]]".toList (by decide) false []).1 3 _ rfl).1,
   by decide, by decide⟩

/-! ## Theorems: the engine refines the reference interpreter -/

theorem matching_close_unique (program : List Char) (p q q' : Nat)
    (h : matching_close program p q) (h' : matching_close program p q') : q = q' := by
  rcases Nat.lt_trichotomy q q' with hlt | heq | hgt
  · exact absurd h.2.2.1 (h'.2.2.2 q hlt h.1)
  · exact heq
  · exact absurd h'.2.2.1 (h.2.2.2 q' hgt h'.1)

theorem partner_of_open_eq (program : List Char) (p q : Nat)
    (hm : matching_close program p q) : partner_of_open program p = some q := by
  unfold partner_of_open
  have hsome : ((List.range program.length).find?
      (fun q => decide (matching_close program p q))).isSome := by
    rw [List.find?_isSome]
    exact ⟨q, List.mem_range.mpr hm.2.1, decide_eq_true hm⟩
  obtain ⟨x, hx⟩ := Option.isSome_iff_exists.mp hsome
  have hpx := List.find?_some hx
  simp only [decide_eq_true_eq] at hpx
  rw [hx, matching_close_unique program p x q hpx hm]

theorem partner_of_close_eq (program : List Char) (q p : Nat) (hq : q < program.length)
    (hi : program.getD q (Char.ofNat 0) = ']')
    (h : (open_brackets program q)[(open_brackets program q).length - 1]? = some p) :
    partner_of_close program q = some p := by
  have hm := matching_close_of_top program q p hq hi h
  obtain ⟨h1, h2, -⟩ := open_brackets_entry program q _ p h
  unfold partner_of_close
  have hsome : ((List.range q).find? (fun p =>
      decide (program.getD p (Char.ofNat 0) = '[' ∧ matching_close program p q))).isSome := by
    rw [List.find?_isSome]
    exact ⟨p, List.mem_range.mpr h1, decide_eq_true ⟨h2, hm⟩⟩
  obtain ⟨x, hx⟩ := Option.isSome_iff_exists.mp hsome
  have hpx := List.find?_some hx
  simp only [decide_eq_true_eq] at hpx
  have e1 := (open_brackets_matching_close program x q hpx.1 hpx.2).2.1
  have e2 := (open_brackets_matching_close program p q h2 hm).2.1
  rw [e1] at e2
  have := (List.append_inj' e2 rfl).2
  simp only [List.cons.injEq, and_true] at this
  rw [hx, this]

theorem bracket_partner_table_getD (program : List Char) (i : Nat) (h : i < program.length) :
    (bracket_partner_table program).getD i none =
      if program.getD i (Char.ofNat 0) = '[' then partner_of_open program i
      else if program.getD i (Char.ofNat 0) = ']' then partner_of_close program i
      else none := by
  unfold bracket_partner_table
  rw [List.getD_eq_getElem?_getD, List.getElem?_map, List.getElem?_range h]
  rfl

/-- One pass through the loop body of the engine is one step of the reference
interpreter. -/
theorem ref_step_simulates (program : List Char) (hb : brackets_balanced program)
    (hn : nesting_within MAX_NESTING program) (s : bf_state_t) (hinv : stack_invariant program s)
    (hlen : s.memory.length = s.memory_size) (hpos : 1 ≤ s.memory_size)
    (hfit : s.memory_size < 2 ^ SIZE_BITS) (hpc : s.program_ptr < s.program_size) :
    ref_step program (bracket_partner_table program) (ref_of_state s) =
      ((bf_execute_program_body s).1, ref_of_state (bf_execute_program_body s).2) := by
  have hinv' := hinv
  obtain ⟨i1, i2, i3, i4, i5, i6, i7⟩ := hinv'
  have hp : s.program_ptr < program.length := by omega
  have hpc' : (ref_of_state s).pc = s.program_ptr := rfl
  rcases instruction_cases (s.program.getD s.program_ptr (Char.ofNat 0)) with
    h | h | h | h | h | h | h | h | ⟨h1, h2, h3, h4, h5, h6, h7, h8⟩
  · have hi : program.getD s.program_ptr (Char.ofNat 0) = '>' := by rw [← i1]; exact h
    have hstep := bf_execute_instruction_right s hpc h
    rw [memory_size_pred _ hpos hfit] at hstep
    unfold ref_step
    simp only [hpc', hi, Char.reduceEq, if_true, if_false]
    by_cases hc : s.data_ptr ≥ s.memory_size - 1
    · rw [if_pos hc] at hstep
      rw [bf_execute_program_body_error s _ _ (by decide) hstep]
      rw [if_pos (show (ref_of_state s).data_ptr + 1 ≥ (ref_of_state s).memory.length from by
        show s.data_ptr + 1 ≥ s.memory.length
        omega)]
      simp [ref_of_state, bf_set_error]
    · rw [if_neg hc] at hstep
      rw [bf_execute_program_body_ok s _ hstep]
      rw [if_neg (show ¬ ((ref_of_state s).data_ptr + 1 ≥ (ref_of_state s).memory.length) from by
        show ¬ (s.data_ptr + 1 ≥ s.memory.length)
        omega)]
      simp [ref_of_state]
  · have hi : program.getD s.program_ptr (Char.ofNat 0) = '<' := by rw [← i1]; exact h
    have hstep := bf_execute_instruction_left s hpc h
    unfold ref_step
    simp only [hpc', hi, Char.reduceEq, if_true, if_false]
    by_cases hc : s.data_ptr = 0
    · rw [if_pos hc] at hstep
      rw [bf_execute_program_body_error s _ _ (by decide) hstep]
      rw [if_pos (show (ref_of_state s).data_ptr = 0 from hc)]
      simp [ref_of_state, bf_set_error]
    · rw [if_neg hc] at hstep
      rw [bf_execute_program_body_ok s _ hstep]
      rw [if_neg (show ¬ ((ref_of_state s).data_ptr = 0) from hc)]
      simp [ref_of_state]
  · have hi : program.getD s.program_ptr (Char.ofNat 0) = '+' := by rw [← i1]; exact h
    rw [bf_execute_program_body_ok s _ (bf_execute_instruction_plus s hpc h)]
    unfold ref_step
    simp only [hpc', hi, Char.reduceEq, if_true, if_false]
    simp [ref_of_state]
  · have hi : program.getD s.program_ptr (Char.ofNat 0) = '-' := by rw [← i1]; exact h
    rw [bf_execute_program_body_ok s _ (bf_execute_instruction_minus s hpc h)]
    unfold ref_step
    simp only [hpc', hi, Char.reduceEq, if_true, if_false]
    simp [ref_of_state]
  · have hi : program.getD s.program_ptr (Char.ofNat 0) = '.' := by rw [← i1]; exact h
    rw [bf_execute_program_body_ok s _ (bf_execute_instruction_put s hpc h)]
    unfold ref_step
    simp only [hpc', hi, Char.reduceEq, if_true, if_false]
    simp [ref_of_state]
  · have hi : program.getD s.program_ptr (Char.ofNat 0) = ',' := by rw [← i1]; exact h
    have hstep := bf_execute_instruction_get s hpc h
    unfold ref_step
    simp only [hpc', hi, Char.reduceEq, if_true, if_false]
    rcases hin : s.input with _ | ⟨b, rest⟩
    · have hin' : (ref_of_state s).input = [] := hin
      rw [hin] at hstep
      rw [if_neg (show ¬ ((fgetc []).1 ≠ EOF) from fun hne => hne rfl)] at hstep
      rw [bf_execute_program_body_ok s _ hstep, hin']
      simp [ref_of_state, fgetc]
    · have hin' : (ref_of_state s).input = b :: rest := hin
      rw [hin] at hstep
      rw [if_pos (show (fgetc (b :: rest)).1 ≠ EOF from by
        show (b : Int) ≠ EOF
        unfold EOF
        omega)] at hstep
      rw [bf_execute_program_body_ok s _ hstep, hin']
      have hb256 : ((b : Int) % 256).toNat = b % 256 := by omega
      simp [ref_of_state, fgetc, hb256]
  · have hi : program.getD s.program_ptr (Char.ofNat 0) = '[' := by rw [← i1]; exact h
    have hstep := bf_execute_instruction_open s hpc h
    unfold ref_step
    simp only [hpc', hi, Char.reduceEq, if_true, if_false]
    by_cases hz : s.memory.getD s.data_ptr 0 = 0
    · obtain ⟨q, hm⟩ := matching_close_exists program hb s.program_ptr hp hi
      have hscan := (bf_scan_forward_matching program s.program_ptr hp hi).1 q hm
      have hq : q < program.length := hm.2.1
      rw [if_pos hz, i1, i2, hscan, if_neg (by omega)] at hstep
      rw [bf_execute_program_body_ok s _ hstep]
      rw [if_pos (show (ref_of_state s).memory.getD (ref_of_state s).data_ptr 0 = 0 from hz),
        bracket_partner_table_getD program s.program_ptr hp, if_pos hi,
        partner_of_open_eq program s.program_ptr q hm]
      simp [ref_of_state]
    · have hopen := open_brackets_succ_open program s.program_ptr hi
      have hbound := open_brackets_bound program hb hn (s.program_ptr + 1) (by omega)
      rw [hopen, List.length_append, List.length_singleton, ← i6] at hbound
      rw [if_neg hz, if_neg (by rw [i3]; exact Nat.not_le.mpr hbound)] at hstep
      rw [bf_execute_program_body_ok s _ hstep]
      rw [if_neg (show ¬ ((ref_of_state s).memory.getD (ref_of_state s).data_ptr 0 = 0) from hz)]
      simp [ref_of_state]
  · have hi : program.getD s.program_ptr (Char.ofNat 0) = ']' := by rw [← i1]; exact h
    have hstep := bf_execute_instruction_close s hpc h
    have htop := open_brackets_at_close program hb s.program_ptr hp hi
    rw [← i6] at htop
    rw [if_neg (by omega)] at hstep
    unfold ref_step
    simp only [hpc', hi, Char.reduceEq, if_true, if_false]
    by_cases hz : s.memory.getD s.data_ptr 0 ≠ 0
    · rw [if_pos hz] at hstep
      rw [bf_execute_program_body_ok s _ hstep]
      have hentry := stack_top_entry program s hinv (by omega)
      rw [if_pos (show (ref_of_state s).memory.getD (ref_of_state s).data_ptr 0 ≠ 0 from hz),
        bracket_partner_table_getD program s.program_ptr hp, if_neg (by rw [hi]; decide),
        if_pos hi, partner_of_close_eq program s.program_ptr _ hp hi (by rw [← i6]; exact hentry)]
      simp [ref_of_state]
    · rw [if_neg hz] at hstep
      rw [bf_execute_program_body_ok s _ hstep]
      rw [if_neg (show ¬ ((ref_of_state s).memory.getD (ref_of_state s).data_ptr 0 ≠ 0) from hz)]
      simp [ref_of_state]
  · have g1 : program.getD s.program_ptr (Char.ofNat 0) ≠ '>' := by rw [← i1]; exact h1
    have g2 : program.getD s.program_ptr (Char.ofNat 0) ≠ '<' := by rw [← i1]; exact h2
    have g3 : program.getD s.program_ptr (Char.ofNat 0) ≠ '+' := by rw [← i1]; exact h3
    have g4 : program.getD s.program_ptr (Char.ofNat 0) ≠ '-' := by rw [← i1]; exact h4
    have g5 : program.getD s.program_ptr (Char.ofNat 0) ≠ '.' := by rw [← i1]; exact h5
    have g6 : program.getD s.program_ptr (Char.ofNat 0) ≠ ',' := by rw [← i1]; exact h6
    have g7 : program.getD s.program_ptr (Char.ofNat 0) ≠ '[' := by rw [← i1]; exact h7
    have g8 : program.getD s.program_ptr (Char.ofNat 0) ≠ ']' := by rw [← i1]; exact h8
    rw [bf_execute_program_body_ok s _
      (bf_execute_instruction_other s hpc h1 h2 h3 h4 h5 h6 h7 h8)]
    unfold ref_step
    simp only [hpc', g1, g2, g3, g4, g5, g6, g7, g8, if_false]
    simp [ref_of_state]

/-- The run of the engine on a validated program is, pass for step, the run of
the reference interpreter. -/
theorem ref_run_simulates (program : List Char) (hb : brackets_balanced program)
    (hn : nesting_within MAX_NESTING program) (fuel : Nat) :
    ∀ s, stack_invariant program s → s.memory.length = s.memory_size → 1 ≤ s.memory_size →
      s.memory_size < 2 ^ SIZE_BITS → s.data_ptr < s.memory_size →
      ref_run program (bracket_partner_table program) fuel (ref_of_state s) =
        (bf_execute_program fuel s).map (fun r => (r.1, ref_of_state r.2)) := by
  induction fuel with
  | zero =>
    intro s hinv _ _ _ _
    unfold ref_run bf_execute_program
    have e : (ref_of_state s).pc = s.program_ptr := rfl
    rw [e, ← hinv.2.1]
    split_ifs <;> rfl
  | succ n ih =>
    intro s hinv hlen hpos hfit hdp
    unfold ref_run bf_execute_program
    have e : (ref_of_state s).pc = s.program_ptr := rfl
    rw [e, ← hinv.2.1]
    split_ifs with hpc
    · have hsim := ref_step_simulates program hb hn s hinv hlen hpos hfit hpc
      have hstack := (stack_invariant_body program hb hn s hinv hpc).1
      have htape := bf_execute_program_body_tape s hlen hpos hfit hdp
      rw [hsim]
      rcases hres : bf_execute_program_body s with ⟨r, t⟩
      rw [hres] at hstack htape
      cases r with
      | some e => rfl
      | none =>
        exact ih t hstack (by rw [htape.2.2, htape.2.1]) (by rw [htape.2.1]; exact hpos)
          (by rw [htape.2.1]; exact hfit) (by rw [htape.2.1]; exact htape.1)
    · rfl

theorem ref_iterate_simulates (program : List Char) (hb : brackets_balanced program)
    (hn : nesting_within MAX_NESTING program) (n : Nat) :
    ∀ s, stack_invariant program s → s.memory.length = s.memory_size → 1 ≤ s.memory_size →
      s.memory_size < 2 ^ SIZE_BITS → s.data_ptr < s.memory_size →
      ref_iterate program (bracket_partner_table program) n (ref_of_state s) =
        ref_of_state (bf_execute_program_iterate n s) := by
  induction n with
  | zero => intro s _ _ _ _ _; rfl
  | succ n ih =>
    intro s hinv hlen hpos hfit hdp
    unfold ref_iterate bf_execute_program_iterate
    have e : (ref_of_state s).pc = s.program_ptr := rfl
    rw [e, ← hinv.2.1]
    split_ifs with hpc
    · have hsim := ref_step_simulates program hb hn s hinv hlen hpos hfit hpc
      have hstack := (stack_invariant_body program hb hn s hinv hpc).1
      have htape := bf_execute_program_body_tape s hlen hpos hfit hdp
      rw [hsim]
      rcases hres : bf_execute_program_body s with ⟨r, t⟩
      rw [hres] at hstack htape
      cases r with
      | some e => rfl
      | none =>
        exact ih t hstack (by rw [htape.2.2, htape.2.1]) (by rw [htape.2.1]; exact hpos)
          (by rw [htape.2.1]; exact hfit) (by rw [htape.2.1]; exact htape.1)
    · rfl

/-- C19. The stack-based engine refines standard Brainfuck semantics. For a
program that `bf_validate_program` accepts, run from the freshly created
state (whatever the debug flag and the input), and the reference interpreter
with the precomputed bracket-partner table, run from its initial state on the
same input: after any number of steps the two are at the same instruction
with the same tape, data pointer, input left and output written; and with
any number of steps allowed, either neither has stopped or both have, with
the same status and in such corresponding states. -/
theorem engine_refines_reference (program : List Char)
    (hv : bf_validate_program program program.length = BF_OK)
    (debug_mode : Bool) (stdin : List Nat) :
    (∀ n, ref_of_state (bf_execute_program_iterate n (bf_loaded_state debug_mode stdin program)) =
      ref_iterate program (bracket_partner_table program) n (ref_initial stdin)) ∧
    (∀ fuel, (bf_execute_program fuel (bf_loaded_state debug_mode stdin program)).map
        (fun r => (r.1, ref_of_state r.2)) =
      ref_run program (bracket_partner_table program) fuel (ref_initial stdin)) := by
  unfold bf_validate_program at hv
  rw [List.take_length] at hv
  obtain ⟨hb, hn⟩ := (bf_validate_loop_accepts program).mp hv
  have hinit : ref_of_state (bf_loaded_state debug_mode stdin program) = ref_initial stdin := rfl
  have hinv := stack_invariant_loaded debug_mode stdin program
  have hlen : (bf_loaded_state debug_mode stdin program).memory.length =
      (bf_loaded_state debug_mode stdin program).memory_size := List.length_replicate _ _
  constructor
  · intro n
    rw [← hinit]
    exact (ref_iterate_simulates program hb hn n _ hinv hlen
      (show 1 ≤ MEMORY_SIZE from by decide) (show MEMORY_SIZE < 2 ^ SIZE_BITS from by decide)
      (show 0 < MEMORY_SIZE from by decide)).symm
  · intro fuel
    rw [← hinit]
    exact (ref_run_simulates program hb hn fuel _ hinv hlen
      (show 1 ≤ MEMORY_SIZE from by decide) (show MEMORY_SIZE < 2 ^ SIZE_BITS from by decide)
      (show 0 < MEMORY_SIZE from by decide)).symm

/-- C19, witness: the validated program `,[.-]` on the input byte 2, with
twenty steps allowed; both runs end with `BF_OK` having written 2, 1. -/
theorem engine_refines_reference_witness :
    (bf_execute_program 20 (bf_loaded_state false [2] ",[.-]".toList)).map
        (fun r => (r.1, ref_of_state r.2)) =
      ref_run ",[.-]".toList (bracket_partner_table ",[.-]".toList) 20 (ref_initial [2]) ∧
    (ref_run ",[.-]".toList (bracket_partner_table ",[.-]".toList) 20 (ref_initial [2])).map
        (fun r => (r.1, r.2.output)) = some (BF_OK, [2, 1]) :=
  ⟨(engine_refines_reference ",[.-]".toList (by decide) false [2]).2 20, by decide!⟩

/-! ## Theorems: the failure position, as the code has it -/

/-- When a pass through the loop body reports an error, the instruction
pointer is where the dispatch began, unless the error is the unmatched
bracket of a `[`. -/
theorem bf_execute_program_body_failure (s : bf_state_t)
    (hpc : s.program_ptr < s.program_size) (e : bf_error_t) (t : bf_state_t)
    (hbody : bf_execute_program_body s = (some e, t)) :
    t.program_ptr = s.program_ptr ∨
      (e = BF_ERROR_UNMATCHED_BRACKET ∧ s.program.getD s.program_ptr (Char.ofNat 0) = '[') := by
  rcases instruction_cases (s.program.getD s.program_ptr (Char.ofNat 0)) with
    h | h | h | h | h | h | h | h | ⟨h1, h2, h3, h4, h5, h6, h7, h8⟩
  · have hstep := bf_execute_instruction_right s hpc h
    by_cases hc : s.data_ptr ≥ (s.memory_size + 2 ^ SIZE_BITS - 1) % 2 ^ SIZE_BITS
    · rw [if_pos hc] at hstep
      rw [bf_execute_program_body_error s _ _ (by decide) hstep] at hbody
      simp only [Prod.mk.injEq] at hbody
      rw [← hbody.2]
      exact Or.inl (by simp [bf_set_error])
    · rw [if_neg hc] at hstep
      rw [bf_execute_program_body_ok s _ hstep] at hbody
      simp at hbody
  · have hstep := bf_execute_instruction_left s hpc h
    by_cases hc : s.data_ptr = 0
    · rw [if_pos hc] at hstep
      rw [bf_execute_program_body_error s _ _ (by decide) hstep] at hbody
      simp only [Prod.mk.injEq] at hbody
      rw [← hbody.2]
      exact Or.inl (by simp [bf_set_error])
    · rw [if_neg hc] at hstep
      rw [bf_execute_program_body_ok s _ hstep] at hbody
      simp at hbody
  · rw [bf_execute_program_body_ok s _ (bf_execute_instruction_plus s hpc h)] at hbody
    simp at hbody
  · rw [bf_execute_program_body_ok s _ (bf_execute_instruction_minus s hpc h)] at hbody
    simp at hbody
  · rw [bf_execute_program_body_ok s _ (bf_execute_instruction_put s hpc h)] at hbody
    simp at hbody
  · have hstep := bf_execute_instruction_get s hpc h
    by_cases hc : (fgetc s.input).1 ≠ EOF
    · rw [if_pos hc] at hstep
      rw [bf_execute_program_body_ok s _ hstep] at hbody
      simp at hbody
    · rw [if_neg hc] at hstep
      rw [bf_execute_program_body_ok s _ hstep] at hbody
      simp at hbody
  · have hstep := bf_execute_instruction_open s hpc h
    by_cases hz : s.memory.getD s.data_ptr 0 = 0
    · rw [if_pos hz] at hstep
      by_cases hc : (bf_scan_forward s.program s.program_size (s.program_size - s.program_ptr)
          s.program_ptr 1).1 ≥ s.program_size
      · rw [if_pos hc] at hstep
        rw [bf_execute_program_body_error s _ _ (by decide) hstep] at hbody
        simp only [Prod.mk.injEq, Option.some.injEq] at hbody
        exact Or.inr ⟨hbody.1.symm, h⟩
      · rw [if_neg hc] at hstep
        rw [bf_execute_program_body_ok s _ hstep] at hbody
        simp at hbody
    · rw [if_neg hz] at hstep
      by_cases hc : s.stack_top ≥ s.stack_size
      · rw [if_pos hc] at hstep
        rw [bf_execute_program_body_error s _ _ (by decide) hstep] at hbody
        simp only [Prod.mk.injEq] at hbody
        rw [← hbody.2]
        exact Or.inl (by simp [bf_set_error])
      · rw [if_neg hc] at hstep
        rw [bf_execute_program_body_ok s _ hstep] at hbody
        simp at hbody
  · have hstep := bf_execute_instruction_close s hpc h
    by_cases htop : s.stack_top = 0
    · rw [if_pos htop] at hstep
      rw [bf_execute_program_body_error s _ _ (by decide) hstep] at hbody
      simp only [Prod.mk.injEq] at hbody
      rw [← hbody.2]
      exact Or.inl (by simp [bf_set_error])
    · rw [if_neg htop] at hstep
      by_cases hz : s.memory.getD s.data_ptr 0 ≠ 0
      · rw [if_pos hz] at hstep
        rw [bf_execute_program_body_ok s _ hstep] at hbody
        simp at hbody
      · rw [if_neg hz] at hstep
        rw [bf_execute_program_body_ok s _ hstep] at hbody
        simp at hbody
  · rw [bf_execute_program_body_ok s _
      (bf_execute_instruction_other s hpc h1 h2 h3 h4 h5 h6 h7 h8)] at hbody
    simp at hbody

/-- A run that ends with an error ends in its last dispatch; the instruction
pointer is then where that dispatch began, unless the error is the unmatched
bracket of a `[`. -/
theorem bf_execute_program_failure (fuel : Nat) :
    ∀ (s : bf_state_t) (e : bf_error_t) (t : bf_state_t),
      bf_execute_program fuel s = some (e, t) → e ≠ BF_OK →
      ∃ p, (bf_dispatch_trace fuel s).getLast? = some p ∧ p < s.program_size ∧
        (t.program_ptr = p ∨
          (e = BF_ERROR_UNMATCHED_BRACKET ∧ s.program.getD p (Char.ofNat 0) = '[')) := by
  induction fuel with
  | zero =>
    intro s e t hrun he
    unfold bf_execute_program at hrun
    split_ifs at hrun
    simp only [Option.some.injEq, Prod.mk.injEq] at hrun
    exact absurd hrun.1.symm he
  | succ n ih =>
    intro s e t hrun he
    unfold bf_execute_program at hrun
    unfold bf_dispatch_trace
    split_ifs at hrun ⊢ with hpc
    · have hprog := bf_execute_program_body_program s
      rcases hres : bf_execute_program_body s with ⟨r1, t1⟩
      rw [hres] at hrun hprog
      cases r1 with
      | some e1 =>
        simp only [Option.some.injEq, Prod.mk.injEq] at hrun
        have hf := bf_execute_program_body_failure s hpc e1 t1 hres
        rw [hrun.1, hrun.2] at hf
        exact ⟨s.program_ptr, rfl, hpc, hf⟩
      | none =>
        simp only [] at hrun ⊢
        obtain ⟨p, hp1, hp2, hp3⟩ := ih t1 e t hrun he
        refine ⟨p, ?_, by rw [← hprog.2]; exact hp2, by rw [← hprog.1]; exact hp3⟩
        rw [List.getLast?_cons, hp1]
        rfl
    · simp only [Option.some.injEq, Prod.mk.injEq] at hrun
      exact absurd hrun.1.symm he

/-- C14, as the code has it. Whenever `bf_execute_program` returns an error
kind, for any program, validated or not, the error was reported by the last
dispatch, which began at an index `p` below `program_size`; and unless the
error is the `BF_ERROR_UNMATCHED_BRACKET` of a `[`, the final instruction
pointer is `p`. For a program that `bf_validate_program` accepts, run from the
freshly created state, that covers every error: the final instruction pointer
is the index of the failing instruction, below `program_size`, and it is at
`program_size` only when the status is `BF_OK`. -/
theorem failure_position :
    (∀ (fuel : Nat) (s : bf_state_t) (e : bf_error_t) (t : bf_state_t),
      bf_execute_program fuel s = some (e, t) → e ≠ BF_OK →
      ∃ p, (bf_dispatch_trace fuel s).getLast? = some p ∧ p < s.program_size ∧
        (¬ (e = BF_ERROR_UNMATCHED_BRACKET ∧ s.program.getD p (Char.ofNat 0) = '[') →
          t.program_ptr = p)) ∧
    (∀ (program : List Char), bf_validate_program program program.length = BF_OK →
      ∀ (debug_mode : Bool) (stdin : List Nat) (fuel : Nat) (e : bf_error_t) (t : bf_state_t),
      bf_execute_program fuel (bf_loaded_state debug_mode stdin program) = some (e, t) →
      (e ≠ BF_OK →
        (bf_dispatch_trace fuel (bf_loaded_state debug_mode stdin program)).getLast? =
          some t.program_ptr ∧ t.program_ptr < t.program_size) ∧
      (t.program_size ≤ t.program_ptr → e = BF_OK)) := by
  constructor
  · intro fuel s e t hrun he
    obtain ⟨p, h1, h2, h3⟩ := bf_execute_program_failure fuel s e t hrun he
    refine ⟨p, h1, h2, fun hnot => ?_⟩
    rcases h3 with h | h
    · exact h
    · exact absurd h hnot
  · intro program hv debug_mode stdin fuel e t hrun
    unfold bf_validate_program at hv
    rw [List.take_length] at hv
    obtain ⟨hb, hn⟩ := (bf_validate_loop_accepts program).mp hv
    obtain ⟨hinv, hend⟩ := stack_invariant_run program hb hn fuel _ e t
      (stack_invariant_loaded debug_mode stdin program) hrun
    have hsize : t.program_size = program.length := hinv.2.1
    have herr : e ≠ BF_OK →
        (bf_dispatch_trace fuel (bf_loaded_state debug_mode stdin program)).getLast? =
          some t.program_ptr ∧ t.program_ptr < t.program_size := by
      intro he
      obtain ⟨p, h1, h2, h3⟩ := bf_execute_program_failure fuel _ e t hrun he
      have hp : t.program_ptr = p := by
        rcases h3 with h | h
        · exact h
        · rcases hend with h' | h' | h'
          · exact absurd h'.1 he
          · rw [h'] at h; exact absurd h.1 (by decide)
          · rw [h'] at h; exact absurd h.1 (by decide)
      rw [hp, hsize]
      exact ⟨h1, h2⟩
    refine ⟨herr, fun hge => ?_⟩
    by_contra he
    have := (herr he).2
    omega

/-- C14, witness: the validated program `+<`, whose second dispatch fails on
the tape edge; the run ends with the instruction pointer at 1, the index of
the `<`. -/
theorem failure_position_witness :
    (bf_dispatch_trace 5 (bf_loaded_state false [] "+<".toList)).getLast? =
        some (bf_execute_program_iterate 2
          (bf_loaded_state false [] "+<".toList)).program_ptr ∧
    (bf_execute_program_iterate 2 (bf_loaded_state false [] "+<".toList)).program_ptr <
      (bf_execute_program_iterate 2 (bf_loaded_state false [] "+<".toList)).program_size :=
  (failure_position.2 "+<".toList (by decide) false [] 5 BF_ERROR_MEMORY_UNDERFLOW
    (bf_execute_program_iterate 2 (bf_loaded_state false [] "+<".toList)) rfl).1 (by decide)

end CWBF

